import Mathlib

/-!
Verification of achfivesec: signed-distance-field text rendering

A shallow embedding of `src/achfivesec/font.cpp` (class `FontText`) and the properties
of its two algorithms: the bitmap-to-distance-map transform `FontText::MakeDistanceMap`
and the glyph layout walk of `FontText::Load`; then of the time conversions of `util.h`
with the row seek of `main.cpp`, and of `GLShader::Compile` of `gl.cpp`.

Conventions of the embedding.

* `float` and `double` values are exact rationals (`ℚ`); `int` and `size_t` values are
  unbounded integers and naturals.  A store into an `unsigned char` is an explicit
  reduction modulo `256`.
* The last loop of `MakeDistanceMap` is embedded a second time, as `combineBodyDouble`,
  with each `double` operation rounded to binary64 by `roundDouble`: the thresholds of
  the encoding are decided by that rounding and are stated on this second embedding.
* A C pointer to a buffer (`double*`, `short*`, `unsigned char*`) is the map from an index
  to the element stored there.  `calloc` gives the constant-zero map, `malloc` gives a
  map whose contents are arbitrary and are passed in as `Uninit`.
* A C `for (i = 0; i < n; ++i)` loop is `forLoop body n`; the fallible loop of `Load`
  is `forLoopM`, in the `Except Fault` monad, where a fault is an access outside the
  bounds of a `std::vector` or `std::wstring`.
* Functions of the libraries the code links against (`edtaa3func`, `freetype-gl`) are
  parameters, gathered in `Edtaa3Lib` and `FreetypeGL`.  Where a property needs the
  routines of `edtaa3func` to be pure functions of the buffers they are passed, that
  contract is the hypothesis `Edtaa3Lib.Pure`.
-/

namespace Achfivesec

/-! ## Numeric conversions -/

/-- Conversion of a floating value to an integer type (`static_cast<int>(x)`,
`(unsigned char) x`): truncation toward zero. -/
def truncInt (x : ℚ) : Int := if 0 ≤ x then ⌊x⌋ else ⌈x⌉

/-- Store of an `int` into an `unsigned char`: reduction modulo `2^8`. -/
def toUChar (v : Int) : Nat := (v % 256).toNat

/-- An 8-bit sample of a bitmap (`unsigned char`). -/
abbrev UChar := Fin 256

/-- A buffer of `double`s addressed through a pointer. -/
abbrev Buf := Nat → ℚ

/-- The loop `for (i = 0; i < n; ++i) body(i)` acting on a state `σ`. -/
def forLoop {σ : Type} (body : Nat → σ → σ) : Nat → σ → σ
  | 0, s => s
  | n + 1, s => body n (forLoop body n s)

/-! ## `FontText::MakeDistanceMap` (font.cpp, lines 161-237) -/

/-- The routines declared in `edtaa3func.h`.  Only their declarations are part of the
sources, so they are parameters.  Each receives the buffers it is passed, in the order of
its C parameters, and returns the contents of the buffers it writes:
`computegradient(img, w, h, gx, gy)` returns `(gx, gy)` and
`edtaa3(img, gx, gy, w, h, distx, disty, dist)` returns `(distx, disty, dist)`. -/
structure Edtaa3Lib where
  computegradient : Buf → Nat → Nat → Buf → Buf → Buf × Buf
  edtaa3 : Buf → Buf → Buf → Nat → Nat → (Nat → Int) → (Nat → Int) → Buf →
    (Nat → Int) × (Nat → Int) × Buf

/-- Contents of the three `malloc`ed buffers of `MakeDistanceMap` before their first
write (lines 163, 164 and 217). -/
structure Uninit where
  xdist : Nat → Int
  ydist : Nat → Int
  out : Nat → Nat

/-- State of the first loop (lines 172-179): the `data` buffer and the running
minimum and maximum. -/
structure ScanState where
  data : Buf
  img_min : ℚ
  img_max : ℚ

/-- Body of the loop at lines 173-179. -/
def scanBody (img : Nat → UChar) (i : Nat) (s : ScanState) : ScanState :=
  let v : ℚ := ((img i).val : ℚ)
  { data := Function.update s.data i v
    img_max := if v > s.img_max then v else s.img_max
    img_min := if v < s.img_min then v else s.img_min }

/-- Body of the loop at lines 182-185: `data[i] = (img[i]-img_min)/img_max`. -/
def rescaleBody (img : Nat → UChar) (img_min img_max : ℚ) (i : Nat) (data : Buf) : Buf :=
  Function.update data i ((((img i).val : ℚ) - img_min) / img_max)

/-- Body of the loops at lines 190-196 and 208-214: `if (d[i] < 0) d[i] = 0.0`. -/
def clampNegBody (i : Nat) (d : Buf) : Buf :=
  if d i < 0 then Function.update d i 0 else d

/-- Body of the loop at lines 201-204: `data[i] = 1 - data[i]`. -/
def invertBody (i : Nat) (data : Buf) : Buf :=
  Function.update data i (1 - data i)

/-- The call `memset(p, 0, sizeof(double)*n)`. -/
def memsetZero (n : Nat) (p : Buf) : Buf := fun j => if j < n then 0 else p j

/-- State of the last loop (lines 218-226): `outside`, read and overwritten, and `out`. -/
structure CombineState where
  outside : Buf
  out : Nat → Nat

/-- Body of the loop at lines 218-226. -/
def combineBody (inside : Buf) (i : Nat) (s : CombineState) : CombineState :=
  let o1 := Function.update s.outside i (s.outside i - inside i)
  let o2 := Function.update o1 i (128 + o1 i * 16)
  let o3 := if o2 i < 0 then Function.update o2 i 0 else o2
  let o4 := if o3 i > 255 then Function.update o3 i 255 else o3
  { outside := o4
    out := Function.update s.out i (toUChar (255 - (toUChar (truncInt (o4 i)) : Int))) }

/-- The values `MakeDistanceMap` computes on the way, each named after the variable
and the line at which it is taken. -/
structure DistanceMapRun where
  /-- The running minimum after line 179. -/
  img_min : ℚ
  /-- The running maximum after line 179. -/
  img_max : ℚ
  /-- The buffer `data` after line 185, as passed to the calls at lines 188-189. -/
  data : Buf
  /-- The buffers `gx`, `gy` as written by `computegradient` at line 188. -/
  gradOutside : Buf × Buf
  /-- The buffers `xdist`, `ydist` as written by `edtaa3` at line 189. -/
  xyOutside : (Nat → Int) × (Nat → Int)
  /-- The buffer `outside` as written by `edtaa3` at line 189. -/
  edtOutside : Buf
  /-- The buffer `outside` after line 196. -/
  outside : Buf
  /-- The buffers `gx`, `gy` after the `memset`s of lines 199-200. -/
  gradCleared : Buf × Buf
  /-- The buffer `data` after line 204, as passed to the calls at lines 206-207. -/
  dataInverted : Buf
  /-- The buffers `gx`, `gy` as written by `computegradient` at line 206. -/
  gradInside : Buf × Buf
  /-- The buffer `inside` as written by `edtaa3` at line 207. -/
  edtInside : Buf
  /-- The buffer `inside` after line 214. -/
  inside : Buf
  /-- The buffer `outside` after line 226: the clamped levels, before the inversion. -/
  level : Buf
  /-- The buffer `out` after line 226. -/
  out : Nat → Nat

/-- The body of `FontText::MakeDistanceMap(img, width, height)`, statement by statement. -/
def runDistanceMap (lib : Edtaa3Lib) (mem : Uninit) (img : Nat → UChar)
    (width height : Nat) : DistanceMapRun :=
  let n := width * height
  -- lines 163-169
  let xdist := mem.xdist
  let ydist := mem.ydist
  let gx : Buf := fun _ => 0
  let gy : Buf := fun _ => 0
  let data : Buf := fun _ => 0
  let outside : Buf := fun _ => 0
  let inside : Buf := fun _ => 0
  -- lines 171-179
  let scan := forLoop (scanBody img) n { data := data, img_min := 255, img_max := -255 }
  -- lines 181-185
  let data := forLoop (rescaleBody img scan.img_min scan.img_max) n scan.data
  -- lines 187-196
  let g1 := lib.computegradient data height width gx gy
  let e1 := lib.edtaa3 data g1.1 g1.2 height width xdist ydist outside
  let outside := forLoop clampNegBody n e1.2.2
  -- lines 198-204
  let gx := memsetZero n g1.1
  let gy := memsetZero n g1.2
  let dataInverted := forLoop invertBody n data
  -- lines 206-214
  let g2 := lib.computegradient dataInverted height width gx gy
  let e2 := lib.edtaa3 dataInverted g2.1 g2.2 height width e1.1 e1.2.1 inside
  let inside := forLoop clampNegBody n e2.2.2
  -- lines 216-226
  let fin := forLoop (combineBody inside) n { outside := outside, out := mem.out }
  { img_min := scan.img_min
    img_max := scan.img_max
    data := data
    gradOutside := g1
    xyOutside := (e1.1, e1.2.1)
    edtOutside := e1.2.2
    outside := outside
    gradCleared := (gx, gy)
    dataInverted := dataInverted
    gradInside := g2
    edtInside := e2.2.2
    inside := inside
    level := fin.outside
    out := fin.out }

/-- The byte array `FontText::MakeDistanceMap(img, width, height)` returns: the
`width * height` bytes of the buffer `out`. -/
def MakeDistanceMap (lib : Edtaa3Lib) (mem : Uninit) (img : Nat → UChar)
    (width height : Nat) : List Nat :=
  (List.range (width * height)).map (runDistanceMap lib mem img width height).out

/-- Rounding of a rational to the nearest integer, a tie going to the even one. -/
def roundHalfEven (q : ℚ) : Int :=
  if 2 * (q - ⌊q⌋) < 1 then ⌊q⌋
  else if 1 < 2 * (q - ⌊q⌋) then ⌊q⌋ + 1
  else if ⌊q⌋ % 2 = 0 then ⌊q⌋ else ⌊q⌋ + 1

/-- The binary64 exponent of a positive value `x`: the `e` with `2^e ≤ x < 2^(e+1)`, and
`-1022`, the exponent of the least normal numbers, for the values below them. -/
def binadeExp (x : ℚ) : Int := max (Int.log 2 x) (-1022)

/-- The spacing of the doubles around a positive value: 52 fraction bits below its
exponent. -/
def ulpOf (x : ℚ) : ℚ := 2 ^ (binadeExp x - 52)

/-- The double nearest to a positive value, ties to even. -/
def roundPos (x : ℚ) : ℚ := (roundHalfEven (x / ulpOf x) : ℚ) * ulpOf x

/-- The result a `double` operation delivers for the exact result `x`: the nearest
double, ties to even, symmetric in the sign. -/
def roundDouble (x : ℚ) : ℚ :=
  if 0 < x then roundPos x else if x < 0 then -roundPos (-x) else 0

/-- Body of the loop at lines 218-226 in `double` arithmetic: the subtraction of line 220
and the product and the sum of line 221 are rounded; the comparisons, the stores of `0`
and `255` and the conversion of line 224 are exact. -/
def combineBodyDouble (inside : Buf) (i : Nat) (s : CombineState) : CombineState :=
  let o1 := Function.update s.outside i (roundDouble (s.outside i - inside i))
  let o2 := Function.update o1 i (roundDouble (128 + roundDouble (o1 i * 16)))
  let o3 := if o2 i < 0 then Function.update o2 i 0 else o2
  let o4 := if o3 i > 255 then Function.update o3 i 255 else o3
  { outside := o4
    out := Function.update s.out i (toUChar (255 - (toUChar (truncInt (o4 i)) : Int))) }

/-- The value line 221 stores in `outside[i]` in `double` arithmetic, from the exact
difference `z` of the two distances: `z` rounded (line 220), times 16 rounded, added to
128 and rounded. -/
def levelDouble (z : ℚ) : ℚ := roundDouble (128 + roundDouble (roundDouble z * 16))

/-- The value the loop at lines 218-226 leaves in `outside[i]` in `double` arithmetic:
the sequential clamp of `levelDouble (o - n)`. -/
def clampedLevelDouble (o n : ℚ) : ℚ :=
  let v := levelDouble (o - n)
  let v := if v < 0 then 0 else v
  if v > 255 then 255 else v

/-! ## `FontText::Load`, `FontText::Unload` (font.cpp, lines 10-138) -/

/-- A `glm::vec2`. -/
structure Vec2 where
  x : ℚ
  y : ℚ
deriving DecidableEq

/-- A `glm::vec3`. -/
structure Vec3 where
  x : ℚ
  y : ℚ
  z : ℚ
deriving DecidableEq

/-- The product `v * s` of a `glm::vec2` and a scalar. -/
def Vec2.scale (v : Vec2) (s : ℚ) : Vec2 := ⟨v.x * s, v.y * s⟩

/-- Modelled from the spec: the glyph record `texture_glyph_t` of the freetype-gl
library, whose declaration is not part of the sources.  It holds the bitmap width and
height (`size_t`), the bitmap offset (`int`), the advance width, the atlas rectangle
`(s0, t0, s1, t1)` and the kerning lookup keyed by the preceding character, which is
what `texture_glyph_get_kerning(glyph, charcode)` returns. -/
structure texture_glyph_t where
  width : Nat
  height : Nat
  offset_x : Int
  offset_y : Int
  advance_x : ℚ
  s0 : ℚ
  t0 : ℚ
  s1 : ℚ
  t1 : ℚ
  kerning : Nat → ℚ

/-- The struct `FormattedString` (font.h, lines 22-26); a `wchar_t` is its code. -/
structure FormattedString where
  text : List Nat
  colors : List Vec3

/-- Modelled from the spec: the rasterizer (freetype-gl), whose functions are declared
outside the sources.  A pointer it returns is a number, `none` is `nullptr`.
`atlas` is what `texture_atlas_new(512, 512, 1)` returns and `atlas_data` is
`atlas->data`, of `atlas->width = atlas->height = 512`, once the glyphs are loaded;
`texture_font_load_glyphs` returns the number of glyphs it could not produce. -/
structure FreetypeGL where
  atlas : Nat
  atlas_data : Nat → UChar
  texture_font_new_from_file : Nat → ℚ → String → Option Nat
  texture_font_load_glyphs : Nat → List Nat → Nat
  texture_font_get_glyph : Nat → Nat → Option texture_glyph_t

/-- An access the C++ code performs outside the bounds of a container. -/
inductive Fault where
  /-- The read `str.text[i]` with `i` not below `str.text.size()`. -/
  | textIndex (i : Nat)
  /-- The read `str.colors[i]` with `i` not below `str.colors.size()`. -/
  | colorIndex (i : Nat)
  /-- The read of element `0` of an empty vector (lines 112-116). -/
  | emptyVector
  /-- The use of a null `shared_ptr` (lines 143, 150 and 157). -/
  | nullPointer
  /-- The exception `std::out_of_range` of `std::string::substr` (gl.cpp, line 639). -/
  | outOfRange
deriving DecidableEq

/-- The fallible loop `for (i = 0; i < n; i++) body(i)`: it stops at the first fault. -/
def forLoopM {σ : Type} (body : Nat → σ → Except Fault σ) : Nat → σ → Except Fault σ
  | 0, s => .ok s
  | n + 1, s =>
    match forLoopM body n s with
    | .ok s1 => body n s1
    | .error e => .error e

/-- The pen and the five vectors of lines 67-71 and 74. -/
structure LayoutState where
  pen : Vec2
  textPositions : List Vec3
  textPositionOffsets : List Vec2
  textTexcoords0 : List Vec2
  textTexcoords1 : List Vec2
  textColors : List Vec3

/-- Lines 81-87: the pen after `pen.x += kerning + kerningOffset`, where `kerning` is
looked up against `str.text[i-1]` when `i > 0` and is `0.0f` otherwise. -/
def kernedPen (str : FormattedString) (kerningOffset : ℚ) (glyph : texture_glyph_t)
    (i : Nat) (pen : Vec2) : Except Fault Vec2 :=
  let kerning : Except Fault ℚ :=
    if i > 0 then
      match str.text[i - 1]? with
      | some prev => .ok (glyph.kerning prev)
      | none => .error (.textIndex (i - 1))
    else .ok 0
  match kerning with
  | .ok k => .ok { pen with x := pen.x + (k + kerningOffset) }
  | .error e => .error e

/-- Lines 89-101: the five `push_back`s for a glyph placed at `pen`, and the advance. -/
def pushGlyph (glyph : texture_glyph_t) (color : Vec3) (pen : Vec2) (st : LayoutState) :
    LayoutState :=
  let x0 : Int := truncInt (pen.x + glyph.offset_x)
  let y0 : Int := truncInt (pen.y + glyph.offset_y)
  let x1 : Int := x0 + glyph.width
  let y1 : Int := y0 - glyph.height
  let center : Vec2 := Vec2.scale ⟨((x0 + x1 : Int) : ℚ), ((y0 + y1 : Int) : ℚ)⟩ (1 / 2)
  { pen := { pen with x := pen.x + glyph.advance_x }
    textPositions := st.textPositions ++ [⟨center.x, center.y, 0⟩]
    textPositionOffsets :=
      st.textPositionOffsets ++ [Vec2.scale ⟨(glyph.width : ℚ), (glyph.height : ℚ)⟩ (1 / 2)]
    textTexcoords0 := st.textTexcoords0 ++ [⟨glyph.s0, glyph.t0⟩]
    textTexcoords1 := st.textTexcoords1 ++ [⟨glyph.s1, glyph.t1⟩]
    textColors := st.textColors ++ [color] }

/-- Body of the loop at lines 76-103, for the font pointer `font`. -/
def layoutBody (ft : FreetypeGL) (font : Nat) (str : FormattedString) (kerningOffset : ℚ)
    (i : Nat) (st : LayoutState) : Except Fault LayoutState :=
  match str.text[i]? with
  | none => .error (.textIndex i)
  | some c =>
    match ft.texture_font_get_glyph font c with
    | none => .ok st
    | some glyph =>
      match kernedPen str kerningOffset glyph i st.pen with
      | .error e => .error e
      | .ok pen =>
        match str.colors[i]? with
        | none => .error (.colorIndex i)
        | some color => .ok (pushGlyph glyph color pen st)

/-- The state at line 74: the pen at `pos`, the vectors empty. -/
def layoutInit (pos : Vec2) : LayoutState :=
  { pen := pos, textPositions := [], textPositionOffsets := [], textTexcoords0 := [],
    textTexcoords1 := [], textColors := [] }

/-- Lines 74-103: the layout walk over the whole string. -/
def layoutWalk (ft : FreetypeGL) (font : Nat) (str : FormattedString) (pos : Vec2)
    (kerningOffset : ℚ) : Except Fault LayoutState :=
  forLoopM (layoutBody ft font str kerningOffset) str.text.length (layoutInit pos)

/-- A `GLVertexBuffer`: the floats handed to `AddStatic`. -/
structure GLVertexBuffer where
  data : List ℚ
deriving DecidableEq

/-- A `GLVertexArray`: for each `Add`, the attribute index, its size and the buffer. -/
structure GLVertexArray where
  attributes : List (Nat × Nat × GLVertexBuffer)
deriving DecidableEq

/-- A `GLTexture2D` after `Allocate`: its dimensions and its bytes (the sampler
settings of lines 60-62 are not recorded). -/
structure GLTexture2D where
  width : Nat
  height : Nat
  pixels : List Nat
deriving DecidableEq

/-- The data members of `FontText` (font.h, lines 54-67); a null pointer is `none`. -/
structure FontText where
  loaded : Bool
  atlas : Option Nat
  font : Option Nat
  textLength : Int
  textVao : Option GLVertexArray
  textPositionVbo : Option GLVertexBuffer
  textPositionOffsetVbo : Option GLVertexBuffer
  textTexcoord0Vbo : Option GLVertexBuffer
  textTexcoord1Vbo : Option GLVertexBuffer
  textColorVbo : Option GLVertexBuffer
  textAtlasDistanceMap : Option GLTexture2D
deriving DecidableEq

/-- The constructor `FontText::FontText()` (lines 10-16); `textLength` is left
uninitialised and holds `garbage`. -/
def FontText.new (garbage : Int) : FontText :=
  { loaded := false, atlas := none, font := none, textLength := garbage,
    textVao := none, textPositionVbo := none, textPositionOffsetVbo := none,
    textTexcoord0Vbo := none, textTexcoord1Vbo := none, textColorVbo := none,
    textAtlasDistanceMap := none }

/-- The method `FontText::Unload()` (lines 127-138).  `texture_atlas_delete(atlas)` and
`texture_font_delete(font)` release what the pointers refer to and leave the two
members as they are. -/
def FontText.Unload (self : FontText) : FontText :=
  { self with
    loaded := false
    textVao := none
    textPositionVbo := none
    textTexcoord0Vbo := none
    textTexcoord1Vbo := none
    textColorVbo := none
    textAtlasDistanceMap := none }

/-- The argument `&v[0].x` of `AddStatic` for a vector of `glm::vec3`: the floats of
`v`, read from element `0` on. -/
def floatsOfVec3 (v : List Vec3) : Except Fault (List ℚ) :=
  match v with
  | [] => .error .emptyVector
  | _ => .ok (v.flatMap fun p => [p.x, p.y, p.z])

/-- The argument `&v[0].x` of `AddStatic` for a vector of `glm::vec2`. -/
def floatsOfVec2 (v : List Vec2) : Except Fault (List ℚ) :=
  match v with
  | [] => .error .emptyVector
  | _ => .ok (v.flatMap fun p => [p.x, p.y])

/-- Lines 105-124: the buffers are created and filled, the vertex array is assembled and
`loaded` is set. -/
def uploadBuffers (self : FontText) (st : LayoutState) : Except Fault FontText :=
  match floatsOfVec3 st.textPositions, floatsOfVec2 st.textPositionOffsets,
    floatsOfVec2 st.textTexcoords0, floatsOfVec2 st.textTexcoords1,
    floatsOfVec3 st.textColors with
  | .ok p, .ok o, .ok t0, .ok t1, .ok c =>
    .ok { self with
      textPositionVbo := some ⟨p⟩
      textPositionOffsetVbo := some ⟨o⟩
      textTexcoord0Vbo := some ⟨t0⟩
      textTexcoord1Vbo := some ⟨t1⟩
      textColorVbo := some ⟨c⟩
      textVao := some ⟨[(0, 3, ⟨p⟩), (10, 2, ⟨o⟩), (2, 2, ⟨t0⟩), (3, 2, ⟨t1⟩), (8, 3, ⟨c⟩)]⟩
      loaded := true }
  | _, _, _, _, _ => .error .emptyVector

/-- The method `FontText::Load(path, str, pos, size, kerningOffset)` (lines 34-125):
the value it returns and the object it leaves. -/
def FontText.Load (ft : FreetypeGL) (lib : Edtaa3Lib) (mem : Uninit) (self : FontText)
    (path : String) (str : FormattedString) (pos : Vec2) (size kerningOffset : ℚ) :
    Except Fault (Bool × FontText) :=
  if self.loaded then .ok (false, self)
  else
    -- lines 38-42
    let self := { self with atlas := some ft.atlas }
    let self := { self with font := ft.texture_font_new_from_file ft.atlas size path }
    match self.font with
    | none => .ok (false, self.Unload)
    | some font =>
      -- lines 50-55
      if ft.texture_font_load_glyphs font str.text > 0 then .ok (false, self)
      else
        -- lines 57-64
        let distanceMap := MakeDistanceMap lib mem ft.atlas_data 512 512
        let self := { self with textAtlasDistanceMap := some ⟨512, 512, distanceMap⟩ }
        -- lines 66-103
        let self := { self with textLength := (str.text.length : Int) }
        match layoutWalk ft font str pos kerningOffset with
        | .error e => .error e
        | .ok st =>
          -- lines 105-124
          match uploadBuffers self st with
          | .error e => .error e
          | .ok self => .ok (true, self)

/-- The characters of the first `n` positions of the string that have a glyph, each
with its index in the string, in string order. -/
def mappedChars (ft : FreetypeGL) (font : Nat) (str : FormattedString) (n : Nat) :
    List (Nat × texture_glyph_t) :=
  (List.range n).filterMap fun i =>
    match str.text[i]? with
    | none => none
    | some c => (ft.texture_font_get_glyph font c).map fun g => (i, g)

/-- The value the loop at lines 218-226 leaves in `outside[i]`: the sequential clamp of
`128 + (o - n) * 16`. -/
def clampedLevel (o n : ℚ) : ℚ :=
  let v := 128 + (o - n) * 16
  let v := if v < 0 then 0 else v
  if v > 255 then 255 else v

/-- Whether the glyph table of `font` has a glyph for the character `c`. -/
def hasGlyph (ft : FreetypeGL) (font : Nat) (c : Nat) : Bool :=
  (ft.texture_font_get_glyph font c).isSome

/-- The entry of `mappedChars` for position `i`, if its character has a glyph. -/
def mappedAt (ft : FreetypeGL) (font : Nat) (str : FormattedString) (i : Nat) :
    Option (Nat × texture_glyph_t) :=
  match str.text[i]? with
  | none => none
  | some c => (ft.texture_font_get_glyph font c).map fun g => (i, g)

/-- What the first `n` rounds of the layout walk have emitted, in terms of the mapped
characters among the first `n` positions. -/
structure WalkInv (ft : FreetypeGL) (font : Nat) (str : FormattedString) (n : Nat)
    (st : LayoutState) : Prop where
  count : (mappedChars ft font str n).length = (str.text.take n).countP (hasGlyph ft font)
  positions : st.textPositions.length = (mappedChars ft font str n).length
  offsets : st.textPositionOffsets.length = (mappedChars ft font str n).length
  texcoords0 : st.textTexcoords0 = (mappedChars ft font str n).map fun p => ⟨p.2.s0, p.2.t0⟩
  texcoords1 : st.textTexcoords1 = (mappedChars ft font str n).map fun p => ⟨p.2.s1, p.2.t1⟩
  colors : st.textColors.map some = (mappedChars ft font str n).map fun p => str.colors[p.1]?

/-- An example glyph of the given advance width and left offset, without kerning. -/
def exampleGlyph (advance : ℚ) (offset_x : Int) : texture_glyph_t :=
  { width := 10, height := 12, offset_x := offset_x, offset_y := 11, advance_x := advance,
    s0 := 0, t0 := 0, s1 := 1 / 4, t1 := 1 / 4, kerning := fun _ => 0 }

/-- An example rasterizer: the font opens, every glyph is produced, and the glyph table
has glyphs for `A` (65) and `B` (66) only. -/
def exampleFt : FreetypeGL :=
  { atlas := 1
    atlas_data := fun _ => 0
    texture_font_new_from_file := fun _ _ _ => some 2
    texture_font_load_glyphs := fun _ _ => 0
    texture_font_get_glyph := fun _ c =>
      if c = 65 then some (exampleGlyph 11 1)
      else if c = 66 then some (exampleGlyph 9 0)
      else none }

/-- An example string: `A`, an unmapped control character, `B`, with three colours. -/
def exampleStr : FormattedString :=
  { text := [65, 7, 66], colors := [⟨1, 0, 0⟩, ⟨0, 0, 1⟩, ⟨0, 1, 0⟩] }

/-- An example rasterizer whose font opens and which reports one glyph as failed. -/
def exampleFtMissing : FreetypeGL :=
  { exampleFt with texture_font_load_glyphs := fun _ _ => 1 }

/-- An example rasterizer whose font does not open. -/
def exampleFtNoFont : FreetypeGL :=
  { exampleFt with texture_font_new_from_file := fun _ _ _ => none }

/-- Example distance routines: the gradient is left as it is and the distance of a
pixel is its level. -/
def exampleLib : Edtaa3Lib :=
  { computegradient := fun _ _ _ gx gy => (gx, gy)
    edtaa3 := fun img _ _ _ _ distx disty _ => (distx, disty, img) }

/-- Example contents of the uninitialised buffers. -/
def exampleMem : Uninit :=
  { xdist := fun _ => 7, ydist := fun _ => -7, out := fun _ => 99 }

/-- An example bitmap: sample `0` is `255`, sample `1` is `51`, the others are `0`. -/
def exampleImg : Nat → UChar := fun i => if i = 0 then 255 else if i = 1 then 51 else 0

/-- An example font path. -/
def examplePath : String := "OpenSans-Semibold.ttf"

/-- Two buffers of `n` cells with the same contents. -/
def agreeBelow (n : Nat) (a b : Buf) : Prop := ∀ j, j < n → a j = b j

/-- Modelled from the spec: the contract of the routines of `edtaa3func`, whose bodies
are not part of the sources.  They are pure functions of the `w * h` cells of the buffers
they are passed: `computegradient` estimates the gradient from the image and the gradient
buffers it is given, and `edtaa3` produces the distances from the image and its gradient
alone (`distx`, `disty` and `dist` are outputs, overwritten whatever they held). -/
structure Edtaa3Lib.Pure (lib : Edtaa3Lib) : Prop where
  computegradient_cells : ∀ (w h : Nat) (img img1 gx gx1 gy gy1 : Buf),
    agreeBelow (w * h) img img1 → agreeBelow (w * h) gx gx1 → agreeBelow (w * h) gy gy1 →
    agreeBelow (w * h) (lib.computegradient img w h gx gy).1
        (lib.computegradient img1 w h gx1 gy1).1
      ∧ agreeBelow (w * h) (lib.computegradient img w h gx gy).2
        (lib.computegradient img1 w h gx1 gy1).2
  edtaa3_cells : ∀ (w h : Nat) (img img1 gx gx1 gy gy1 : Buf) (dx dx1 dy dy1 : Nat → Int)
    (d d1 : Buf),
    agreeBelow (w * h) img img1 → agreeBelow (w * h) gx gx1 → agreeBelow (w * h) gy gy1 →
    agreeBelow (w * h) (lib.edtaa3 img gx gy w h dx dy d).2.2
      (lib.edtaa3 img1 gx1 gy1 w h dx1 dy1 d1).2.2

/-- The distance pass in the words of the specification, `edtaa3(img, computegradient(img))`:
the gradient of `img` is computed into zeroed buffers and `edtaa3` is run on `img` and
that gradient, with zeroed output buffers. -/
def distancePass (lib : Edtaa3Lib) (img : Buf) (w h : Nat) : Buf :=
  (lib.edtaa3 img
    (lib.computegradient img w h (fun _ => 0) (fun _ => 0)).1
    (lib.computegradient img w h (fun _ => 0) (fun _ => 0)).2
    w h (fun _ => 0) (fun _ => 0) (fun _ => 0)).2.2

/-- An example string with fewer colours than characters: `A`, `B`, `A` and two colours. -/
def exampleShort : FormattedString :=
  { text := [65, 66, 65], colors := [⟨1, 0, 0⟩, ⟨0, 1, 0⟩] }

/-- The method `FontText::Load(path, text, pos, size, kerningOffset)` (lines 23-32): the
loop pushes one `glm::vec3(1.0f)` per character and the other overload is called. -/
def FontText.LoadText (ft : FreetypeGL) (lib : Edtaa3Lib) (mem : Uninit) (self : FontText)
    (path : String) (text : List Nat) (pos : Vec2) (size kerningOffset : ℚ) :
    Except Fault (Bool × FontText) :=
  let str : FormattedString :=
    { text := text
      colors := forLoop (fun _ (colors : List Vec3) => colors ++ [⟨1, 1, 1⟩]) text.length [] }
  FontText.Load ft lib mem self path str pos size kerningOffset

/-- The OpenGL constant `GL_POINTS`. -/
def GL_POINTS : Nat := 0

/-- What `FontText::Draw` asks of OpenGL: the texture unit the distance map is bound to
and the call `glDrawArrays(mode, first, count)`. -/
structure DrawCall where
  unit : Int
  mode : Nat
  first : Int
  count : Int
deriving DecidableEq

/-- The method `FontText::Draw(unit)` (lines 140-146) with `Bind` and `Unbind` (lines
148-159) and `GLVertexArray::Draw(mode, count)` (gl.cpp, lines 429-434): the texture and
the vertex array are used through their pointers and `glDrawArrays(GL_POINTS, 0,
textLength)` is issued. -/
def FontText.Draw (self : FontText) (unit : Int) : Except Fault DrawCall :=
  match self.textAtlasDistanceMap, self.textVao with
  | some _, some _ => .ok { unit := unit, mode := GL_POINTS, first := 0, count := self.textLength }
  | _, _ => .error .nullPointer

/-- Example routines that report the arguments `w` and `h` they are called with: the
gradient and the `distx`, `disty` buffers are filled with `w` and `h`. -/
def probeLib : Edtaa3Lib :=
  { computegradient := fun _ w h _ _ => (fun _ => (w : ℚ), fun _ => (h : ℚ))
    edtaa3 := fun _ _ _ w h _ _ dist => (fun _ => (w : Int), fun _ => (h : Int), dist) }

/-- The constant `Util::BPM()`. -/
def Util.BPM : ℚ := 164

/-- The constant `Util::RPM()`, the rows per beat. -/
def Util.RPM : ℚ := 8

/-- The function `Util::MilliToBeats` (util.h, line 18). -/
def Util.MilliToBeats (milli : ℚ) : ℚ := milli * Util.BPM / 60000

/-- The function `Util::BeatsToMilli` (util.h, line 19). -/
def Util.BeatsToMilli (beats : ℚ) : ℚ := beats * 60000 / Util.BPM

/-- The function `Util::RowToMilli` (util.h, line 20). -/
def Util.RowToMilli (row : ℚ) : ℚ := Util.BeatsToMilli (row / Util.RPM)

/-- The function `Util::MilliToRow` (util.h, line 21). -/
def Util.MilliToRow (milli : ℚ) : ℚ := Util.MilliToBeats milli * Util.RPM

/-- The callback `Application::set_row(d, row)` (main.cpp, lines 398-403): the playing
offset, in milliseconds, it sets on the sound: `(int) Util::RowToMilli(row)`. -/
def set_row (row : Int) : Int := truncInt (Util.RowToMilli (row : ℚ))

/-- The row the main loop computes (main.cpp, lines 267-270) when the sound reports the
playing offset `time`, in milliseconds: `(int) std::floor(Util::MilliToRow(time))`. -/
def currentRow (time : Int) : Int := ⌊Util.MilliToRow (time : ℚ)⌋

/-! ## `GLShader::Compile` (gl.cpp, lines 484-506, 550-587, 637-690) -/

/-- The enumeration `GLShaderType`. -/
inductive GLShaderType where
  | VertexShader
  | TessControlShader
  | TessEvaluationShader
  | GeometryShader
  | FragmentShader
deriving DecidableEq

/-- What `GLShader::Compile` reads from outside the program: the lines of the file at a
path (`none` when the file cannot be opened) and the `GL_COMPILE_STATUS` that OpenGL
reports after `glCompileShader` for a shader type and a source text. -/
structure ShaderEnv where
  fileLines : String → Option (List String)
  compileStatus : GLShaderType → String → Int

/-- The expression `path.substr(path.find_last_of("."))` on the characters of `path`: the
suffix that starts at the last `.`, and `none` when there is no `.`, in which case the
position is `npos` and `substr` throws. -/
def extensionOf : List Char → Option (List Char)
  | [] => none
  | c :: cs =>
    match extensionOf cs with
    | some e => some e
    | none => if c = '.' then some (c :: cs) else none

/-- The method `GLShader::Impl::InferShaderType(path, type)` (lines 637-668): `some type`
when it returns `true` with `type` set, `none` when it returns `false`. -/
def InferShaderType (path : String) : Except Fault (Option GLShaderType) :=
  match extensionOf path.toList with
  | none => .error .outOfRange
  | some e =>
    let extension := String.mk e
    if extension = ".vert" ∨ extension = ".vsh" then .ok (some .VertexShader)
    else if extension = ".tessctrl" ∨ extension = ".tcsh" then .ok (some .TessControlShader)
    else if extension = ".tesseval" ∨ extension = ".tesh" then
      .ok (some .TessEvaluationShader)
    else if extension = ".geom" ∨ extension = ".gsh" then .ok (some .GeometryShader)
    else if extension = ".frag" ∨ extension = ".fsh" then .ok (some .FragmentShader)
    else .ok none

/-- The method `GLShader::Impl::LoadShaderFile(path, content)` (lines 670-690): `none` when
it returns `false`, and otherwise the content, each line preceded by a line feed. -/
def LoadShaderFile (env : ShaderEnv) (path : String) : Option String :=
  match env.fileLines path with
  | none => none
  | some lines =>
    some (lines.foldl (fun content line => content ++ (String.singleton (Char.ofNat 10) ++ line))
      (String.mk []))

/-- The value `GLShader::CompileString(type, content)` returns (lines 550-587): `false`
when the compile status is `0`, `true` otherwise. -/
def GLShader.CompileString (env : ShaderEnv) (type : GLShaderType) (content : String) : Bool :=
  if env.compileStatus type content = 0 then false else true

/-- The method `GLShader::Compile(type, path)` (lines 496-506). -/
def GLShader.CompileTyped (env : ShaderEnv) (type : GLShaderType) (path : String) : Bool :=
  match LoadShaderFile env path with
  | none => false
  | some content => if GLShader.CompileString env type content then false else true

/-- The method `GLShader::Compile(path)` (lines 484-494). -/
def GLShader.Compile (env : ShaderEnv) (path : String) : Except Fault Bool :=
  match InferShaderType path with
  | .error e => .error e
  | .ok none => .ok false
  | .ok (some type) => .ok (if GLShader.CompileTyped env type path then false else true)

/-- An example environment without any file. -/
def exampleNoFiles : ShaderEnv :=
  { fileLines := fun _ => none, compileStatus := fun _ _ => 1 }

/-- An example environment in which every file has one line and every shader compiles. -/
def exampleShaders : ShaderEnv :=
  { fileLines := fun _ => some ["void main();"], compileStatus := fun _ _ => 1 }

/-! ## Lemmas on the loops -/

theorem forLoop_succ {σ : Type} (body : Nat → σ → σ) (n : Nat) (s : σ) :
    forLoop body (n + 1) s = body n (forLoop body n s) := rfl

/-- A loop whose body rewrites cell `i` from the old content of cell `i` acts on the
first `n` cells independently. -/
theorem forLoop_update_apply (f : Nat → ℚ → ℚ) (n : Nat) (d : Buf) (j : Nat) :
    forLoop (fun i (b : Buf) => Function.update b i (f i (b i))) n d j
      = if j < n then f j (d j) else d j := by
  induction n with
  | zero => simp [forLoop]
  | succ n ih =>
    rw [forLoop_succ]
    by_cases hj : j = n
    · subst hj
      have hd : forLoop (fun i (b : Buf) => Function.update b i (f i (b i))) j d j = d j := by
        rw [ih]; simp
      simp [hd]
    · rw [Function.update_noteq hj, ih]
      have h1 : j < n + 1 ↔ j < n := by omega
      simp [h1]

theorem clampNegBody_eq (i : Nat) (d : Buf) :
    clampNegBody i d = Function.update d i (max (d i) 0) := by
  unfold clampNegBody
  split_ifs with h
  · rw [max_eq_right (le_of_lt h)]
  · rw [max_eq_left (not_lt.mp h), Function.update_eq_self]

theorem forLoop_clampNeg_apply (n : Nat) (d : Buf) (j : Nat) :
    forLoop clampNegBody n d j = if j < n then max (d j) 0 else d j := by
  have h : clampNegBody = fun i (b : Buf) => Function.update b i (max (b i) 0) := by
    funext i b; exact clampNegBody_eq i b
  rw [h]
  exact forLoop_update_apply (fun _ v => max v 0) n d j

theorem forLoop_invert_apply (n : Nat) (d : Buf) (j : Nat) :
    forLoop invertBody n d j = if j < n then 1 - d j else d j :=
  forLoop_update_apply (fun _ v => 1 - v) n d j

theorem forLoop_rescale_apply (img : Nat → UChar) (lo hi : ℚ) (n : Nat) (d : Buf) (j : Nat) :
    forLoop (rescaleBody img lo hi) n d j
      = if j < n then (((img j).val : ℚ) - lo) / hi else d j :=
  forLoop_update_apply (fun k _ => (((img k).val : ℚ) - lo) / hi) n d j

theorem combineBody_eq (inside : Buf) (i : Nat) (s : CombineState) :
    combineBody inside i s =
      { outside := Function.update s.outside i (clampedLevel (s.outside i) (inside i))
        out := Function.update s.out i
          (toUChar (255 - (toUChar (truncInt (clampedLevel (s.outside i) (inside i))) : Int))) } := by
  simp only [combineBody, clampedLevel, Function.update_same, Function.update_idem]
  split_ifs <;> simp only [Function.update_same, Function.update_idem] <;>
    first | rfl | (exfalso; simp_all)

theorem forLoop_combine_apply (inside : Buf) (n : Nat) (s : CombineState) (j : Nat) :
    (forLoop (combineBody inside) n s).outside j
        = (if j < n then clampedLevel (s.outside j) (inside j) else s.outside j)
      ∧ (forLoop (combineBody inside) n s).out j
        = (if j < n then
            toUChar (255 - (toUChar (truncInt (clampedLevel (s.outside j) (inside j))) : Int))
          else s.out j) := by
  induction n generalizing j with
  | zero => simp [forLoop]
  | succ n ih =>
    rw [forLoop_succ, combineBody_eq]
    have hn := (ih n).1
    rw [if_neg (lt_irrefl n)] at hn
    by_cases hj : j = n
    · subst hj
      simp [hn]
    · have h1 : j < n + 1 ↔ j < n := by omega
      simp only [Function.update_noteq hj, h1]
      exact ih j

/-! ## Lemmas on the numeric conversions -/

theorem clampedLevel_eq (o n : ℚ) :
    clampedLevel o n = max 0 (min 255 (128 + 16 * (o - n))) := by
  have hc : 128 + (o - n) * 16 = 128 + 16 * (o - n) := by ring
  simp only [clampedLevel, hc]
  split_ifs with h1 h2 h3
  · norm_num at h2
  · rw [min_eq_right (by linarith), max_eq_left (le_of_lt h1)]
  · rw [min_eq_left (le_of_lt h3)]; norm_num
  · rw [min_eq_right (not_lt.mp h3), max_eq_right (not_lt.mp h1)]

theorem clampedLevel_nonneg (o n : ℚ) : 0 ≤ clampedLevel o n := by
  rw [clampedLevel_eq]; exact le_max_left _ _

theorem clampedLevel_le (o n : ℚ) : clampedLevel o n ≤ 255 := by
  rw [clampedLevel_eq]; exact max_le (by norm_num) (min_le_left _ _)

theorem truncInt_of_nonneg {x : ℚ} (h : 0 ≤ x) : truncInt x = ⌊x⌋ := by
  simp [truncInt, h]

theorem truncInt_range {x : ℚ} (h0 : 0 ≤ x) (h1 : x ≤ 255) :
    0 ≤ truncInt x ∧ truncInt x ≤ 255 := by
  rw [truncInt_of_nonneg h0]
  refine ⟨Int.floor_nonneg.mpr h0, ?_⟩
  have h2 : ⌊x⌋ ≤ ⌊(255 : ℚ)⌋ := Int.floor_le_floor h1
  have h3 : ⌊(255 : ℚ)⌋ = 255 := by norm_num
  omega

theorem toUChar_of_range {v : Int} (h0 : 0 ≤ v) (h1 : v ≤ 255) : (toUChar v : Int) = v := by
  unfold toUChar
  rw [Int.toNat_of_nonneg (Int.emod_nonneg _ (by norm_num))]
  exact Int.emod_eq_of_lt h0 (by omega)

/-- The byte the last loop stores for a clamped level is `255` minus its truncation:
neither the conversion to `unsigned char` nor the store wraps. -/
theorem storedByte_eq (o n : ℚ) :
    (toUChar (255 - (toUChar (truncInt (clampedLevel o n)) : Int)) : Int)
      = 255 - truncInt (clampedLevel o n) := by
  obtain ⟨h0, h1⟩ := truncInt_range (clampedLevel_nonneg o n) (clampedLevel_le o n)
  rw [toUChar_of_range h0 h1]
  exact toUChar_of_range (by omega) (by omega)

/-- The buffer `out` of a run, cell by cell. -/
theorem runDistanceMap_out (lib : Edtaa3Lib) (mem : Uninit) (img : Nat → UChar)
    (width height i : Nat) (h : i < width * height) :
    ((runDistanceMap lib mem img width height).out i : Int)
      = 255 - truncInt (clampedLevel
          (max ((runDistanceMap lib mem img width height).edtOutside i) 0)
          (max ((runDistanceMap lib mem img width height).edtInside i) 0)) := by
  simp only [runDistanceMap]
  rw [(forLoop_combine_apply _ _ _ i).2, if_pos h, storedByte_eq]
  simp only [forLoop_clampNeg_apply, if_pos h]

/-! ## Theorems on `FontText::MakeDistanceMap` -/

/-- The running minimum and maximum after `n` rounds of the loop at lines 173-179. -/
theorem forLoop_scan (img : Nat → UChar) (d0 : Buf) (n : Nat) :
    (∀ j, j < n → (forLoop (scanBody img) n ⟨d0, 255, -255⟩).img_min ≤ ((img j).val : ℚ)
        ∧ ((img j).val : ℚ) ≤ (forLoop (scanBody img) n ⟨d0, 255, -255⟩).img_max)
      ∧ ((forLoop (scanBody img) n ⟨d0, 255, -255⟩).img_min = 255
        ∨ ∃ j, j < n ∧ (forLoop (scanBody img) n ⟨d0, 255, -255⟩).img_min = ((img j).val : ℚ))
      ∧ ((forLoop (scanBody img) n ⟨d0, 255, -255⟩).img_max = -255
        ∨ ∃ j, j < n ∧ (forLoop (scanBody img) n ⟨d0, 255, -255⟩).img_max = ((img j).val : ℚ)) := by
  induction n with
  | zero => simp [forLoop]
  | succ n ih =>
    obtain ⟨hb, hmin, hmax⟩ := ih
    rw [forLoop_succ]
    generalize forLoop (scanBody img) n ⟨d0, 255, -255⟩ = s at hb hmin hmax
    simp only [scanBody]
    refine ⟨?_, ?_, ?_⟩
    · intro j hj
      rcases Nat.lt_succ_iff_lt_or_eq.mp hj with hlt | heq
      · obtain ⟨h1, h2⟩ := hb j hlt
        constructor
        · split_ifs with h
          · exact le_trans (le_of_lt h) h1
          · exact h1
        · split_ifs with h
          · exact le_trans h2 (le_of_lt h)
          · exact h2
      · subst heq
        constructor
        · split_ifs with h
          · exact le_refl _
          · exact not_lt.mp h
        · split_ifs with h
          · exact le_refl _
          · exact not_lt.mp h
    · split_ifs with h
      · exact Or.inr ⟨n, Nat.lt_succ_self n, rfl⟩
      · rcases hmin with h0 | ⟨j, hj, hje⟩
        · exact Or.inl h0
        · exact Or.inr ⟨j, Nat.lt_succ_of_lt hj, hje⟩
    · split_ifs with h
      · exact Or.inr ⟨n, Nat.lt_succ_self n, rfl⟩
      · rcases hmax with h0 | ⟨j, hj, hje⟩
        · exact Or.inl h0
        · exact Or.inr ⟨j, Nat.lt_succ_of_lt hj, hje⟩

theorem uchar_cast_le (b : UChar) : ((b.val : ℚ)) ≤ 255 := by
  have h : b.val ≤ 255 := by have := b.isLt; omega
  exact_mod_cast h

/-- For a non-empty bitmap the running minimum and maximum are samples of the bitmap. -/
theorem forLoop_scan_attained (img : Nat → UChar) (d0 : Buf) (n : Nat) (hn : 0 < n) :
    (∃ j, j < n ∧ (forLoop (scanBody img) n ⟨d0, 255, -255⟩).img_min = ((img j).val : ℚ))
      ∧ (∃ j, j < n ∧ (forLoop (scanBody img) n ⟨d0, 255, -255⟩).img_max = ((img j).val : ℚ)) := by
  obtain ⟨hb, hmin, hmax⟩ := forLoop_scan img d0 n
  obtain ⟨h1, h2⟩ := hb 0 hn
  constructor
  · rcases hmin with h0 | hex
    · exact ⟨0, hn, le_antisymm h1 (by rw [h0]; exact uchar_cast_le _)⟩
    · exact hex
  · rcases hmax with h0 | hex
    · exfalso
      rw [h0] at h2
      have h3 : (0 : ℚ) ≤ ((img 0).val : ℚ) := Nat.cast_nonneg _
      linarith
    · exact hex

/-- C2: for every non-empty bitmap, `img_min` and `img_max` are the least and the greatest
sample of the whole bitmap, and the buffer `data` that the distance passes receive holds
`(s - img_min) / img_max` for each sample `s`: the divisor is `img_max`. -/
theorem C2_rescale_by_max (lib : Edtaa3Lib) (mem : Uninit) (img : Nat → UChar)
    (width height : Nat) (hn : 0 < width * height) :
    (∃ j, j < width * height ∧
        (runDistanceMap lib mem img width height).img_min = ((img j).val : ℚ))
      ∧ (∀ j, j < width * height →
        (runDistanceMap lib mem img width height).img_min ≤ ((img j).val : ℚ))
      ∧ (∃ j, j < width * height ∧
        (runDistanceMap lib mem img width height).img_max = ((img j).val : ℚ))
      ∧ (∀ j, j < width * height →
        ((img j).val : ℚ) ≤ (runDistanceMap lib mem img width height).img_max)
      ∧ (∀ i, i < width * height →
        (runDistanceMap lib mem img width height).data i
          = (((img i).val : ℚ) - (runDistanceMap lib mem img width height).img_min)
              / (runDistanceMap lib mem img width height).img_max)
      ∧ (runDistanceMap lib mem img width height).gradOutside
          = lib.computegradient (runDistanceMap lib mem img width height).data height width
              (fun _ => 0) (fun _ => 0)
      ∧ (runDistanceMap lib mem img width height).edtOutside
          = (lib.edtaa3 (runDistanceMap lib mem img width height).data
              (runDistanceMap lib mem img width height).gradOutside.1
              (runDistanceMap lib mem img width height).gradOutside.2 height width
              mem.xdist mem.ydist (fun _ => 0)).2.2 := by
  obtain ⟨hb, -, -⟩ := forLoop_scan img (fun _ => 0) (width * height)
  obtain ⟨hmin, hmax⟩ := forLoop_scan_attained img (fun _ => 0) (width * height) hn
  refine ⟨hmin, fun j hj => (hb j hj).1, hmax, fun j hj => (hb j hj).2, ?_, rfl, rfl⟩
  intro i hi
  simp only [runDistanceMap]
  rw [forLoop_rescale_apply, if_pos hi]

/-! ## Lemmas on the layout walk -/

theorem forLoopM_succ {σ : Type} (body : Nat → σ → Except Fault σ) (n : Nat) (s s1 : σ)
    (h : forLoopM body n s = .ok s1) : forLoopM body (n + 1) s = body n s1 := by
  simp [forLoopM, h]

theorem mappedChars_succ (ft : FreetypeGL) (font : Nat) (str : FormattedString) (n : Nat) :
    mappedChars ft font str (n + 1)
      = mappedChars ft font str n ++ (mappedAt ft font str n).toList := by
  simp only [mappedChars, List.range_succ, List.filterMap_append]
  congr 1

/-- The kerning adjustment of lines 81-87 succeeds inside the string. -/
theorem kernedPen_ok (str : FormattedString) (ko : ℚ) (g : texture_glyph_t) (i : Nat)
    (pen : Vec2) (hi : i < str.text.length) :
    kernedPen str ko g i pen
      = .ok ⟨pen.x + ((if 0 < i then g.kerning (str.text.getD (i - 1) 0) else 0) + ko), pen.y⟩ := by
  unfold kernedPen
  by_cases h0 : 0 < i
  · have h1 : i - 1 < str.text.length := by omega
    simp [h0, List.getElem?_eq_getElem h1, List.getD_eq_getElem _ _ h1]
  · simp [h0]

/-- A round of the walk on a character without a glyph. -/
theorem layoutBody_unmapped (ft : FreetypeGL) (font : Nat) (str : FormattedString) (ko : ℚ)
    (i c : Nat) (st : LayoutState) (hc : str.text[i]? = some c)
    (hg : ft.texture_font_get_glyph font c = none) :
    layoutBody ft font str ko i st = .ok st := by
  simp [layoutBody, hc, hg]

/-- A round of the walk on a character with a glyph, inside the string and the colours. -/
theorem layoutBody_mapped (ft : FreetypeGL) (font : Nat) (str : FormattedString) (ko : ℚ)
    (i c : Nat) (g : texture_glyph_t) (color : Vec3) (st : LayoutState)
    (hc : str.text[i]? = some c) (hg : ft.texture_font_get_glyph font c = some g)
    (hcol : str.colors[i]? = some color) :
    layoutBody ft font str ko i st
      = .ok (pushGlyph g color
          ⟨st.pen.x + ((if 0 < i then g.kerning (str.text.getD (i - 1) 0) else 0) + ko),
            st.pen.y⟩ st) := by
  have hi : i < str.text.length := by
    by_contra hlt
    rw [List.getElem?_eq_none (not_lt.mp hlt)] at hc
    cases hc
  simp [layoutBody, hc, hg, kernedPen_ok str ko g i st.pen hi, hcol]

theorem take_succ_countP (l : List Nat) (p : Nat → Bool) (n : Nat) (c : Nat)
    (hc : l[n]? = some c) :
    (l.take (n + 1)).countP p = (l.take n).countP p + if p c then 1 else 0 := by
  rw [List.take_succ, List.countP_append, hc]
  simp [List.countP_cons]

/-- The invariant of the walk is kept by a round on a character without a glyph. -/
theorem walkInv_unmapped (ft : FreetypeGL) (font : Nat) (str : FormattedString) (n c : Nat)
    (st : LayoutState) (hc : str.text[n]? = some c)
    (hg : ft.texture_font_get_glyph font c = none) (inv : WalkInv ft font str n st) :
    WalkInv ft font str (n + 1) st := by
  have hm : mappedChars ft font str (n + 1) = mappedChars ft font str n := by
    simp [mappedChars_succ, mappedAt, hc, hg]
  have hp : (str.text.take (n + 1)).countP (hasGlyph ft font)
      = (str.text.take n).countP (hasGlyph ft font) := by
    rw [take_succ_countP _ _ _ _ hc]; simp [hasGlyph, hg]
  exact ⟨by rw [hm, hp]; exact inv.count, by rw [hm]; exact inv.positions,
    by rw [hm]; exact inv.offsets, by rw [hm]; exact inv.texcoords0,
    by rw [hm]; exact inv.texcoords1, by rw [hm]; exact inv.colors⟩

/-- The invariant of the walk is kept by the record pushed for a character with a glyph. -/
theorem walkInv_mapped (ft : FreetypeGL) (font : Nat) (str : FormattedString) (n c : Nat)
    (g : texture_glyph_t) (color : Vec3) (pen : Vec2) (st : LayoutState)
    (hc : str.text[n]? = some c) (hg : ft.texture_font_get_glyph font c = some g)
    (hk : str.colors[n]? = some color) (inv : WalkInv ft font str n st) :
    WalkInv ft font str (n + 1) (pushGlyph g color pen st) := by
  have hm : mappedChars ft font str (n + 1) = mappedChars ft font str n ++ [(n, g)] := by
    simp [mappedChars_succ, mappedAt, hc, hg]
  have hp : (str.text.take (n + 1)).countP (hasGlyph ft font)
      = (str.text.take n).countP (hasGlyph ft font) + 1 := by
    rw [take_succ_countP _ _ _ _ hc]; simp [hasGlyph, hg]
  refine ⟨?_, ?_, ?_, ?_, ?_, ?_⟩
  · rw [hm, hp, List.length_append, inv.count]; rfl
  · simp [pushGlyph, hm, inv.positions]
  · simp [pushGlyph, hm, inv.offsets]
  · simp [pushGlyph, hm, inv.texcoords0]
  · simp [pushGlyph, hm, inv.texcoords1]
  · simp [pushGlyph, hm, inv.colors, hk]

/-- The invariant of the walk is kept by every round that completes. -/
theorem layoutBody_inv_of_ok (ft : FreetypeGL) (font : Nat) (str : FormattedString) (ko : ℚ)
    (n : Nat) (st st1 : LayoutState) (hn : n < str.text.length)
    (inv : WalkInv ft font str n st) (h : layoutBody ft font str ko n st = .ok st1) :
    WalkInv ft font str (n + 1) st1 := by
  have hc : str.text[n]? = some str.text[n] := List.getElem?_eq_getElem hn
  cases hg : ft.texture_font_get_glyph font str.text[n] with
  | none =>
    rw [layoutBody_unmapped ft font str ko n _ st hc hg] at h
    cases h
    exact walkInv_unmapped ft font str n _ st hc hg inv
  | some g =>
    cases hk : str.colors[n]? with
    | none =>
      simp [layoutBody, hc, hg, kernedPen_ok str ko g n st.pen hn, hk] at h
    | some color =>
      rw [layoutBody_mapped ft font str ko n _ g color st hc hg hk] at h
      cases h
      exact walkInv_mapped ft font str n _ g color _ st hc hg hk inv

/-- A round of the walk inside the string and the colours completes and keeps the
invariant. -/
theorem layoutBody_inv (ft : FreetypeGL) (font : Nat) (str : FormattedString) (ko : ℚ)
    (n : Nat) (st : LayoutState) (hn : n < str.text.length) (hcol : n < str.colors.length)
    (inv : WalkInv ft font str n st) :
    ∃ st1, layoutBody ft font str ko n st = .ok st1 ∧ WalkInv ft font str (n + 1) st1 := by
  have hc : str.text[n]? = some str.text[n] := List.getElem?_eq_getElem hn
  have hk : str.colors[n]? = some str.colors[n] := List.getElem?_eq_getElem hcol
  cases hg : ft.texture_font_get_glyph font str.text[n] with
  | none =>
    exact ⟨st, layoutBody_unmapped ft font str ko n _ st hc hg,
      walkInv_unmapped ft font str n _ st hc hg inv⟩
  | some g =>
    exact ⟨_, layoutBody_mapped ft font str ko n _ g _ st hc hg hk,
      walkInv_mapped ft font str n _ g _ _ st hc hg hk inv⟩

theorem walkInv_init (ft : FreetypeGL) (font : Nat) (str : FormattedString) (pos : Vec2) :
    WalkInv ft font str 0 (layoutInit pos) := by
  constructor <;> simp [mappedChars, layoutInit]

/-- With a colour for every character, the first `n` rounds of the walk succeed and
keep the invariant. -/
theorem forLoopM_layout_inv (ft : FreetypeGL) (font : Nat) (str : FormattedString)
    (pos : Vec2) (ko : ℚ) (hcol : str.text.length ≤ str.colors.length) (n : Nat)
    (hn : n ≤ str.text.length) :
    ∃ st, forLoopM (layoutBody ft font str ko) n (layoutInit pos) = .ok st
      ∧ WalkInv ft font str n st := by
  induction n with
  | zero => exact ⟨_, rfl, walkInv_init ft font str pos⟩
  | succ n ih =>
    obtain ⟨st, hst, inv⟩ := ih (by omega)
    obtain ⟨st1, hst1, inv1⟩ :=
      layoutBody_inv ft font str ko n st (by omega) (by omega) inv
    exact ⟨st1, by rw [forLoopM_succ _ _ _ _ hst]; exact hst1, inv1⟩

theorem forLoopM_succ_ok {σ : Type} (body : Nat → σ → Except Fault σ) (n : Nat) (s s2 : σ)
    (h : forLoopM body (n + 1) s = .ok s2) :
    ∃ s1, forLoopM body n s = .ok s1 ∧ body n s1 = .ok s2 := by
  cases h1 : forLoopM body n s with
  | error e => simp [forLoopM, h1] at h
  | ok s1 => exact ⟨s1, rfl, by rw [← forLoopM_succ body n s s1 h1]; exact h⟩

/-- Whenever the first `n` rounds of the walk complete, they keep the invariant. -/
theorem forLoopM_layout_inv_of_ok (ft : FreetypeGL) (font : Nat) (str : FormattedString)
    (pos : Vec2) (ko : ℚ) (n : Nat) (hn : n ≤ str.text.length) (st : LayoutState)
    (h : forLoopM (layoutBody ft font str ko) n (layoutInit pos) = .ok st) :
    WalkInv ft font str n st := by
  induction n generalizing st with
  | zero => cases h; exact walkInv_init ft font str pos
  | succ n ih =>
    obtain ⟨s1, h1, h2⟩ := forLoopM_succ_ok _ n _ _ h
    exact layoutBody_inv_of_ok ft font str ko n s1 st (by omega) (ih (by omega) s1 h1) h2

/-! ## Theorems on the layout walk -/

/-- C3: for every formatted string and every glyph table, the layout walk emits one
record per character that has a glyph and none for the others: whenever the walk
completes, each of the five record arrays has as many entries as the string has mapped
characters, which is at most the length of the string; and the walk completes whenever
every character has a colour (the only read that can leave its vector is `colors[i]`). -/
theorem C3_record_count (ft : FreetypeGL) (font : Nat) (str : FormattedString) (pos : Vec2)
    (ko : ℚ) :
    (∀ st, layoutWalk ft font str pos ko = .ok st →
        st.textPositions.length = str.text.countP (hasGlyph ft font)
        ∧ st.textPositionOffsets.length = str.text.countP (hasGlyph ft font)
        ∧ st.textTexcoords0.length = str.text.countP (hasGlyph ft font)
        ∧ st.textTexcoords1.length = str.text.countP (hasGlyph ft font)
        ∧ st.textColors.length = str.text.countP (hasGlyph ft font))
      ∧ str.text.countP (hasGlyph ft font) ≤ str.text.length
      ∧ (str.text.length ≤ str.colors.length →
          ∃ st, layoutWalk ft font str pos ko = .ok st) := by
  refine ⟨?_, List.countP_le_length _, ?_⟩
  · intro st hst
    have inv := forLoopM_layout_inv_of_ok ft font str pos ko str.text.length (le_refl _) st hst
    have hcount := inv.count
    rw [List.take_length] at hcount
    refine ⟨?_, ?_, ?_, ?_, ?_⟩
    · rw [inv.positions, hcount]
    · rw [inv.offsets, hcount]
    · rw [inv.texcoords0, List.length_map, hcount]
    · rw [inv.texcoords1, List.length_map, hcount]
    · have h := congrArg List.length inv.colors
      simp only [List.length_map] at h
      rw [h, hcount]
  · intro hcol
    obtain ⟨st, hst, -⟩ :=
      forLoopM_layout_inv ft font str pos ko hcol str.text.length (le_refl _)
    exact ⟨st, hst⟩

/-- Witness of C3: two mapped characters around an unmapped one give exactly 2 records. -/
theorem C3_record_count_witness :
    ∃ st, layoutWalk exampleFt 2 exampleStr ⟨0, 0⟩ 0 = .ok st
      ∧ st.textPositions.length = 2 ∧ st.textColors.length = 2 := by
  obtain ⟨hcount, -, hex⟩ := C3_record_count exampleFt 2 exampleStr ⟨0, 0⟩ 0
  obtain ⟨st, h⟩ := hex (by decide)
  obtain ⟨h1, -, -, -, h5⟩ := hcount st h
  exact ⟨st, h, by rw [h1]; decide, by rw [h5]; decide⟩

/-- The list `mappedChars` holds exactly the pairs of an index below `n` whose character
has a glyph and that glyph. -/
theorem mem_mappedChars (ft : FreetypeGL) (font : Nat) (str : FormattedString) (n i : Nat)
    (g : texture_glyph_t) :
    (i, g) ∈ mappedChars ft font str n
      ↔ i < n ∧ ∃ c, str.text[i]? = some c ∧ ft.texture_font_get_glyph font c = some g := by
  simp only [mappedChars, List.mem_filterMap, List.mem_range]
  constructor
  · rintro ⟨j, hj, hf⟩
    cases hc : str.text[j]? with
    | none => simp [hc] at hf
    | some c =>
      cases hg : ft.texture_font_get_glyph font c with
      | none => simp [hc, hg] at hf
      | some g1 =>
        simp only [hc, hg, Option.map_some', Option.some.injEq, Prod.mk.injEq] at hf
        obtain ⟨h1, h2⟩ := hf
        subst h1; subst h2
        exact ⟨hj, c, hc, hg⟩
  · rintro ⟨hi, c, hc, hg⟩
    exact ⟨i, hi, by simp [hc, hg]⟩

/-- The list `mappedChars` is in string order: its indices increase strictly. -/
theorem mappedChars_sorted (ft : FreetypeGL) (font : Nat) (str : FormattedString) (n : Nat) :
    (mappedChars ft font str n).Pairwise fun a b => a.1 < b.1 := by
  unfold mappedChars
  refine List.Pairwise.filterMap _ ?_ (List.pairwise_lt_range n)
  intro a a1 hlt b hb b1 hb1
  have h1 : b.1 = a := by
    cases hc : str.text[a]? with
    | none => simp [hc] at hb
    | some c =>
      cases hg : ft.texture_font_get_glyph font c with
      | none => simp [hc, hg] at hb
      | some g => simp [hc, hg] at hb; rw [← hb]
  have h2 : b1.1 = a1 := by
    cases hc : str.text[a1]? with
    | none => simp [hc] at hb1
    | some c =>
      cases hg : ft.texture_font_get_glyph font c with
      | none => simp [hc, hg] at hb1
      | some g => simp [hc, hg] at hb1; rw [← hb1]
  rw [h1, h2]
  exact hlt

/-- C4: for every formatted string with at least as many colours as characters, the walk
emits as many records as there are mapped characters, and the `k`-th record belongs to the
`k`-th mapped character in string order: if that character stands at index `i` and has the
glyph `g`, the record carries `(g.s0, g.t0)`, `(g.s1, g.t1)` and the colour `colors[i]`.
The mapped characters are listed by `mappedChars`: the indices whose character has a
glyph, in increasing order. -/
theorem C4_record_order_uv_color (ft : FreetypeGL) (font : Nat) (str : FormattedString)
    (pos : Vec2) (ko : ℚ) (hcol : str.text.length ≤ str.colors.length) :
    (∃ st, layoutWalk ft font str pos ko = .ok st
      ∧ st.textColors.length = (mappedChars ft font str str.text.length).length
      ∧ ∀ (k i : Nat) (g : texture_glyph_t),
          (mappedChars ft font str str.text.length)[k]? = some (i, g) →
          st.textTexcoords0[k]? = some ⟨g.s0, g.t0⟩
            ∧ st.textTexcoords1[k]? = some ⟨g.s1, g.t1⟩
            ∧ (∃ color, str.colors[i]? = some color ∧ st.textColors[k]? = some color))
      ∧ (∀ (i : Nat) (g : texture_glyph_t),
          (i, g) ∈ mappedChars ft font str str.text.length
            ↔ i < str.text.length
              ∧ ∃ c, str.text[i]? = some c ∧ ft.texture_font_get_glyph font c = some g)
      ∧ (mappedChars ft font str str.text.length).Pairwise (fun a b => a.1 < b.1) := by
  refine ⟨?_, fun i g => mem_mappedChars ft font str _ i g, mappedChars_sorted ft font str _⟩
  obtain ⟨st, hst, inv⟩ :=
    forLoopM_layout_inv ft font str pos ko hcol str.text.length (le_refl _)
  have hlen : st.textColors.length = (mappedChars ft font str str.text.length).length := by
    have h := congrArg List.length inv.colors
    simpa only [List.length_map] using h
  refine ⟨st, hst, hlen, ?_⟩
  intro k i g hk
  refine ⟨?_, ?_, ?_⟩
  · rw [inv.texcoords0, List.getElem?_map, hk]; rfl
  · rw [inv.texcoords1, List.getElem?_map, hk]; rfl
  · have h := congrArg (fun l => l[k]?) inv.colors
    simp only [List.getElem?_map, hk, Option.map_some'] at h
    cases hck : st.textColors[k]? with
    | none => rw [hck] at h; cases h
    | some color =>
      rw [hck] at h
      simp only [Option.map_some', Option.some.injEq] at h
      exact ⟨color, h.symm, rfl⟩

/-- Witness of C4 on the example string: the second record belongs to `B`, at index 2,
and carries the colour `colors[2]`, not `colors[1]`. -/
theorem C4_record_order_uv_color_witness :
    exampleStr.text.length ≤ exampleStr.colors.length
      ∧ ∃ st, layoutWalk exampleFt 2 exampleStr ⟨0, 0⟩ 0 = .ok st
        ∧ st.textColors[1]? = some ⟨0, 1, 0⟩ := by
  refine ⟨by decide, ?_⟩
  obtain ⟨⟨st, h, -, hk⟩, -, -⟩ :=
    C4_record_order_uv_color exampleFt 2 exampleStr ⟨0, 0⟩ 0 (by decide)
  have hm : (mappedChars exampleFt 2 exampleStr exampleStr.text.length)[1]?
      = some (2, exampleGlyph 9 0) := by
    simp [mappedChars, exampleStr, exampleFt, List.range_succ]
  obtain ⟨-, -, color, hc1, hc2⟩ := hk 1 2 _ hm
  have hc3 : color = ⟨0, 1, 0⟩ := by
    simp [exampleStr] at hc1
    exact hc1.symm
  exact ⟨st, h, by rw [hc2, hc3]⟩

/-- C8: for every character whose code point has no glyph, a round of the walk leaves
the pen and the five record arrays as they are. -/
theorem C8_unmapped_round_is_identity (ft : FreetypeGL) (font : Nat) (str : FormattedString)
    (ko : ℚ) (i c : Nat) (st : LayoutState) (hc : str.text[i]? = some c)
    (hg : ft.texture_font_get_glyph font c = none) :
    layoutBody ft font str ko i st = .ok st :=
  layoutBody_unmapped ft font str ko i c st hc hg

/-- Witness of C8: the control character at index 1 of the example string. -/
theorem C8_unmapped_round_is_identity_witness :
    layoutBody exampleFt 2 exampleStr 3 1 (layoutInit ⟨0, 0⟩) = .ok (layoutInit ⟨0, 0⟩) :=
  C8_unmapped_round_is_identity exampleFt 2 exampleStr 3 1 7 (layoutInit ⟨0, 0⟩)
    (by simp [exampleStr]) (by simp [exampleFt])

/-- A round of the walk inside the string and the colours either leaves the state as it
is or pushes one record. -/
theorem layoutBody_cases (ft : FreetypeGL) (font : Nat) (str : FormattedString) (ko : ℚ)
    (n : Nat) (st : LayoutState) (hn : n < str.text.length) (hcol : n < str.colors.length) :
    layoutBody ft font str ko n st = .ok st
      ∨ ∃ g color pen, layoutBody ft font str ko n st = .ok (pushGlyph g color pen st) := by
  have hc : str.text[n]? = some str.text[n] := List.getElem?_eq_getElem hn
  have hk : str.colors[n]? = some str.colors[n] := List.getElem?_eq_getElem hcol
  cases hg : ft.texture_font_get_glyph font str.text[n] with
  | none => exact Or.inl (layoutBody_unmapped ft font str ko n _ st hc hg)
  | some g => exact Or.inr ⟨g, _, _, layoutBody_mapped ft font str ko n _ g _ st hc hg hk⟩

/-- Witness of C2: a `2 × 2` bitmap. -/
theorem C2_rescale_by_max_witness :
    0 < 2 * 2 ∧ ∀ i, i < 2 * 2 →
      (runDistanceMap exampleLib exampleMem exampleImg 2 2).data i
        = (((exampleImg i).val : ℚ) - (runDistanceMap exampleLib exampleMem exampleImg 2 2).img_min)
            / (runDistanceMap exampleLib exampleMem exampleImg 2 2).img_max :=
  ⟨by decide, (C2_rescale_by_max exampleLib exampleMem exampleImg 2 2 (by decide)).2.2.2.2.1⟩

/-! ## Theorems on `FontText::Load` -/

theorem floatsOfVec3_ok (v : List Vec3) (h : 0 < v.length) :
    ∃ fl, floatsOfVec3 v = .ok fl := by
  cases v with
  | nil => simp at h
  | cons a t => exact ⟨_, rfl⟩

theorem floatsOfVec2_ok (v : List Vec2) (h : 0 < v.length) :
    ∃ fl, floatsOfVec2 v = .ok fl := by
  cases v with
  | nil => simp at h
  | cons a t => exact ⟨_, rfl⟩

/-- The upload of lines 105-124 succeeds on non-empty record arrays and sets `loaded`. -/
theorem uploadBuffers_ok (self : FontText) (st : LayoutState)
    (h1 : 0 < st.textPositions.length) (h2 : 0 < st.textPositionOffsets.length)
    (h3 : 0 < st.textTexcoords0.length) (h4 : 0 < st.textTexcoords1.length)
    (h5 : 0 < st.textColors.length) :
    ∃ obj, uploadBuffers self st = .ok obj ∧ obj.loaded = true := by
  obtain ⟨p, hp⟩ := floatsOfVec3_ok _ h1
  obtain ⟨o, ho⟩ := floatsOfVec2_ok _ h2
  obtain ⟨t0, ht0⟩ := floatsOfVec2_ok _ h3
  obtain ⟨t1, ht1⟩ := floatsOfVec2_ok _ h4
  obtain ⟨c, hc⟩ := floatsOfVec3_ok _ h5
  unfold uploadBuffers
  rw [hp, ho, ht0, ht1, hc]
  exact ⟨_, rfl, rfl⟩

/-- The layout walk with a colour for every character, in the terms of `Load`. -/
theorem layoutWalk_ok_nonempty (ft : FreetypeGL) (font : Nat) (str : FormattedString)
    (pos : Vec2) (ko : ℚ) (hcol : str.text.length ≤ str.colors.length)
    (hex : ∃ c, c ∈ str.text ∧ hasGlyph ft font c = true) :
    ∃ st, layoutWalk ft font str pos ko = .ok st
      ∧ 0 < st.textPositions.length ∧ 0 < st.textPositionOffsets.length
      ∧ 0 < st.textTexcoords0.length ∧ 0 < st.textTexcoords1.length
      ∧ 0 < st.textColors.length := by
  obtain ⟨st, hst, inv⟩ :=
    forLoopM_layout_inv ft font str pos ko hcol str.text.length (le_refl _)
  have hcount := inv.count
  rw [List.take_length] at hcount
  have hpos : 0 < (mappedChars ft font str str.text.length).length := by
    rw [hcount]
    obtain ⟨c, hc, hg⟩ := hex
    exact List.countP_pos_iff.mpr ⟨c, hc, hg⟩
  have h5 := congrArg List.length inv.colors
  simp only [List.length_map] at h5
  refine ⟨st, hst, ?_, ?_, ?_, ?_, ?_⟩
  · rw [inv.positions]; exact hpos
  · rw [inv.offsets]; exact hpos
  · rw [inv.texcoords0, List.length_map]; exact hpos
  · rw [inv.texcoords1, List.length_map]; exact hpos
  · rw [h5]; exact hpos

/-- C10 (the code at the failing inputs): on a fresh object, a `Load` that fails because a
glyph could not be produced returns `false` and leaves the atlas and the font pointers
set, and a `Load` that fails because the font does not open returns `false` and leaves
the atlas pointer set; in neither case is the object as after construction. -/
theorem C10_failed_load_keeps_handles :
    FontText.Load exampleFtMissing exampleLib exampleMem (FontText.new 0) examplePath
        exampleStr ⟨0, 0⟩ 32 0
      = .ok (false, { FontText.new 0 with atlas := some 1, font := some 2 })
    ∧ FontText.Load exampleFtNoFont exampleLib exampleMem (FontText.new 0) examplePath
        exampleStr ⟨0, 0⟩ 32 0
      = .ok (false, { FontText.new 0 with atlas := some 1 })
    ∧ ({ FontText.new 0 with atlas := some 1, font := some 2 } : FontText) ≠ FontText.new 0
    ∧ ({ FontText.new 0 with atlas := some 1 } : FontText) ≠ FontText.new 0 := by
  refine ⟨rfl, rfl, ?_, ?_⟩
  · intro h
    have h1 := congrArg FontText.atlas h
    simp [FontText.new] at h1
  · intro h
    have h1 := congrArg FontText.atlas h
    simp [FontText.new] at h1

/-! ## A second `Load` -/

/-- The guard of line 36: on a loaded object `Load` returns `false` at once and leaves
the object as it is. -/
theorem load_of_loaded (ft : FreetypeGL) (lib : Edtaa3Lib) (mem : Uninit) (self : FontText)
    (path : String) (str : FormattedString) (pos : Vec2) (size ko : ℚ)
    (hl : self.loaded = true) :
    FontText.Load ft lib mem self path str pos size ko = .ok (false, self) := by
  unfold FontText.Load
  rw [if_pos hl]

/-- A `Load` on an object that is not loaded succeeds when the font opens, no glyph
failed, every character has a colour and one character has a glyph. -/
theorem load_succeeds (ft : FreetypeGL) (lib : Edtaa3Lib) (mem : Uninit) (self : FontText)
    (path : String) (str : FormattedString) (pos : Vec2) (size ko : ℚ) (font : Nat)
    (hl : self.loaded = false)
    (hf : ft.texture_font_new_from_file ft.atlas size path = some font)
    (hm : ft.texture_font_load_glyphs font str.text = 0)
    (hcol : str.text.length ≤ str.colors.length)
    (hex : ∃ c, c ∈ str.text ∧ hasGlyph ft font c = true) :
    ∃ obj, FontText.Load ft lib mem self path str pos size ko = .ok (true, obj)
      ∧ obj.loaded = true
      ∧ obj.textAtlasDistanceMap
          = some ⟨512, 512, MakeDistanceMap lib mem ft.atlas_data 512 512⟩ := by
  obtain ⟨st, hw, h1, h2, h3, h4, h5⟩ := layoutWalk_ok_nonempty ft font str pos ko hcol hex
  obtain ⟨p, hp⟩ := floatsOfVec3_ok _ h1
  obtain ⟨o, ho⟩ := floatsOfVec2_ok _ h2
  obtain ⟨t0, ht0⟩ := floatsOfVec2_ok _ h3
  obtain ⟨t1, ht1⟩ := floatsOfVec2_ok _ h4
  obtain ⟨c, hc⟩ := floatsOfVec3_ok _ h5
  unfold FontText.Load
  rw [if_neg (by simp [hl])]
  simp only [hf]
  rw [if_neg (by omega)]
  simp only [hw, uploadBuffers, hp, ho, ht0, ht1, hc]
  exact ⟨_, rfl, rfl, rfl⟩

/-- C11 (counterexample): a first `Load` of the example string on a fresh object
succeeds, and a second `Load` on the object it leaves, without an `Unload` in between,
is rejected: it returns `false`. -/
theorem C11_second_load_counterexample :
    ∃ obj, FontText.Load exampleFt exampleLib exampleMem (FontText.new 0) examplePath
          exampleStr ⟨0, 0⟩ 32 0 = .ok (true, obj)
      ∧ FontText.Load exampleFt exampleLib exampleMem obj examplePath
          exampleStr ⟨0, 0⟩ 32 0 = .ok (false, obj) := by
  obtain ⟨obj, h, hl, -⟩ := load_succeeds exampleFt exampleLib exampleMem (FontText.new 0)
    examplePath exampleStr ⟨0, 0⟩ 32 0 2 rfl rfl rfl (by decide)
    ⟨65, by simp [exampleStr], rfl⟩
  exact ⟨obj, h, load_of_loaded _ _ _ obj _ _ _ _ _ hl⟩

/-- C11 (amended): a second `Load` on an object that is already loaded, without an
`Unload` in between, is validated at run time by the guard of line 36: the call returns
`false` and changes no member of the object. -/
theorem C11_second_load_rejected (ft : FreetypeGL) (lib : Edtaa3Lib) (mem : Uninit)
    (self : FontText) (path : String) (str : FormattedString) (pos : Vec2) (size ko : ℚ)
    (hl : self.loaded = true) :
    FontText.Load ft lib mem self path str pos size ko = .ok (false, self) :=
  load_of_loaded ft lib mem self path str pos size ko hl

/-- Witness of the amended C11: an object whose `loaded` flag is set. -/
theorem C11_second_load_rejected_witness :
    FontText.Load exampleFt exampleLib exampleMem { FontText.new 0 with loaded := true }
        examplePath exampleStr ⟨0, 0⟩ 32 0
      = .ok (false, { FontText.new 0 with loaded := true }) :=
  C11_second_load_rejected exampleFt exampleLib exampleMem
    { FontText.new 0 with loaded := true } examplePath exampleStr ⟨0, 0⟩ 32 0 rfl

/-! ## The encoding of a pixel -/

/-- Truncation of a non-negative value stays at or below an integer `k` exactly when the
value is below `k + 1`. -/
theorem truncInt_le_iff {x : ℚ} (h : 0 ≤ x) (k : Int) : truncInt x ≤ k ↔ x < (k : ℚ) + 1 := by
  rw [truncInt_of_nonneg h, ← Int.lt_add_one_iff, Int.floor_lt]
  push_cast
  rfl

/-- Truncation of a non-negative value reaches an integer `k` exactly when the value
does. -/
theorem le_truncInt_iff {x : ℚ} (h : 0 ≤ x) (k : Int) : k ≤ truncInt x ↔ (k : ℚ) ≤ x := by
  rw [truncInt_of_nonneg h, Int.le_floor]

theorem truncInt_mono {x y : ℚ} (hx : 0 ≤ x) (hxy : x ≤ y) : truncInt x ≤ truncInt y := by
  rw [truncInt_of_nonneg hx, truncInt_of_nonneg (le_trans hx hxy)]
  exact Int.floor_le_floor hxy

/-- The clamped level grows with the bipolar distance `o - n`. -/
theorem clampedLevel_mono {o1 n1 o2 n2 : ℚ} (h : o1 - n1 ≤ o2 - n2) :
    clampedLevel o1 n1 ≤ clampedLevel o2 n2 := by
  rw [clampedLevel_eq, clampedLevel_eq]
  exact max_le_max (le_refl _) (min_le_min (le_refl _) (by linarith))

/-- The byte a round of the last loop stores at its own index. -/
theorem combineBody_out_self (inside : Buf) (i : Nat) (s : CombineState) :
    ((combineBody inside i s).out i : Int)
      = 255 - truncInt (clampedLevel (s.outside i) (inside i)) := by
  rw [combineBody_eq]
  simp only [Function.update_same]
  exact storedByte_eq _ _

/-- The level and the byte of a pixel of a run, from the two clamped distances. -/
theorem runDistanceMap_level_out (lib : Edtaa3Lib) (mem : Uninit) (img : Nat → UChar)
    (width height i : Nat) (h : i < width * height) :
    (runDistanceMap lib mem img width height).level i
        = clampedLevel ((runDistanceMap lib mem img width height).outside i)
            ((runDistanceMap lib mem img width height).inside i)
      ∧ ((runDistanceMap lib mem img width height).out i : Int)
        = 255 - truncInt (clampedLevel ((runDistanceMap lib mem img width height).outside i)
            ((runDistanceMap lib mem img width height).inside i)) := by
  simp only [runDistanceMap]
  refine ⟨?_, ?_⟩
  · rw [(forLoop_combine_apply _ _ _ i).1, if_pos h]
  · rw [(forLoop_combine_apply _ _ _ i).2, if_pos h, storedByte_eq]

theorem runDistanceMap_clamped (lib : Edtaa3Lib) (mem : Uninit) (img : Nat → UChar)
    (width height i : Nat) (h : i < width * height) :
    (runDistanceMap lib mem img width height).outside i
        = max ((runDistanceMap lib mem img width height).edtOutside i) 0
      ∧ (runDistanceMap lib mem img width height).inside i
        = max ((runDistanceMap lib mem img width height).edtInside i) 0 := by
  simp only [runDistanceMap, forLoop_clampNeg_apply, if_pos h, and_self]

/-! ## Rounding to binary64 -/

theorem roundHalfEven_intCast (k : Int) : roundHalfEven (k : ℚ) = k := by
  simp [roundHalfEven]

/-- The rounded value lies between an integer `m` and `m + 1` when the argument does. -/
theorem roundHalfEven_between (m : Int) (q : ℚ) (h1 : (m : ℚ) ≤ q) (h2 : q ≤ m + 1) :
    m ≤ roundHalfEven q ∧ roundHalfEven q ≤ m + 1 := by
  rcases eq_or_lt_of_le h2 with h | h
  · have : q = ((m + 1 : Int) : ℚ) := by push_cast; exact h
    rw [this, roundHalfEven_intCast]; omega
  · have hf : ⌊q⌋ = m := by
      rw [Int.floor_eq_iff]; exact ⟨h1, h⟩
    unfold roundHalfEven
    rw [hf]
    split_ifs <;> omega

theorem roundHalfEven_mono {p q : ℚ} (h : p ≤ q) : roundHalfEven p ≤ roundHalfEven q := by
  have hfl : ⌊p⌋ ≤ ⌊q⌋ := Int.floor_le_floor h
  have hp := roundHalfEven_between ⌊p⌋ p (Int.floor_le p) (le_of_lt (Int.lt_floor_add_one p))
  have hq := roundHalfEven_between ⌊q⌋ q (Int.floor_le q) (le_of_lt (Int.lt_floor_add_one q))
  rcases eq_or_lt_of_le hfl with he | hlt
  · -- same floor
    unfold roundHalfEven
    rw [← he]
    have hd : p - ⌊p⌋ ≤ q - ⌊p⌋ := by linarith
    split_ifs <;> first | omega | (exfalso; linarith)
  · omega

/-- Rounding in the lower half of a unit interval. -/
theorem roundHalfEven_low (m : Int) (q : ℚ) (h1 : (m : ℚ) ≤ q)
    (h2 : q < m + 1 / 2 ∨ (q = m + 1 / 2 ∧ m % 2 = 0)) : roundHalfEven q = m := by
  have hf : ⌊q⌋ = m := by
    rw [Int.floor_eq_iff]
    constructor
    · exact h1
    · rcases h2 with h | ⟨h, -⟩ <;> linarith
  unfold roundHalfEven
  rw [hf]
  rcases h2 with h | ⟨h, he⟩
  · rw [if_pos (by linarith)]
  · rw [if_neg (by linarith), if_neg (by linarith), if_pos he]

/-- Rounding in the upper half of a unit interval. -/
theorem roundHalfEven_high (m : Int) (q : ℚ) (h1 : q ≤ (m : ℚ) + 1)
    (h2 : (m : ℚ) + 1 / 2 < q ∨ (q = m + 1 / 2 ∧ m % 2 = 1)) : roundHalfEven q = m + 1 := by
  rcases eq_or_lt_of_le h1 with h | h
  · have : q = ((m + 1 : Int) : ℚ) := by push_cast; exact h
    rw [this, roundHalfEven_intCast]
  · have hf : ⌊q⌋ = m := by
      rw [Int.floor_eq_iff]
      constructor
      · rcases h2 with h' | ⟨h', -⟩ <;> linarith
      · exact h
    unfold roundHalfEven
    rw [hf]
    rcases h2 with h' | ⟨h', he⟩
    · rw [if_neg (by linarith), if_pos (by linarith)]
    · rw [if_neg (by linarith), if_neg (by linarith), if_neg (by omega)]

theorem ulpOf_pos (x : ℚ) : 0 < ulpOf x := by
  unfold ulpOf; positivity

/-- The exponent of a value of the binade `[2^e, 2^(e+1))`, and of a value below the
least normal number. -/
theorem binadeExp_eq {x : ℚ} {e : Int} (he : -1022 ≤ e) (hx : 0 < x)
    (h1 : (2 : ℚ) ^ e ≤ x ∨ e = -1022) (h2 : x < 2 ^ (e + 1)) : binadeExp x = e := by
  unfold binadeExp
  have hlt : Int.log 2 x < e + 1 := by
    have := (Int.lt_zpow_iff_log_lt (R := ℚ) (b := 2) (by norm_num) (x := e + 1) hx)
    exact this.1 (by exact_mod_cast h2)
  rcases h1 with h1 | h1
  · have hle : e ≤ Int.log 2 x := by
      have := (Int.zpow_le_iff_le_log (R := ℚ) (b := 2) (by norm_num) (x := e) hx)
      exact this.1 (by exact_mod_cast h1)
    have : Int.log 2 x = e := by omega
    rw [this]; exact max_eq_left he
  · subst h1
    apply le_antisymm
    · exact max_le (by omega) (le_refl _)
    · exact le_max_right _ _

theorem lt_zpow_binadeExp {x : ℚ} : x < 2 ^ (binadeExp x + 1) := by
  have h := Int.lt_zpow_succ_log_self (R := ℚ) (b := 2) (by norm_num) x
  have h2 : (2 : ℚ) ^ (Int.log 2 x + 1) ≤ 2 ^ (binadeExp x + 1) := by
    apply zpow_le_zpow_right₀ (by norm_num)
    have := le_max_left (Int.log 2 x) (-1022)
    unfold binadeExp; omega
  exact lt_of_lt_of_le (by exact_mod_cast h) h2

theorem binadeExp_mono {x y : ℚ} (hx : 0 < x) (h : x ≤ y) : binadeExp x ≤ binadeExp y := by
  unfold binadeExp
  exact max_le_max (Int.log_mono_right hx h) (le_refl _)

theorem zpow_binadeExp_le {y : ℚ} (hy : 0 < y) (h : -1022 < binadeExp y) :
    (2 : ℚ) ^ binadeExp y ≤ y := by
  have hl : binadeExp y = Int.log 2 y := by
    unfold binadeExp at h ⊢
    rcases max_cases (Int.log 2 y) (-1022) with ⟨h1, _⟩ | ⟨h1, _⟩
    · exact h1
    · omega
  rw [hl]
  exact_mod_cast Int.zpow_log_le_self (R := ℚ) (b := 2) (by norm_num) hy

/-- A power of two as a multiple of the spacing `2^(e-52)`. -/
theorem zpow_eq_mul_spacing (e : Int) (k : Nat) (e' : Int) (h : e' = e - 52 + k) :
    (2 : ℚ) ^ e' = ((2 ^ k : Int) : ℚ) * 2 ^ (e - 52) := by
  subst h
  rw [zpow_add₀ (by norm_num : (2 : ℚ) ≠ 0), zpow_natCast]
  push_cast
  ring

theorem roundPos_nonneg {x : ℚ} (hx : 0 ≤ x) : 0 ≤ roundPos x := by
  unfold roundPos
  apply mul_nonneg _ (le_of_lt (ulpOf_pos x))
  have h := roundHalfEven_mono (p := ((0 : Int) : ℚ)) (q := x / ulpOf x)
    (by push_cast; exact div_nonneg hx (le_of_lt (ulpOf_pos x)))
  rw [roundHalfEven_intCast] at h
  exact_mod_cast h

/-- A positive value rounds to at most the top of its binade. -/
theorem roundPos_le_top (x : ℚ) : roundPos x ≤ 2 ^ (binadeExp x + 1) := by
  unfold roundPos
  have hu := ulpOf_pos x
  have h1 : x / ulpOf x ≤ ((2 ^ 53 : Int) : ℚ) := by
    rw [div_le_iff₀ hu]
    have := lt_zpow_binadeExp (x := x)
    have h2 : (2 : ℚ) ^ (binadeExp x + 1) = ((2 ^ 53 : Int) : ℚ) * ulpOf x := by
      unfold ulpOf
      exact zpow_eq_mul_spacing _ 53 _ (by push_cast; omega)
    linarith
  have h3 := roundHalfEven_mono h1
  rw [roundHalfEven_intCast] at h3
  have h4 : (2 : ℚ) ^ (binadeExp x + 1) = ((2 ^ 53 : Int) : ℚ) * ulpOf x := by
    unfold ulpOf
    exact zpow_eq_mul_spacing _ 53 _ (by push_cast; omega)
  rw [h4]
  exact mul_le_mul_of_nonneg_right (by exact_mod_cast h3) (le_of_lt hu)

/-- A normal value rounds to at least the bottom of its binade. -/
theorem bottom_le_roundPos {y : ℚ} (hy : 0 < y) (h : -1022 < binadeExp y) :
    (2 : ℚ) ^ binadeExp y ≤ roundPos y := by
  unfold roundPos
  have hu := ulpOf_pos y
  have h4 : (2 : ℚ) ^ (binadeExp y) = ((2 ^ 52 : Int) : ℚ) * ulpOf y := by
    unfold ulpOf
    exact zpow_eq_mul_spacing _ 52 _ (by push_cast; omega)
  have h1 : ((2 ^ 52 : Int) : ℚ) ≤ y / ulpOf y := by
    rw [le_div_iff₀ hu, ← h4]
    exact zpow_binadeExp_le hy h
  have h3 := roundHalfEven_mono h1
  rw [roundHalfEven_intCast] at h3
  rw [h4]
  exact mul_le_mul_of_nonneg_right (by exact_mod_cast h3) (le_of_lt hu)

theorem roundPos_mono {x y : ℚ} (hx : 0 < x) (h : x ≤ y) : roundPos x ≤ roundPos y := by
  have hy : 0 < y := lt_of_lt_of_le hx h
  rcases eq_or_lt_of_le (binadeExp_mono hx h) with he | hlt
  · unfold roundPos ulpOf
    rw [← he]
    have hu : (0 : ℚ) < 2 ^ (binadeExp x - 52) := by positivity
    apply mul_le_mul_of_nonneg_right _ (le_of_lt hu)
    exact_mod_cast roundHalfEven_mono (div_le_div_of_nonneg_right h (le_of_lt hu))
  · have h1 := roundPos_le_top x
    have h2 := bottom_le_roundPos hy (by
      have : -1022 ≤ binadeExp x := le_max_right _ _
      omega)
    have h3 : (2 : ℚ) ^ (binadeExp x + 1) ≤ 2 ^ binadeExp y :=
      zpow_le_zpow_right₀ (by norm_num) (by omega)
    linarith

theorem roundDouble_of_pos {x : ℚ} (h : 0 < x) : roundDouble x = roundPos x := by
  unfold roundDouble; rw [if_pos h]

theorem roundDouble_of_neg {x : ℚ} (h : x < 0) : roundDouble x = -roundPos (-x) := by
  unfold roundDouble; rw [if_neg (by linarith), if_pos h]

theorem roundDouble_zero : roundDouble 0 = 0 := by
  unfold roundDouble; simp

theorem roundDouble_neg (x : ℚ) : roundDouble (-x) = -roundDouble x := by
  rcases lt_trichotomy x 0 with h | h | h
  · rw [roundDouble_of_neg h, roundDouble_of_pos (by linarith : 0 < -x)]; ring
  · subst h; simp [roundDouble_zero]
  · rw [roundDouble_of_pos h, roundDouble_of_neg (by linarith : -x < 0)]; simp

theorem roundDouble_mono {x y : ℚ} (h : x ≤ y) : roundDouble x ≤ roundDouble y := by
  rcases lt_trichotomy x 0 with hx | hx | hx
  · rcases lt_trichotomy y 0 with hy | hy | hy
    · rw [roundDouble_of_neg hx, roundDouble_of_neg hy]
      have := roundPos_mono (x := -y) (y := -x) (by linarith) (by linarith)
      linarith
    · subst hy
      rw [roundDouble_of_neg hx, roundDouble_zero]
      have := roundPos_nonneg (x := -x) (by linarith)
      linarith
    · rw [roundDouble_of_neg hx, roundDouble_of_pos hy]
      have := roundPos_nonneg (x := -x) (by linarith)
      have := roundPos_nonneg (x := y) (by linarith)
      linarith
  · subst hx
    rcases eq_or_lt_of_le h with hy | hy
    · rw [← hy]
    · rw [roundDouble_zero, roundDouble_of_pos hy]
      exact roundPos_nonneg (le_of_lt hy)
  · rw [roundDouble_of_pos hx, roundDouble_of_pos (lt_of_lt_of_le hx h)]
    exact roundPos_mono hx h

/-- The rounding of a value of the binade of exponent `e`. -/
theorem roundPos_eval {x : ℚ} {e : Int} (he : -1022 ≤ e) (hx : 0 < x)
    (h1 : (2 : ℚ) ^ e ≤ x ∨ e = -1022) (h2 : x < 2 ^ (e + 1)) :
    roundPos x = (roundHalfEven (x / 2 ^ (e - 52)) : ℚ) * 2 ^ (e - 52) := by
  unfold roundPos ulpOf
  rw [binadeExp_eq he hx h1 h2]

/-- A multiple `m * 2^(e-52)` of the spacing of the binade of exponent `e`, with
`2^52 ≤ m < 2^53`, is a double. -/
theorem roundDouble_fix_lt {e : Int} (he : -1022 ≤ e) (m : Int) (hm1 : 2 ^ 52 ≤ m)
    (hm2 : m < 2 ^ 53) : roundDouble ((m : ℚ) * 2 ^ (e - 52)) = (m : ℚ) * 2 ^ (e - 52) := by
  have hu : (0 : ℚ) < 2 ^ (e - 52) := by positivity
  have hm1' : ((2 ^ 52 : Int) : ℚ) ≤ (m : ℚ) := by exact_mod_cast hm1
  have hm2' : (m : ℚ) < ((2 ^ 53 : Int) : ℚ) := by exact_mod_cast hm2
  have hpos : (0 : ℚ) < (m : ℚ) * 2 ^ (e - 52) :=
    mul_pos (lt_of_lt_of_le (by norm_num) hm1') hu
  rw [roundDouble_of_pos hpos, roundPos_eval he hpos, mul_div_assoc, div_self (ne_of_gt hu),
    mul_one, roundHalfEven_intCast]
  · left
    rw [zpow_eq_mul_spacing e 52 e (by push_cast; omega)]
    exact mul_le_mul_of_nonneg_right hm1' (le_of_lt hu)
  · rw [zpow_eq_mul_spacing e 53 (e + 1) (by push_cast; omega)]
    exact mul_lt_mul_of_pos_right hm2' hu

/-- It is also a double for `m = 2^53`, the bottom of the next binade. -/
theorem roundDouble_fix {e : Int} (he : -1022 ≤ e) (m : Int) (hm1 : 2 ^ 52 ≤ m)
    (hm2 : m ≤ 2 ^ 53) : roundDouble ((m : ℚ) * 2 ^ (e - 52)) = (m : ℚ) * 2 ^ (e - 52) := by
  rcases eq_or_lt_of_le hm2 with h | h
  · have h1 : (m : ℚ) * 2 ^ (e - 52) = ((2 ^ 52 : Int) : ℚ) * 2 ^ (e + 1 - 52) := by
      rw [h, ← zpow_eq_mul_spacing e 53 (e + 1) (by push_cast; omega),
        ← zpow_eq_mul_spacing (e + 1) 52 (e + 1) (by push_cast; omega)]
    rw [h1]
    exact roundDouble_fix_lt (by omega) _ (le_refl _) (by norm_num)
  · exact roundDouble_fix_lt he m hm1 h

/-- Where a value falls against the midpoint `c` of two neighbouring doubles `m * u` and
`(m + 1) * u` of the binade of exponent `e`, `u = 2^(e-52)`, decides on which side of
the midpoint its rounding falls; a tie goes to the double whose `m` is even. -/
theorem roundDouble_split {e : Int} (he : -1022 ≤ e) (m : Int) (hm1 : 2 ^ 52 ≤ m)
    (hm2 : m < 2 ^ 53) (c : ℚ) (hc : c = ((m : ℚ) + 1 / 2) * 2 ^ (e - 52)) (x : ℚ) :
    ((x < c ∨ (x = c ∧ m % 2 = 0)) ∧ roundDouble x ≤ (m : ℚ) * 2 ^ (e - 52))
      ∨ ((c < x ∨ (x = c ∧ m % 2 = 1)) ∧ ((m : ℚ) + 1) * 2 ^ (e - 52) ≤ roundDouble x) := by
  have hu : (0 : ℚ) < 2 ^ (e - 52) := by positivity
  have hm1' : ((2 ^ 52 : Int) : ℚ) ≤ (m : ℚ) := by exact_mod_cast hm1
  have hm2' : (m : ℚ) + 1 ≤ ((2 ^ 53 : Int) : ℚ) := by exact_mod_cast (by omega : m + 1 ≤ 2 ^ 53)
  have hbot : (2 : ℚ) ^ e ≤ (m : ℚ) * 2 ^ (e - 52) := by
    rw [zpow_eq_mul_spacing e 52 e (by push_cast; omega)]
    exact mul_le_mul_of_nonneg_right hm1' (le_of_lt hu)
  have htop : ((m : ℚ) + 1) * 2 ^ (e - 52) ≤ (2 : ℚ) ^ (e + 1) := by
    rw [zpow_eq_mul_spacing e 53 (e + 1) (by push_cast; omega)]
    exact mul_le_mul_of_nonneg_right hm2' (le_of_lt hu)
  have hfixm := roundDouble_fix he m hm1 (by omega)
  have hfixm1 := roundDouble_fix he (m + 1) (by omega) (by omega)
  push_cast at hfixm1
  have hside : (x < c ∨ (x = c ∧ m % 2 = 0)) ∨ (c < x ∨ (x = c ∧ m % 2 = 1)) := by
    rcases lt_trichotomy x c with h | h | h
    · exact Or.inl (Or.inl h)
    · rcases Int.emod_two_eq_zero_or_one m with h2 | h2
      · exact Or.inl (Or.inr ⟨h, h2⟩)
      · exact Or.inr (Or.inr ⟨h, h2⟩)
    · exact Or.inr (Or.inl h)
  rcases hside with hs | hs
  · left
    refine ⟨hs, ?_⟩
    by_cases hxm : x ≤ (m : ℚ) * 2 ^ (e - 52)
    · have := roundDouble_mono hxm
      rw [hfixm] at this
      exact this
    · push_neg at hxm
      have hxc : x ≤ c := by rcases hs with h | ⟨h, -⟩ <;> linarith
      have hpos : 0 < x := lt_of_lt_of_le (by positivity) (le_trans hbot (le_of_lt hxm))
      have hlt : x < (2 : ℚ) ^ (e + 1) := by
        have : c < ((m : ℚ) + 1) * 2 ^ (e - 52) := by
          rw [hc]; exact mul_lt_mul_of_pos_right (by linarith) hu
        linarith
      rw [roundDouble_of_pos hpos,
        roundPos_eval he hpos (Or.inl (le_trans hbot (le_of_lt hxm))) hlt]
      have hq : roundHalfEven (x / 2 ^ (e - 52)) = m := by
        apply roundHalfEven_low
        · rw [le_div_iff₀ hu]; exact le_of_lt hxm
        · rcases hs with h | ⟨h, h2⟩
          · left
            rw [div_lt_iff₀ hu, ← hc]; exact h
          · right
            refine ⟨?_, h2⟩
            rw [div_eq_iff (ne_of_gt hu), ← hc]; exact h
      rw [hq]
  · right
    refine ⟨hs, ?_⟩
    by_cases hxm : ((m : ℚ) + 1) * 2 ^ (e - 52) ≤ x
    · have := roundDouble_mono hxm
      rw [hfixm1] at this
      exact this
    · push_neg at hxm
      have hcx : c ≤ x := by rcases hs with h | ⟨h, -⟩ <;> linarith
      have hmc : (m : ℚ) * 2 ^ (e - 52) < c := by
        rw [hc]; exact mul_lt_mul_of_pos_right (by linarith) hu
      have hpos : 0 < x := lt_of_lt_of_le (by positivity) (le_trans hbot (by linarith))
      have hlt : x < (2 : ℚ) ^ (e + 1) := by linarith
      rw [roundDouble_of_pos hpos,
        roundPos_eval he hpos (Or.inl (le_trans hbot (by linarith))) hlt]
      have hq : roundHalfEven (x / 2 ^ (e - 52)) = m + 1 := by
        apply roundHalfEven_high
        · rw [div_le_iff₀ hu]; exact le_of_lt hxm
        · rcases hs with h | ⟨h, h2⟩
          · left
            rw [lt_div_iff₀ hu, ← hc]; exact h
          · right
            refine ⟨?_, h2⟩
            rw [div_eq_iff (ne_of_gt hu), ← hc]; exact h
      rw [hq]
      push_cast
      exact le_refl _

/-- The split against a midpoint whose tie goes down, `m` being even. -/
theorem roundDouble_split_even {e : Int} (he : -1022 ≤ e) (m : Int) (hm1 : 2 ^ 52 ≤ m)
    (hm2 : m < 2 ^ 53) (hpar : m % 2 = 0) (a b c : ℚ)
    (ha : a = (m : ℚ) * 2 ^ (e - 52)) (hb : b = ((m : ℚ) + 1) * 2 ^ (e - 52))
    (hc : c = ((m : ℚ) + 1 / 2) * 2 ^ (e - 52)) (x : ℚ) :
    (x ≤ c ∧ roundDouble x ≤ a) ∨ (c < x ∧ b ≤ roundDouble x) := by
  rcases roundDouble_split he m hm1 hm2 c hc x with ⟨h1, h2⟩ | ⟨h1, h2⟩
  · left
    rw [ha]
    refine ⟨?_, h2⟩
    rcases h1 with h | ⟨h, -⟩
    · exact le_of_lt h
    · exact le_of_eq h
  · right
    rw [hb]
    refine ⟨?_, h2⟩
    rcases h1 with h | ⟨-, h⟩
    · exact h
    · omega

/-- The split against a midpoint whose tie goes up, `m` being odd. -/
theorem roundDouble_split_odd {e : Int} (he : -1022 ≤ e) (m : Int) (hm1 : 2 ^ 52 ≤ m)
    (hm2 : m < 2 ^ 53) (hpar : m % 2 = 1) (a b c : ℚ)
    (ha : a = (m : ℚ) * 2 ^ (e - 52)) (hb : b = ((m : ℚ) + 1) * 2 ^ (e - 52))
    (hc : c = ((m : ℚ) + 1 / 2) * 2 ^ (e - 52)) (x : ℚ) :
    (x < c ∧ roundDouble x ≤ a) ∨ (c ≤ x ∧ b ≤ roundDouble x) := by
  rcases roundDouble_split he m hm1 hm2 c hc x with ⟨h1, h2⟩ | ⟨h1, h2⟩
  · left
    rw [ha]
    refine ⟨?_, h2⟩
    rcases h1 with h | ⟨-, h⟩
    · exact h
    · omega
  · right
    rw [hb]
    refine ⟨?_, h2⟩
    rcases h1 with h | ⟨h, -⟩
    · exact le_of_lt h
    · exact le_of_eq h.symm

/-! ## The rounded level against the thresholds 128, 255 and 1 -/

theorem levelDouble_zero : levelDouble 0 = 128 := by
  unfold levelDouble
  rw [roundDouble_zero, zero_mul, roundDouble_zero, add_zero]
  have h := roundDouble_fix (e := 7) (by norm_num) (2 ^ 52) (le_refl _) (by norm_num)
  norm_num at h
  exact h

/-- The three roundings of lines 220-221 against the level 128: the exact difference
against `-(2^-51 + 2^-104)`, the stored difference against `-2^-51`, the level against
128. -/
theorem levelDouble_cases_128 (z : ℚ) :
    (z < -(1 / 2 ^ 51 + 1 / 2 ^ 104) ∧ roundDouble z ≤ -(1 / 2 ^ 51 + 1 / 2 ^ 103)
        ∧ levelDouble z ≤ 128 - 1 / 2 ^ 46)
      ∨ (-(1 / 2 ^ 51 + 1 / 2 ^ 104) ≤ z ∧ -(1 / 2 ^ 51) ≤ roundDouble z
        ∧ 128 ≤ levelDouble z) := by
  unfold levelDouble
  have h1 := roundDouble_split_odd (e := 6) (by norm_num) (2 ^ 53 - 1) (by norm_num)
    (by norm_num) (by norm_num) (128 - 1 / 2 ^ 46) 128 (128 - 1 / 2 ^ 47)
    (by norm_num) (by norm_num) (by norm_num) (128 + roundDouble (roundDouble z * 16))
  have h2 := roundDouble_split_even (e := -47) (by norm_num) (2 ^ 52) (by norm_num)
    (by norm_num) (by norm_num) (1 / 2 ^ 47) (1 / 2 ^ 47 + 1 / 2 ^ 99)
    (1 / 2 ^ 47 + 1 / 2 ^ 100)
    (by norm_num) (by norm_num) (by norm_num) (-(roundDouble z * 16))
  have h3 := roundDouble_split_even (e := -51) (by norm_num) (2 ^ 52) (by norm_num)
    (by norm_num) (by norm_num) (1 / 2 ^ 51) (1 / 2 ^ 51 + 1 / 2 ^ 103)
    (1 / 2 ^ 51 + 1 / 2 ^ 104)
    (by norm_num) (by norm_num) (by norm_num) (-z)
  rw [roundDouble_neg] at h2 h3
  rcases h3 with ⟨h3a, h3b⟩ | ⟨h3a, h3b⟩
  · right
    refine ⟨by linarith, by linarith, ?_⟩
    rcases h2 with ⟨h2a, h2b⟩ | ⟨h2a, h2b⟩
    · rcases h1 with ⟨h1a, h1b⟩ | ⟨h1a, h1b⟩
      · exfalso; norm_num at h1a h2b; linarith
      · exact h1b
    · exfalso; norm_num at h2a h3b; linarith
  · left
    refine ⟨by linarith, by linarith, ?_⟩
    rcases h2 with ⟨h2a, h2b⟩ | ⟨h2a, h2b⟩
    · exfalso; norm_num at h2a h3b; linarith
    · rcases h1 with ⟨h1a, h1b⟩ | ⟨h1a, h1b⟩
      · exact h1b
      · exfalso; norm_num at h1a h2b; linarith

/-- The three roundings of lines 220-221 against the level 255: the exact difference
against `127/16 - 3 * 2^-51`, the stored difference against `127/16 - 2^-50`, the level
against 255. -/
theorem levelDouble_cases_255 (z : ℚ) :
    (z ≤ 127 / 16 - 3 / 2 ^ 51 ∧ roundDouble z ≤ 127 / 16 - 1 / 2 ^ 49
        ∧ levelDouble z ≤ 255 - 1 / 2 ^ 45)
      ∨ (127 / 16 - 3 / 2 ^ 51 < z ∧ 127 / 16 - 1 / 2 ^ 50 ≤ roundDouble z
        ∧ 255 ≤ levelDouble z) := by
  unfold levelDouble
  have h1 := roundDouble_split_odd (e := 7) (by norm_num) (255 * 2 ^ 45 - 1) (by norm_num)
    (by norm_num) (by norm_num) (255 - 1 / 2 ^ 45) 255 (255 - 1 / 2 ^ 46)
    (by norm_num) (by norm_num) (by norm_num) (128 + roundDouble (roundDouble z * 16))
  have h2 := roundDouble_split_even (e := 6) (by norm_num) (127 * 2 ^ 46 - 2) (by norm_num)
    (by norm_num) (by norm_num) (127 - 1 / 2 ^ 45) (127 - 1 / 2 ^ 46) (127 - 3 / 2 ^ 47)
    (by norm_num) (by norm_num) (by norm_num) (roundDouble z * 16)
  have h3 := roundDouble_split_even (e := 2) (by norm_num) (127 * 2 ^ 46 - 2) (by norm_num)
    (by norm_num) (by norm_num) (127 / 16 - 1 / 2 ^ 49) (127 / 16 - 1 / 2 ^ 50)
    (127 / 16 - 3 / 2 ^ 51)
    (by norm_num) (by norm_num) (by norm_num) z
  rcases h3 with ⟨h3a, h3b⟩ | ⟨h3a, h3b⟩
  · left
    refine ⟨h3a, h3b, ?_⟩
    rcases h2 with ⟨h2a, h2b⟩ | ⟨h2a, h2b⟩
    · rcases h1 with ⟨h1a, h1b⟩ | ⟨h1a, h1b⟩
      · exact h1b
      · exfalso; norm_num at h1a h2b; linarith
    · exfalso; norm_num at h2a h3b; linarith
  · right
    refine ⟨h3a, h3b, ?_⟩
    rcases h2 with ⟨h2a, h2b⟩ | ⟨h2a, h2b⟩
    · exfalso; norm_num at h2a h3b; linarith
    · rcases h1 with ⟨h1a, h1b⟩ | ⟨h1a, h1b⟩
      · exfalso; norm_num at h1a h2b; linarith
      · exact h1b

/-- The three roundings of lines 220-221 against the level 1: the exact difference
against `-127/16 - 2^-51`, the stored difference against `-127/16`, the level
against 1. -/
theorem levelDouble_cases_one (z : ℚ) :
    (z < -127 / 16 - 1 / 2 ^ 51 ∧ roundDouble z ≤ -127 / 16 - 1 / 2 ^ 50
        ∧ levelDouble z ≤ 1 - 1 / 2 ^ 53)
      ∨ (-127 / 16 - 1 / 2 ^ 51 ≤ z ∧ -127 / 16 ≤ roundDouble z
        ∧ 1 ≤ levelDouble z) := by
  unfold levelDouble
  have h1 := roundDouble_split_odd (e := -1) (by norm_num) (2 ^ 53 - 1) (by norm_num)
    (by norm_num) (by norm_num) (1 - 1 / 2 ^ 53) 1 (1 - 1 / 2 ^ 54)
    (by norm_num) (by norm_num) (by norm_num) (128 + roundDouble (roundDouble z * 16))
  have h2 := roundDouble_split_even (e := 6) (by norm_num) (127 * 2 ^ 46) (by norm_num)
    (by norm_num) (by norm_num) 127 (127 + 1 / 2 ^ 46) (127 + 1 / 2 ^ 47)
    (by norm_num) (by norm_num) (by norm_num) (-(roundDouble z * 16))
  have h3 := roundDouble_split_even (e := 2) (by norm_num) (127 * 2 ^ 46) (by norm_num)
    (by norm_num) (by norm_num) (127 / 16) (127 / 16 + 1 / 2 ^ 50) (127 / 16 + 1 / 2 ^ 51)
    (by norm_num) (by norm_num) (by norm_num) (-z)
  rw [roundDouble_neg] at h2 h3
  rcases h3 with ⟨h3a, h3b⟩ | ⟨h3a, h3b⟩
  · right
    refine ⟨by linarith, by linarith, ?_⟩
    rcases h2 with ⟨h2a, h2b⟩ | ⟨h2a, h2b⟩
    · rcases h1 with ⟨h1a, h1b⟩ | ⟨h1a, h1b⟩
      · exfalso; norm_num at h1a h2b; linarith
      · exact h1b
    · exfalso; norm_num at h2a h3b; linarith
  · left
    refine ⟨by linarith, by linarith, ?_⟩
    rcases h2 with ⟨h2a, h2b⟩ | ⟨h2a, h2b⟩
    · exfalso; norm_num at h2a h3b; linarith
    · rcases h1 with ⟨h1a, h1b⟩ | ⟨h1a, h1b⟩
      · exact h1b
      · exfalso; norm_num at h1a h2b; linarith

/-! ## The last loop in `double` arithmetic -/

theorem clampedLevelDouble_eq (o n : ℚ) :
    clampedLevelDouble o n = max 0 (min 255 (levelDouble (o - n))) := by
  simp only [clampedLevelDouble]
  split_ifs with h1 h2 h3
  · norm_num at h2
  · rw [min_eq_right (by linarith), max_eq_left (le_of_lt h1)]
  · rw [min_eq_left (le_of_lt h3)]; norm_num
  · rw [min_eq_right (not_lt.mp h3), max_eq_right (not_lt.mp h1)]

theorem clampedLevelDouble_nonneg (o n : ℚ) : 0 ≤ clampedLevelDouble o n := by
  rw [clampedLevelDouble_eq]; exact le_max_left _ _

theorem clampedLevelDouble_le (o n : ℚ) : clampedLevelDouble o n ≤ 255 := by
  rw [clampedLevelDouble_eq]; exact max_le (by norm_num) (min_le_left _ _)

theorem combineBodyDouble_eq (inside : Buf) (i : Nat) (s : CombineState) :
    combineBodyDouble inside i s =
      { outside := Function.update s.outside i (clampedLevelDouble (s.outside i) (inside i))
        out := Function.update s.out i
          (toUChar (255
            - (toUChar (truncInt (clampedLevelDouble (s.outside i) (inside i))) : Int))) } := by
  simp only [combineBodyDouble, clampedLevelDouble, levelDouble, Function.update_same,
    Function.update_idem]
  split_ifs <;> simp only [Function.update_same, Function.update_idem] <;>
    first | rfl | (exfalso; simp_all)

/-- Where the three roundings of lines 220-221 are exact, a round of the loop in `double`
arithmetic is the round in exact arithmetic. -/
theorem combineBodyDouble_of_exact (inside : Buf) (i : Nat) (s : CombineState)
    (h1 : roundDouble (s.outside i - inside i) = s.outside i - inside i)
    (h2 : roundDouble ((s.outside i - inside i) * 16) = (s.outside i - inside i) * 16)
    (h3 : roundDouble (128 + (s.outside i - inside i) * 16)
      = 128 + (s.outside i - inside i) * 16) :
    combineBodyDouble inside i s = combineBody inside i s := by
  have h : clampedLevelDouble (s.outside i) (inside i)
      = clampedLevel (s.outside i) (inside i) := by
    simp only [clampedLevelDouble, levelDouble, clampedLevel, h1, h2, h3]
  rw [combineBodyDouble_eq, combineBody_eq, h]

/-- The last loop in `double` arithmetic, cell by cell: the level left in `outside[j]`
and the byte stored in `out[j]`. -/
theorem forLoop_combineDouble_apply (inside : Buf) (n : Nat) (s : CombineState) (j : Nat) :
    (forLoop (combineBodyDouble inside) n s).outside j
        = (if j < n then clampedLevelDouble (s.outside j) (inside j) else s.outside j)
      ∧ ((forLoop (combineBodyDouble inside) n s).out j : Int)
        = (if j < n then 255 - truncInt (clampedLevelDouble (s.outside j) (inside j))
          else (s.out j : Int)) := by
  induction n generalizing j with
  | zero => simp [forLoop]
  | succ n ih =>
    rw [forLoop_succ, combineBodyDouble_eq]
    have hn := (ih n).1
    rw [if_neg (lt_irrefl n)] at hn
    by_cases hj : j = n
    · subst hj
      obtain ⟨h0, h1⟩ := truncInt_range (clampedLevelDouble_nonneg (s.outside j) (inside j))
        (clampedLevelDouble_le (s.outside j) (inside j))
      simp only [Function.update_same, hn, if_pos (Nat.lt_succ_self j)]
      rw [toUChar_of_range h0 h1]
      exact ⟨trivial, toUChar_of_range (by omega) (by omega)⟩
    · have h1 : j < n + 1 ↔ j < n := by omega
      simp only [Function.update_noteq hj, h1]
      exact ih j

/-- The byte stored for the distances `o`, `n` in `double` arithmetic, `255` minus the
truncated level, against the level before the clamp. -/
theorem sampleDouble_iff (o n : ℚ) :
    ((128 : Int) ≤ 255 - truncInt (clampedLevelDouble o n) ↔ levelDouble (o - n) < 128)
      ∧ (255 - truncInt (clampedLevelDouble o n) = 0 ↔ 255 ≤ levelDouble (o - n))
      ∧ (255 - truncInt (clampedLevelDouble o n) = 255 ↔ levelDouble (o - n) < 1) := by
  obtain ⟨hge, hle⟩ := truncInt_range (clampedLevelDouble_nonneg o n)
    (clampedLevelDouble_le o n)
  have hk : ∀ k : ℚ, 0 < k → k ≤ 255 →
      (max 0 (min 255 (levelDouble (o - n))) < k ↔ levelDouble (o - n) < k) := by
    intro k hk0 hk1
    constructor
    · intro h
      by_contra hn
      have : k ≤ max 0 (min 255 (levelDouble (o - n))) :=
        le_max_of_le_right (le_min hk1 (not_lt.mp hn))
      linarith
    · intro h
      exact max_lt hk0 (lt_of_le_of_lt (min_le_right _ _) h)
  refine ⟨?_, ?_, ?_⟩
  · have h1 : (128 : Int) ≤ 255 - truncInt (clampedLevelDouble o n)
        ↔ truncInt (clampedLevelDouble o n) ≤ 127 := by omega
    have e : ((127 : Int) : ℚ) + 1 = 128 := by norm_num
    rw [h1, truncInt_le_iff (clampedLevelDouble_nonneg o n), clampedLevelDouble_eq, e]
    exact hk 128 (by norm_num) (by norm_num)
  · have h1 : 255 - truncInt (clampedLevelDouble o n) = 0
        ↔ (255 : Int) ≤ truncInt (clampedLevelDouble o n) := by omega
    rw [h1, le_truncInt_iff (clampedLevelDouble_nonneg o n), clampedLevelDouble_eq]
    push_cast
    have := hk 255 (by norm_num) (le_refl _)
    constructor
    · intro h
      by_contra hn
      have := this.2 (not_le.mp hn)
      linarith
    · intro h
      exact le_max_of_le_right (le_min (le_refl _) h)
  · have h1 : 255 - truncInt (clampedLevelDouble o n) = 255
        ↔ truncInt (clampedLevelDouble o n) ≤ 0 := by omega
    have e : ((0 : Int) : ℚ) + 1 = 1 := by norm_num
    rw [h1, truncInt_le_iff (clampedLevelDouble_nonneg o n), clampedLevelDouble_eq, e]
    exact hk 1 (by norm_num) (by norm_num)

/-- C12 (counterexample): in `double` arithmetic a pixel with `outside = 0` and
`inside = 2^-60` has `inside > outside`, yet its sample is 127, below 128: the difference
`-2^-60` and its product `-2^-56` with 16 are doubles, and `128 - 2^-56` rounds to 128,
the spacing of the doubles below 128 being `2^-46`; the level is 128 and the byte
`255 - 128`. -/
theorem C12_centred_counterexample :
    (1 / 2 ^ 60 : ℚ) > 0
      ∧ roundDouble (0 - 1 / 2 ^ 60) = -(1 / 2 ^ 60)
      ∧ roundDouble (-(1 / 2 ^ 60) * 16) = -(1 / 2 ^ 56)
      ∧ roundDouble (128 + -(1 / 2 ^ 56)) = 128
      ∧ (forLoop (combineBodyDouble (fun _ => 1 / 2 ^ 60)) 1
          ⟨fun _ => 0, fun _ => 0⟩).outside 0 = 128
      ∧ (forLoop (combineBodyDouble (fun _ => 1 / 2 ^ 60)) 1
          ⟨fun _ => 0, fun _ => 0⟩).out 0 = 127
      ∧ ¬ 128 ≤ (forLoop (combineBodyDouble (fun _ => 1 / 2 ^ 60)) 1
          ⟨fun _ => 0, fun _ => 0⟩).out 0 := by
  have e1 : roundDouble (0 - 1 / 2 ^ 60) = -(1 / 2 ^ 60) := by
    have h := roundDouble_fix (e := -60) (by norm_num) (2 ^ 52) (le_refl _) (by norm_num)
    have h2 : (0 : ℚ) - 1 / 2 ^ 60 = -(((2 ^ 52 : Int) : ℚ) * 2 ^ ((-60 : Int) - 52)) := by
      norm_num
    rw [h2, roundDouble_neg, h]
    norm_num
  have e2 : roundDouble (-(1 / 2 ^ 60) * 16) = -(1 / 2 ^ 56) := by
    have h := roundDouble_fix (e := -56) (by norm_num) (2 ^ 52) (le_refl _) (by norm_num)
    have h2 : -(1 / 2 ^ 60 : ℚ) * 16 = -(((2 ^ 52 : Int) : ℚ) * 2 ^ ((-56 : Int) - 52)) := by
      norm_num
    have h3 : -(1 / 2 ^ 56 : ℚ) = -(((2 ^ 52 : Int) : ℚ) * 2 ^ ((-56 : Int) - 52)) := by
      norm_num
    rw [h2, roundDouble_neg, h, h3]
  have e3 : roundDouble (128 + -(1 / 2 ^ 56)) = 128 := by
    have h128 := roundDouble_fix (e := 7) (by norm_num) (2 ^ 52) (le_refl _) (by norm_num)
    have hup : roundDouble (128 + -(1 / 2 ^ 56)) ≤ roundDouble 128 :=
      roundDouble_mono (by norm_num)
    have h1 := roundDouble_split_odd (e := 6) (by norm_num) (2 ^ 53 - 1) (by norm_num)
      (by norm_num) (by norm_num) (128 - 1 / 2 ^ 46) 128 (128 - 1 / 2 ^ 47)
      (by norm_num) (by norm_num) (by norm_num) (128 + -(1 / 2 ^ 56))
    norm_num at h128
    rw [h128] at hup
    rcases h1 with ⟨h1a, -⟩ | ⟨-, h1b⟩
    · norm_num at h1a
    · exact le_antisymm hup h1b
  have hl : clampedLevelDouble 0 (1 / 2 ^ 60) = 128 := by
    simp only [clampedLevelDouble, levelDouble, e1, e2, e3]
    norm_num
  obtain ⟨ho, hb⟩ := forLoop_combineDouble_apply (fun _ => 1 / 2 ^ 60) 1
    ⟨fun _ => 0, fun _ => 0⟩ 0
  rw [if_pos (by decide)] at ho hb
  simp only [] at ho hb
  rw [hl] at ho hb
  have ht : truncInt (128 : ℚ) = 128 := by norm_num [truncInt]
  rw [ht] at hb
  refine ⟨by norm_num, e1, e2, e3, ho, by omega, by omega⟩

/-- C12 (amended): for every pixel `i` of the last loop in `double` arithmetic, entered
with any contents of `outside` and `inside` (the two distances as the clamps of lines
190-196 and 208-214 leave them): when the two are equal the level left in `outside[i]`
is 128 and the sample is exactly 127; the sample is at least 128 only if
`inside[i] > outside[i]`, and exactly when `inside[i] - outside[i] > 2^-51 + 2^-104`,
the least difference for which `128 + 16 * d` rounds below 128. -/
theorem C12_centred_in_double (inside : Buf) (s : CombineState) (n i : Nat) (h : i < n) :
    (s.outside i = inside i →
        (forLoop (combineBodyDouble inside) n s).outside i = 128
          ∧ (forLoop (combineBodyDouble inside) n s).out i = 127)
      ∧ (128 ≤ (forLoop (combineBodyDouble inside) n s).out i
          ↔ inside i - s.outside i > 1 / 2 ^ 51 + 1 / 2 ^ 104)
      ∧ (128 ≤ (forLoop (combineBodyDouble inside) n s).out i
          → inside i > s.outside i) := by
  obtain ⟨ho, hb⟩ := forLoop_combineDouble_apply inside n s i
  rw [if_pos h] at ho hb
  have hiff : 128 ≤ (forLoop (combineBodyDouble inside) n s).out i
      ↔ inside i - s.outside i > 1 / 2 ^ 51 + 1 / 2 ^ 104 := by
    have h1 := (sampleDouble_iff (s.outside i) (inside i)).1
    rw [← hb] at h1
    have h2 : 128 ≤ (forLoop (combineBodyDouble inside) n s).out i
        ↔ levelDouble (s.outside i - inside i) < 128 := by
      rw [← h1]; omega
    rw [h2]
    rcases levelDouble_cases_128 (s.outside i - inside i) with ⟨ha, -, hc⟩ | ⟨ha, -, hc⟩
    · constructor
      · intro _; linarith
      · intro _
        have : (128 : ℚ) - 1 / 2 ^ 46 < 128 := by norm_num
        linarith
    · constructor
      · intro hlt; linarith
      · intro hgt; linarith
  refine ⟨?_, hiff, ?_⟩
  · intro heq
    have hl : clampedLevelDouble (s.outside i) (inside i) = 128 := by
      rw [clampedLevelDouble_eq, heq, sub_self, levelDouble_zero]; norm_num
    rw [hl] at ho hb
    have ht : truncInt (128 : ℚ) = 128 := by norm_num [truncInt]
    rw [ht] at hb
    exact ⟨ho, by omega⟩
  · intro hge
    have h1 := hiff.1 hge
    have : (0 : ℚ) < 1 / 2 ^ 51 + 1 / 2 ^ 104 := by positivity
    linarith

/-- Witness of the amended C12: one round of the loop on a pixel whose two distances
are both 1. -/
theorem C12_centred_in_double_witness :
    0 < 1
      ∧ (forLoop (combineBodyDouble (fun _ => 1)) 1 ⟨fun _ => 1, fun _ => 0⟩).outside 0 = 128
      ∧ (forLoop (combineBodyDouble (fun _ => 1)) 1 ⟨fun _ => 1, fun _ => 0⟩).out 0 = 127 :=
  ⟨by decide,
    (C12_centred_in_double (fun _ => 1) ⟨fun _ => 1, fun _ => 0⟩ 1 0 (by decide)).1 rfl⟩

/-- C13: the encoded sample is a non-increasing function of the bipolar distance
`d = outside - inside`: whenever `d1 ≤ d2`, the byte stored for `d2` is at most the byte
stored for `d1`.  This holds for any two rounds of the last loop, and so for any two
pixels of a run. -/
theorem C13_encoding_antitone :
    (∀ (inside1 inside2 : Buf) (s1 s2 : CombineState) (i j : Nat),
        s1.outside i - inside1 i ≤ s2.outside j - inside2 j →
        (combineBody inside2 j s2).out j ≤ (combineBody inside1 i s1).out i)
      ∧ (∀ (lib : Edtaa3Lib) (mem : Uninit) (img : Nat → UChar) (width height i j : Nat),
        i < width * height → j < width * height →
        (runDistanceMap lib mem img width height).outside i
            - (runDistanceMap lib mem img width height).inside i
          ≤ (runDistanceMap lib mem img width height).outside j
            - (runDistanceMap lib mem img width height).inside j →
        (runDistanceMap lib mem img width height).out j
          ≤ (runDistanceMap lib mem img width height).out i) := by
  constructor
  · intro inside1 inside2 s1 s2 i j hd
    have h1 := combineBody_out_self inside1 i s1
    have h2 := combineBody_out_self inside2 j s2
    have h3 := truncInt_mono (clampedLevel_nonneg _ _) (clampedLevel_mono hd)
    omega
  · intro lib mem img width height i j hi hj hd
    have h1 := (runDistanceMap_level_out lib mem img width height i hi).2
    have h2 := (runDistanceMap_level_out lib mem img width height j hj).2
    have h3 := truncInt_mono (clampedLevel_nonneg _ _) (clampedLevel_mono hd)
    omega

/-- Witness of C13: the distances `(1, 3)` and `(2, 1)`, with `1 - 3 ≤ 2 - 1`. -/
theorem C13_encoding_antitone_witness :
    (combineBody (fun _ => 1) 0 ⟨fun _ => 2, fun _ => 0⟩).out 0
      ≤ (combineBody (fun _ => 3) 0 ⟨fun _ => 1, fun _ => 0⟩).out 0 :=
  C13_encoding_antitone.1 (fun _ => 3) (fun _ => 1) ⟨fun _ => 1, fun _ => 0⟩
    ⟨fun _ => 2, fun _ => 0⟩ 0 0 (by norm_num)

/-- C14 (counterexample): in `double` arithmetic a pixel with
`outside = 127/16 - 2^-50` and `inside = 0` has `d = outside - inside < 127/16`, yet its
sample is 0: `d` and `16 * d = 127 - 2^-46` are doubles, and `255 - 2^-46`, half-way
between the doubles `255 - 2^-45` and `255`, rounds to the even one, 255; the level is
255 and the byte `255 - 255`. -/
theorem C14_saturation_counterexample :
    (127 / 16 - 1 / 2 ^ 50 : ℚ) - 0 < 127 / 16
      ∧ roundDouble (127 / 16 - 1 / 2 ^ 50 - 0) = 127 / 16 - 1 / 2 ^ 50
      ∧ roundDouble ((127 / 16 - 1 / 2 ^ 50) * 16) = 127 - 1 / 2 ^ 46
      ∧ roundDouble (128 + (127 - 1 / 2 ^ 46)) = 255
      ∧ (forLoop (combineBodyDouble (fun _ => 0)) 1
          ⟨fun _ => 127 / 16 - 1 / 2 ^ 50, fun _ => 0⟩).outside 0 = 255
      ∧ (forLoop (combineBodyDouble (fun _ => 0)) 1
          ⟨fun _ => 127 / 16 - 1 / 2 ^ 50, fun _ => 0⟩).out 0 = 0 := by
  have e1 : roundDouble (127 / 16 - 1 / 2 ^ 50 - 0) = 127 / 16 - 1 / 2 ^ 50 := by
    have h := roundDouble_fix (e := 2) (by norm_num) (127 * 2 ^ 46 - 1) (by norm_num)
      (by norm_num)
    have h2 : (127 / 16 - 1 / 2 ^ 50 - 0 : ℚ)
        = ((127 * 2 ^ 46 - 1 : Int) : ℚ) * 2 ^ ((2 : Int) - 52) := by norm_num
    have h3 : (127 / 16 - 1 / 2 ^ 50 : ℚ)
        = ((127 * 2 ^ 46 - 1 : Int) : ℚ) * 2 ^ ((2 : Int) - 52) := by norm_num
    rw [h2, h, h3]
  have e2 : roundDouble ((127 / 16 - 1 / 2 ^ 50) * 16) = 127 - 1 / 2 ^ 46 := by
    have h := roundDouble_fix (e := 6) (by norm_num) (127 * 2 ^ 46 - 1) (by norm_num)
      (by norm_num)
    have h2 : ((127 / 16 - 1 / 2 ^ 50) * 16 : ℚ)
        = ((127 * 2 ^ 46 - 1 : Int) : ℚ) * 2 ^ ((6 : Int) - 52) := by norm_num
    have h3 : (127 - 1 / 2 ^ 46 : ℚ)
        = ((127 * 2 ^ 46 - 1 : Int) : ℚ) * 2 ^ ((6 : Int) - 52) := by norm_num
    rw [h2, h, h3]
  have e3 : roundDouble (128 + (127 - 1 / 2 ^ 46)) = 255 := by
    have h255 := roundDouble_fix (e := 7) (by norm_num) (255 * 2 ^ 45) (by norm_num)
      (by norm_num)
    have hup : roundDouble (128 + (127 - 1 / 2 ^ 46)) ≤ roundDouble 255 :=
      roundDouble_mono (by norm_num)
    have h1 := roundDouble_split_odd (e := 7) (by norm_num) (255 * 2 ^ 45 - 1) (by norm_num)
      (by norm_num) (by norm_num) (255 - 1 / 2 ^ 45) 255 (255 - 1 / 2 ^ 46)
      (by norm_num) (by norm_num) (by norm_num) (128 + (127 - 1 / 2 ^ 46))
    norm_num at h255
    rw [h255] at hup
    rcases h1 with ⟨h1a, -⟩ | ⟨-, h1b⟩
    · norm_num at h1a
    · exact le_antisymm hup h1b
  have hl : clampedLevelDouble (127 / 16 - 1 / 2 ^ 50) 0 = 255 := by
    simp only [clampedLevelDouble, levelDouble, e1, e2, e3]
    norm_num
  obtain ⟨ho, hb⟩ := forLoop_combineDouble_apply (fun _ => 0) 1
    ⟨fun _ => 127 / 16 - 1 / 2 ^ 50, fun _ => 0⟩ 0
  rw [if_pos (by decide)] at ho hb
  simp only [] at ho hb
  rw [hl] at ho hb
  have ht : truncInt (255 : ℚ) = 255 := by norm_num [truncInt]
  rw [ht] at hb
  refine ⟨by norm_num, e1, e2, e3, ho, by omega⟩

/-- C14 (amended): for every pixel `i` of the last loop in `double` arithmetic, entered
with any contents of `outside` and `inside`, and with `d` the difference
`outside[i] - inside[i]` as line 220 stores it, rounded to a double: the sample is 0 if
and only if `d ≥ 127/16 - 2^-50`, one spacing of the doubles below `127/16`, and it is
255 if and only if `d < -127/16`.  On the exact difference the two thresholds are the
midpoints next to them: the sample is 0 if and only if
`outside[i] - inside[i] > 127/16 - 3 * 2^-51`, and 255 if and only if
`outside[i] - inside[i] < -127/16 - 2^-51`. -/
theorem C14_saturation_in_double (inside : Buf) (s : CombineState) (n i : Nat) (h : i < n) :
    ((forLoop (combineBodyDouble inside) n s).out i = 0
        ↔ 127 / 16 - 1 / 2 ^ 50 ≤ roundDouble (s.outside i - inside i))
      ∧ ((forLoop (combineBodyDouble inside) n s).out i = 255
        ↔ roundDouble (s.outside i - inside i) < -127 / 16)
      ∧ ((forLoop (combineBodyDouble inside) n s).out i = 0
        ↔ 127 / 16 - 3 / 2 ^ 51 < s.outside i - inside i)
      ∧ ((forLoop (combineBodyDouble inside) n s).out i = 255
        ↔ s.outside i - inside i < -127 / 16 - 1 / 2 ^ 51) := by
  obtain ⟨-, hb⟩ := forLoop_combineDouble_apply inside n s i
  rw [if_pos h] at hb
  obtain ⟨-, hz, hf⟩ := sampleDouble_iff (s.outside i) (inside i)
  rw [← hb] at hz hf
  have h0 : (forLoop (combineBodyDouble inside) n s).out i = 0
      ↔ 255 ≤ levelDouble (s.outside i - inside i) := by
    rw [← hz]; omega
  have h255 : (forLoop (combineBodyDouble inside) n s).out i = 255
      ↔ levelDouble (s.outside i - inside i) < 1 := by
    rw [← hf]; omega
  have k1 : (255 : ℚ) - 1 / 2 ^ 45 < 255 := by norm_num
  have k2 : (127 : ℚ) / 16 - 1 / 2 ^ 49 < 127 / 16 - 1 / 2 ^ 50 := by norm_num
  have k3 : (1 : ℚ) - 1 / 2 ^ 53 < 1 := by norm_num
  have k4 : (-127 : ℚ) / 16 - 1 / 2 ^ 50 < -127 / 16 := by norm_num
  refine ⟨?_, ?_, ?_, ?_⟩
  · rw [h0]
    rcases levelDouble_cases_255 (s.outside i - inside i) with ⟨-, hb1, hc⟩ | ⟨-, hb1, hc⟩
    · constructor <;> intro _ <;> linarith
    · exact ⟨fun _ => hb1, fun _ => hc⟩
  · rw [h255]
    rcases levelDouble_cases_one (s.outside i - inside i) with ⟨-, hb1, hc⟩ | ⟨-, hb1, hc⟩
    · exact ⟨fun _ => by linarith, fun _ => by linarith⟩
    · constructor <;> intro _ <;> linarith
  · rw [h0]
    rcases levelDouble_cases_255 (s.outside i - inside i) with ⟨ha, -, hc⟩ | ⟨ha, -, hc⟩
    · constructor <;> intro _ <;> linarith
    · exact ⟨fun _ => ha, fun _ => hc⟩
  · rw [h255]
    rcases levelDouble_cases_one (s.outside i - inside i) with ⟨ha, -, hc⟩ | ⟨ha, -, hc⟩
    · exact ⟨fun _ => ha, fun _ => by linarith⟩
    · constructor <;> intro _ <;> linarith

/-- Witness of the amended C14: one round of the loop on a pixel with `outside = 8`
and `inside = 0`, whose sample is 0. -/
theorem C14_saturation_in_double_witness :
    0 < 1
      ∧ (forLoop (combineBodyDouble (fun _ => 0)) 1 ⟨fun _ => 8, fun _ => 0⟩).out 0 = 0 :=
  ⟨by decide,
    (C14_saturation_in_double (fun _ => 0) ⟨fun _ => 8, fun _ => 0⟩ 1 0
      (by decide)).2.2.1.mpr (by norm_num)⟩

/-- The upload of lines 105-124 leaves the texture, the pointers and `textLength`. -/
theorem uploadBuffers_keeps (self obj : FontText) (st : LayoutState)
    (h : uploadBuffers self st = .ok obj) :
    obj.textAtlasDistanceMap = self.textAtlasDistanceMap ∧ obj.textLength = self.textLength
      ∧ obj.atlas = self.atlas ∧ obj.font = self.font := by
  unfold uploadBuffers at h
  split at h
  · cases h; exact ⟨rfl, rfl, rfl, rfl⟩
  · cases h

/-- What a `Load` that returns `true` has gone through: the font opened, no glyph
failed, the walk and the upload completed. -/
theorem load_true_inv (ft : FreetypeGL) (lib : Edtaa3Lib) (mem : Uninit) (self obj : FontText)
    (path : String) (str : FormattedString) (pos : Vec2) (size ko : ℚ)
    (h : FontText.Load ft lib mem self path str pos size ko = .ok (true, obj)) :
    ∃ font st self1, ft.texture_font_new_from_file ft.atlas size path = some font
      ∧ ft.texture_font_load_glyphs font str.text = 0
      ∧ layoutWalk ft font str pos ko = .ok st
      ∧ self1.textAtlasDistanceMap
          = some ⟨512, 512, MakeDistanceMap lib mem ft.atlas_data 512 512⟩
      ∧ self1.textLength = (str.text.length : Int)
      ∧ uploadBuffers self1 st = .ok obj := by
  unfold FontText.Load at h
  split at h
  · cases h
  · cases hf : ft.texture_font_new_from_file ft.atlas size path with
    | none => simp [hf] at h
    | some font =>
      simp only [hf] at h
      by_cases hm : ft.texture_font_load_glyphs font str.text > 0
      · simp [hm] at h
      · simp only [hm, if_false] at h
        cases hw : layoutWalk ft font str pos ko with
        | error e => simp [hw] at h
        | ok st =>
          simp only [hw] at h
          split at h
          · cases h
          · next self2 hu =>
            simp only [Except.ok.injEq, Prod.mk.injEq, true_and] at h
            subst h
            exact ⟨font, st, _, rfl, by omega, hw, rfl, rfl, hu⟩

/-- Every byte of the returned map is at most 255. -/
theorem makeDistanceMap_le (lib : Edtaa3Lib) (mem : Uninit) (img : Nat → UChar)
    (width height b : Nat) (hb : b ∈ MakeDistanceMap lib mem img width height) : b ≤ 255 := by
  simp only [MakeDistanceMap, List.mem_map, List.mem_range] at hb
  obtain ⟨i, hi, rfl⟩ := hb
  have h1 := (runDistanceMap_level_out lib mem img width height i hi).2
  have h2 := truncInt_range (clampedLevel_nonneg
    ((runDistanceMap lib mem img width height).outside i)
    ((runDistanceMap lib mem img width height).inside i)) (clampedLevel_le _ _)
  omega

/-- C15: for every width and height `MakeDistanceMap` returns exactly `width*height`
samples; every sample is `255` minus the truncation of a level clamped to `[0, 255]`,
computed without wrap-around, and lies in `[0, 255]`; and the texture a successful `Load`
allocates is `512 × 512` with the `512*512` samples of the map of the atlas. -/
theorem C15_dimensions_and_range (lib : Edtaa3Lib) (mem : Uninit) (img : Nat → UChar)
    (width height : Nat) :
    (MakeDistanceMap lib mem img width height).length = width * height
      ∧ (∀ b, b ∈ MakeDistanceMap lib mem img width height → 0 ≤ b ∧ b ≤ 255)
      ∧ (∀ i, i < width * height →
          0 ≤ (runDistanceMap lib mem img width height).level i
          ∧ (runDistanceMap lib mem img width height).level i ≤ 255
          ∧ ∃ b : Nat, (MakeDistanceMap lib mem img width height)[i]? = some b
            ∧ (b : Int) = 255 - truncInt ((runDistanceMap lib mem img width height).level i))
      ∧ (∀ (ft : FreetypeGL) (self obj : FontText) (path : String) (str : FormattedString)
          (pos : Vec2) (size ko : ℚ),
          FontText.Load ft lib mem self path str pos size ko = .ok (true, obj) →
          obj.textAtlasDistanceMap
              = some ⟨512, 512, MakeDistanceMap lib mem ft.atlas_data 512 512⟩
            ∧ (MakeDistanceMap lib mem ft.atlas_data 512 512).length = 512 * 512) := by
  refine ⟨by simp [MakeDistanceMap], ?_, ?_, ?_⟩
  · intro b hb
    exact ⟨Nat.zero_le b, makeDistanceMap_le lib mem img width height b hb⟩
  · intro i hi
    obtain ⟨hlev, hout⟩ := runDistanceMap_level_out lib mem img width height i hi
    refine ⟨by rw [hlev]; exact clampedLevel_nonneg _ _,
      by rw [hlev]; exact clampedLevel_le _ _,
      (runDistanceMap lib mem img width height).out i, ?_, by rw [hlev]; exact hout⟩
    simp [MakeDistanceMap, List.getElem?_map, List.getElem?_range hi]
  · intro ft self obj path str pos size ko h
    obtain ⟨font, st, self1, -, -, -, htex, -, hu⟩ :=
      load_true_inv ft lib mem self obj path str pos size ko h
    refine ⟨(uploadBuffers_keeps self1 obj st hu).1.trans htex, ?_⟩
    simp only [MakeDistanceMap, List.length_map, List.length_range]

/-- Witness of C15: the `2 × 2` example bitmap gives 4 samples, the second one from the
level of pixel `1`. -/
theorem C15_dimensions_and_range_witness :
    (MakeDistanceMap exampleLib exampleMem exampleImg 2 2).length = 2 * 2
      ∧ ∃ b : Nat, (MakeDistanceMap exampleLib exampleMem exampleImg 2 2)[1]? = some b
        ∧ (b : Int)
          = 255 - truncInt ((runDistanceMap exampleLib exampleMem exampleImg 2 2).level 1) :=
  ⟨(C15_dimensions_and_range exampleLib exampleMem exampleImg 2 2).1,
    ((C15_dimensions_and_range exampleLib exampleMem exampleImg 2 2).2.2.1 1
      (by decide)).2.2⟩

/-! ## The two distance passes -/

theorem exampleLib_pure : exampleLib.Pure :=
  { computegradient_cells := fun _ _ _ _ _ _ _ _ _ hx hy => ⟨hx, hy⟩
    edtaa3_cells := fun _ _ _ _ _ _ _ _ _ _ _ _ _ _ hi _ _ => hi }

/-- Two loops whose bodies agree on the rounds that run compute the same state. -/
theorem forLoop_congr {σ : Type} (body body1 : Nat → σ → σ) (n : Nat) (s : σ)
    (h : ∀ i, i < n → ∀ t, body i t = body1 i t) : forLoop body n s = forLoop body1 n s := by
  induction n with
  | zero => rfl
  | succ n ih =>
    rw [forLoop_succ, forLoop_succ, ih (fun i hi t => h i (by omega) t), h n (by omega)]

/-- The scan of lines 173-179 reads the first `n` samples only. -/
theorem forLoop_scan_congr (img img1 : Nat → UChar) (n : Nat) (s : ScanState)
    (h : ∀ j, j < n → img j = img1 j) :
    forLoop (scanBody img) n s = forLoop (scanBody img1) n s :=
  forLoop_congr _ _ n s (fun i hi t => by simp only [scanBody, h i hi])

/-- The pieces of a run that the routines of `edtaa3func` receive and return, on the
cells of the bitmap. -/
theorem runDistanceMap_passes (lib : Edtaa3Lib) (mem : Uninit) (img : Nat → UChar)
    (width height : Nat) :
    (∀ j, j < width * height →
        (runDistanceMap lib mem img width height).dataInverted j
          = 1 - (runDistanceMap lib mem img width height).data j)
      ∧ (∀ j, j < width * height →
          (runDistanceMap lib mem img width height).gradCleared.1 j = 0
          ∧ (runDistanceMap lib mem img width height).gradCleared.2 j = 0)
      ∧ (runDistanceMap lib mem img width height).gradOutside
          = lib.computegradient (runDistanceMap lib mem img width height).data height width
              (fun _ => 0) (fun _ => 0)
      ∧ (runDistanceMap lib mem img width height).edtOutside
          = (lib.edtaa3 (runDistanceMap lib mem img width height).data
              (runDistanceMap lib mem img width height).gradOutside.1
              (runDistanceMap lib mem img width height).gradOutside.2 height width
              mem.xdist mem.ydist (fun _ => 0)).2.2
      ∧ (runDistanceMap lib mem img width height).gradInside
          = lib.computegradient (runDistanceMap lib mem img width height).dataInverted
              height width (runDistanceMap lib mem img width height).gradCleared.1
              (runDistanceMap lib mem img width height).gradCleared.2
      ∧ (runDistanceMap lib mem img width height).edtInside
          = (lib.edtaa3 (runDistanceMap lib mem img width height).dataInverted
              (runDistanceMap lib mem img width height).gradInside.1
              (runDistanceMap lib mem img width height).gradInside.2 height width
              (runDistanceMap lib mem img width height).xyOutside.1
              (runDistanceMap lib mem img width height).xyOutside.2 (fun _ => 0)).2.2 := by
  refine ⟨?_, ?_, rfl, rfl, rfl, rfl⟩
  · intro j hj
    simp only [runDistanceMap]
    rw [forLoop_invert_apply, if_pos hj]
  · intro j hj
    simp only [runDistanceMap, memsetZero, if_pos hj, and_self]

/-- For routines that keep the contract `Pure`, the two buffers `edtaa3` writes in a run
are the distance pass of `data` and the distance pass of `1 - data`. -/
theorem runDistanceMap_edt_pure (lib : Edtaa3Lib) (hlib : lib.Pure) (mem : Uninit)
    (img : Nat → UChar) (width height i : Nat) (hi : i < width * height) :
    (runDistanceMap lib mem img width height).edtOutside i
        = distancePass lib (runDistanceMap lib mem img width height).data height width i
      ∧ (runDistanceMap lib mem img width height).edtInside i
        = distancePass lib (fun j => 1 - (runDistanceMap lib mem img width height).data j)
            height width i := by
  obtain ⟨hinv, hzero, hg1, he1, hg2, he2⟩ := runDistanceMap_passes lib mem img width height
  have hi1 : i < height * width := by rw [Nat.mul_comm]; exact hi
  have hinv1 : agreeBelow (height * width)
      (runDistanceMap lib mem img width height).dataInverted
      (fun j => 1 - (runDistanceMap lib mem img width height).data j) :=
    fun j hj => hinv j (by rw [Nat.mul_comm]; exact hj)
  constructor
  · rw [he1, hg1]
    exact hlib.edtaa3_cells height width _ _ _ _ _ _ _ _ _ _ _ _
      (fun _ _ => rfl) (fun _ _ => rfl) (fun _ _ => rfl) i hi1
  · rw [he2, hg2]
    have hg := hlib.computegradient_cells height width
      (runDistanceMap lib mem img width height).dataInverted
      (fun j => 1 - (runDistanceMap lib mem img width height).data j)
      (runDistanceMap lib mem img width height).gradCleared.1 (fun _ => 0)
      (runDistanceMap lib mem img width height).gradCleared.2 (fun _ => 0)
      hinv1 (fun j hj => (hzero j (by rw [Nat.mul_comm]; exact hj)).1)
      (fun j hj => (hzero j (by rw [Nat.mul_comm]; exact hj)).2)
    exact hlib.edtaa3_cells height width _ _ _ _ _ _ _ _ _ _ _ _ hinv1 hg.1 hg.2 i hi1

/-- C16: `MakeDistanceMap` computes the inside distances with the same routine as the
outside distances.  The first pass runs `computegradient` and `edtaa3` on `data` with
zeroed gradient buffers; the second runs them on the inverted bitmap `1 - data` with
gradient buffers that the `memset`s have zeroed on every cell; both results are clamped at
zero.  For routines that keep their contract (`Edtaa3Lib.Pure`) this gives
`outside = max(0, edtaa3(data, computegradient(data)))` and
`inside = max(0, edtaa3(1 - data, computegradient(1 - data)))`, in which nothing of the
first pass is left. -/
theorem C16_inside_pass (lib : Edtaa3Lib) (mem : Uninit) (img : Nat → UChar)
    (width height : Nat) :
    (runDistanceMap lib mem img width height).gradOutside
        = lib.computegradient (runDistanceMap lib mem img width height).data height width
            (fun _ => 0) (fun _ => 0)
      ∧ (runDistanceMap lib mem img width height).edtOutside
          = (lib.edtaa3 (runDistanceMap lib mem img width height).data
              (runDistanceMap lib mem img width height).gradOutside.1
              (runDistanceMap lib mem img width height).gradOutside.2 height width
              mem.xdist mem.ydist (fun _ => 0)).2.2
      ∧ (∀ j, j < width * height →
          (runDistanceMap lib mem img width height).dataInverted j
            = 1 - (runDistanceMap lib mem img width height).data j)
      ∧ (∀ j, j < width * height →
          (runDistanceMap lib mem img width height).gradCleared.1 j = 0
          ∧ (runDistanceMap lib mem img width height).gradCleared.2 j = 0)
      ∧ (runDistanceMap lib mem img width height).gradInside
          = lib.computegradient (runDistanceMap lib mem img width height).dataInverted
              height width (runDistanceMap lib mem img width height).gradCleared.1
              (runDistanceMap lib mem img width height).gradCleared.2
      ∧ (runDistanceMap lib mem img width height).edtInside
          = (lib.edtaa3 (runDistanceMap lib mem img width height).dataInverted
              (runDistanceMap lib mem img width height).gradInside.1
              (runDistanceMap lib mem img width height).gradInside.2 height width
              (runDistanceMap lib mem img width height).xyOutside.1
              (runDistanceMap lib mem img width height).xyOutside.2 (fun _ => 0)).2.2
      ∧ (∀ i, i < width * height →
          (runDistanceMap lib mem img width height).outside i
              = max 0 ((runDistanceMap lib mem img width height).edtOutside i)
            ∧ (runDistanceMap lib mem img width height).inside i
              = max 0 ((runDistanceMap lib mem img width height).edtInside i))
      ∧ (lib.Pure → ∀ i, i < width * height →
          (runDistanceMap lib mem img width height).outside i
              = max 0 (distancePass lib (runDistanceMap lib mem img width height).data
                  height width i)
            ∧ (runDistanceMap lib mem img width height).inside i
              = max 0 (distancePass lib
                  (fun j => 1 - (runDistanceMap lib mem img width height).data j)
                  height width i)) := by
  obtain ⟨hinv, hzero, hg1, he1, hg2, he2⟩ := runDistanceMap_passes lib mem img width height
  refine ⟨hg1, he1, hinv, hzero, hg2, he2, ?_, ?_⟩
  · intro i hi
    obtain ⟨ho, hn⟩ := runDistanceMap_clamped lib mem img width height i hi
    exact ⟨by rw [ho, max_comm], by rw [hn, max_comm]⟩
  · intro hlib i hi
    obtain ⟨ho, hn⟩ := runDistanceMap_clamped lib mem img width height i hi
    obtain ⟨h1, h2⟩ := runDistanceMap_edt_pure lib hlib mem img width height i hi
    exact ⟨by rw [ho, h1, max_comm], by rw [hn, h2, max_comm]⟩

/-- Witness of C16: the example routines keep the contract; pixel `1` of the example
bitmap, taken as `2 × 2`. -/
theorem C16_inside_pass_witness :
    exampleLib.Pure ∧ 1 < 2 * 2
      ∧ (runDistanceMap exampleLib exampleMem exampleImg 2 2).inside 1
        = max 0 (distancePass exampleLib
            (fun j => 1 - (runDistanceMap exampleLib exampleMem exampleImg 2 2).data j)
            2 2 1) :=
  ⟨exampleLib_pure, by decide,
    ((C16_inside_pass exampleLib exampleMem exampleImg 2 2).2.2.2.2.2.2.2
      exampleLib_pure 1 (by decide)).2⟩

/-! ## Determinism of `MakeDistanceMap` -/

/-- The rescaled buffer `data` depends on the first `width * height` samples only. -/
theorem runDistanceMap_data_congr (lib lib1 : Edtaa3Lib) (mem mem1 : Uninit)
    (img img1 : Nat → UChar) (width height : Nat)
    (himg : ∀ j, j < width * height → img j = img1 j) :
    agreeBelow (width * height) (runDistanceMap lib mem img width height).data
      (runDistanceMap lib1 mem1 img1 width height).data := by
  intro j hj
  simp only [runDistanceMap]
  rw [forLoop_rescale_apply, forLoop_rescale_apply, if_pos hj, if_pos hj,
    forLoop_scan_congr img img1 _ _ himg, himg j hj]

/-- The distance pass of routines that keep their contract depends on the cells of the
image only. -/
theorem distancePass_congr (lib : Edtaa3Lib) (hlib : lib.Pure) (w h : Nat) (a b : Buf)
    (hab : agreeBelow (w * h) a b) :
    agreeBelow (w * h) (distancePass lib a w h) (distancePass lib b w h) := by
  have hg := hlib.computegradient_cells w h a b (fun _ => 0) (fun _ => 0) (fun _ => 0)
    (fun _ => 0) hab (fun _ _ => rfl) (fun _ _ => rfl)
  exact hlib.edtaa3_cells w h _ _ _ _ _ _ _ _ _ _ _ _ hab hg.1 hg.2

/-- For routines that keep their contract, the map depends on the samples of the bitmap
only: not on what the `malloc`ed buffers held. -/
theorem makeDistanceMap_congr (lib : Edtaa3Lib) (hlib : lib.Pure) (mem mem1 : Uninit)
    (img img1 : Nat → UChar) (width height : Nat)
    (himg : ∀ j, j < width * height → img j = img1 j) :
    MakeDistanceMap lib mem img width height = MakeDistanceMap lib mem1 img1 width height := by
  unfold MakeDistanceMap
  apply List.map_congr_left
  intro i hi
  rw [List.mem_range] at hi
  have hi1 : i < height * width := by rw [Nat.mul_comm]; exact hi
  have hd := runDistanceMap_data_congr lib lib mem mem1 img img1 width height himg
  have hd1 : agreeBelow (height * width) (runDistanceMap lib mem img width height).data
      (runDistanceMap lib mem1 img1 width height).data :=
    fun j hj => hd j (by rw [Nat.mul_comm]; exact hj)
  have hd2 : agreeBelow (height * width)
      (fun j => 1 - (runDistanceMap lib mem img width height).data j)
      (fun j => 1 - (runDistanceMap lib mem1 img1 width height).data j) :=
    fun j hj => by simp only [hd1 j hj]
  obtain ⟨ho, hn⟩ := runDistanceMap_edt_pure lib hlib mem img width height i hi
  obtain ⟨ho1, hn1⟩ := runDistanceMap_edt_pure lib hlib mem1 img1 width height i hi
  have h1 := runDistanceMap_out lib mem img width height i hi
  have h2 := runDistanceMap_out lib mem1 img1 width height i hi
  rw [ho, hn, distancePass_congr lib hlib height width _ _ hd1 i hi1,
    distancePass_congr lib hlib height width _ _ hd2 i hi1, ← ho1, ← hn1, ← h2] at h1
  exact_mod_cast h1

/-- C20: `MakeDistanceMap` is a function of the bytes of the bitmap and of the two
dimensions only.  It takes no member of the `FontText` object; for routines of
`edtaa3func` that keep their contract, two calls on bitmaps with the same
`width * height` bytes return the same bytes, whatever the uninitialised buffers held;
and two successful `Load`s with the same rasterizer allocate the same texture, whatever
the objects, the strings and the earlier calls. -/
theorem C20_deterministic (lib : Edtaa3Lib) (hlib : lib.Pure) (mem mem1 : Uninit)
    (img img1 : Nat → UChar) (width height : Nat)
    (himg : ∀ j, j < width * height → img j = img1 j) :
    MakeDistanceMap lib mem img width height = MakeDistanceMap lib mem1 img1 width height
      ∧ (∀ (ft : FreetypeGL) (self self1 obj obj1 : FontText) (path path1 : String)
          (str str1 : FormattedString) (pos pos1 : Vec2) (size size1 ko ko1 : ℚ),
          FontText.Load ft lib mem self path str pos size ko = .ok (true, obj) →
          FontText.Load ft lib mem1 self1 path1 str1 pos1 size1 ko1 = .ok (true, obj1) →
          obj.textAtlasDistanceMap = obj1.textAtlasDistanceMap) := by
  refine ⟨makeDistanceMap_congr lib hlib mem mem1 img img1 width height himg, ?_⟩
  intro ft self self1 obj obj1 path path1 str str1 pos pos1 size size1 ko ko1 h h1
  obtain ⟨-, st, s, -, -, -, htex, -, hu⟩ :=
    load_true_inv ft lib mem self obj path str pos size ko h
  obtain ⟨-, st1, s1, -, -, -, htex1, -, hu1⟩ :=
    load_true_inv ft lib mem1 self1 obj1 path1 str1 pos1 size1 ko1 h1
  rw [(uploadBuffers_keeps s obj st hu).1, (uploadBuffers_keeps s1 obj1 st1 hu1).1, htex,
    htex1, makeDistanceMap_congr lib hlib mem mem1 ft.atlas_data ft.atlas_data 512 512
      (fun _ _ => rfl)]

/-- Witness of C20: the example routines, two bitmaps that differ outside the `2 × 2`
cells only, and two different contents of the uninitialised buffers. -/
theorem C20_deterministic_witness :
    exampleLib.Pure
      ∧ (∀ j, j < 2 * 2 → exampleImg j = (fun i => if i < 4 then exampleImg i else 9) j)
      ∧ MakeDistanceMap exampleLib exampleMem exampleImg 2 2
        = MakeDistanceMap exampleLib ⟨fun _ => 0, fun _ => 0, fun _ => 0⟩
            (fun i => if i < 4 then exampleImg i else 9) 2 2 :=
  ⟨exampleLib_pure, fun j hj => by simp only [if_pos hj],
    (C20_deterministic exampleLib exampleLib_pure exampleMem ⟨fun _ => 0, fun _ => 0, fun _ => 0⟩
      exampleImg (fun i => if i < 4 then exampleImg i else 9) 2 2
      (fun j hj => by simp only [if_pos hj])).1⟩

/-! ## The walk over two characters -/

/-- The first `n` rounds of the walk complete when they stay inside the string and the
colours. -/
theorem forLoopM_layout_ok_upto (ft : FreetypeGL) (font : Nat) (str : FormattedString)
    (pos : Vec2) (ko : ℚ) (n : Nat) (hn : n ≤ str.text.length) (hc : n ≤ str.colors.length) :
    ∃ st, forLoopM (layoutBody ft font str ko) n (layoutInit pos) = .ok st := by
  induction n with
  | zero => exact ⟨_, rfl⟩
  | succ n ih =>
    obtain ⟨st, hst⟩ := ih (by omega) (by omega)
    rw [forLoopM_succ _ _ _ _ hst]
    rcases layoutBody_cases ft font str ko n st (by omega) (by omega) with h | ⟨g, c, q, h⟩
    · exact ⟨_, h⟩
    · exact ⟨_, h⟩

/-- A fault of a round ends the loop: the later rounds do not run. -/
theorem forLoopM_error_add {σ : Type} (body : Nat → σ → Except Fault σ) (n : Nat) (s : σ)
    (e : Fault) (h : forLoopM body n s = .error e) (k : Nat) :
    forLoopM body (n + k) s = .error e := by
  induction k with
  | zero => exact h
  | succ k ih =>
    have h1 : n + (k + 1) = (n + k) + 1 := by omega
    rw [h1]
    simp only [forLoopM, ih]

/-- A round on a character with a glyph and without a colour faults on `colors[i]`. -/
theorem layoutBody_no_color (ft : FreetypeGL) (font : Nat) (str : FormattedString) (ko : ℚ)
    (i c : Nat) (g : texture_glyph_t) (st : LayoutState)
    (hc : str.text[i]? = some c) (hg : ft.texture_font_get_glyph font c = some g)
    (hcol : str.colors.length ≤ i) :
    layoutBody ft font str ko i st = .error (.colorIndex i) := by
  have hi : i < str.text.length := by
    by_contra hlt
    rw [List.getElem?_eq_none (not_lt.mp hlt)] at hc
    cases hc
  simp [layoutBody, hc, hg, kernedPen_ok str ko g i st.pen hi, List.getElem?_eq_none hcol]

/-- C18: under the precondition `colors.size() >= text.size()` the walk completes, every
read `colors[i]` being in bounds; and for a string whose characters all have glyphs but
whose colour sequence is shorter than the text, the walk reads `colors[i]` at the index
`i = colors.size()`, which is out of bounds. -/
theorem C18_color_reads (ft : FreetypeGL) (font : Nat) (str : FormattedString) (pos : Vec2)
    (ko : ℚ) :
    (str.text.length ≤ str.colors.length →
        ∃ st, layoutWalk ft font str pos ko = .ok st)
      ∧ (str.colors.length < str.text.length →
          (∀ c, c ∈ str.text → hasGlyph ft font c = true) →
          layoutWalk ft font str pos ko = .error (.colorIndex str.colors.length)) := by
  constructor
  · intro hcol
    exact forLoopM_layout_ok_upto ft font str pos ko _ (le_refl _) hcol
  · intro hlt hall
    obtain ⟨st, hst⟩ :=
      forLoopM_layout_ok_upto ft font str pos ko str.colors.length (by omega) (le_refl _)
    have hc : str.text[str.colors.length]? = some str.text[str.colors.length] :=
      List.getElem?_eq_getElem hlt
    have hg := hall str.text[str.colors.length] (List.getElem_mem _)
    unfold hasGlyph at hg
    obtain ⟨g, hg1⟩ := Option.isSome_iff_exists.mp hg
    have hround := layoutBody_no_color ft font str ko _ _ g st hc hg1 (le_refl _)
    have herr : forLoopM (layoutBody ft font str ko) (str.colors.length + 1) (layoutInit pos)
        = .error (.colorIndex str.colors.length) := by
      rw [forLoopM_succ _ _ _ _ hst]; exact hround
    have hk := forLoopM_error_add _ _ _ _ herr (str.text.length - (str.colors.length + 1))
    have hlen : str.colors.length + 1 + (str.text.length - (str.colors.length + 1))
        = str.text.length := by omega
    rw [hlen] at hk
    exact hk

/-- Witness of C18: the example string has three colours for three characters, and
`ABA` with two colours reads `colors[2]`. -/
theorem C18_color_reads_witness :
    (∃ st, layoutWalk exampleFt 2 exampleStr ⟨0, 0⟩ 0 = .ok st)
      ∧ layoutWalk exampleFt 2 exampleShort ⟨0, 0⟩ 0 = .error (.colorIndex 2) :=
  ⟨(C18_color_reads exampleFt 2 exampleStr ⟨0, 0⟩ 0).1 (by decide),
    (C18_color_reads exampleFt 2 exampleShort ⟨0, 0⟩ 0).2 (by decide) (by decide)⟩

/-! ## The baseline -/

/-- A round of the walk leaves the `y` of the pen. -/
theorem layoutBody_pen_y (ft : FreetypeGL) (font : Nat) (str : FormattedString) (ko : ℚ)
    (i : Nat) (st st1 : LayoutState) (h : layoutBody ft font str ko i st = .ok st1) :
    st1.pen.y = st.pen.y := by
  cases hc : str.text[i]? with
  | none => simp [layoutBody, hc] at h
  | some c =>
    have hi : i < str.text.length := by
      by_contra hlt
      rw [List.getElem?_eq_none (not_lt.mp hlt)] at hc
      cases hc
    cases hg : ft.texture_font_get_glyph font c with
    | none =>
      rw [layoutBody_unmapped ft font str ko i c st hc hg] at h
      cases h
      rfl
    | some g =>
      cases hk : str.colors[i]? with
      | none => simp [layoutBody, hc, hg, kernedPen_ok str ko g i st.pen hi, hk] at h
      | some color =>
        rw [layoutBody_mapped ft font str ko i c g color st hc hg hk] at h
        cases h
        rfl

/-- The centers the first `n` rounds have pushed have the `y` of their own glyph on the
baseline of the base position, and the pen is still on that baseline. -/
theorem forLoopM_layout_baseline (ft : FreetypeGL) (font : Nat) (str : FormattedString)
    (pos : Vec2) (ko : ℚ) (n : Nat) (hn : n ≤ str.text.length) (st : LayoutState)
    (h : forLoopM (layoutBody ft font str ko) n (layoutInit pos) = .ok st) :
    st.pen.y = pos.y
      ∧ st.textPositions.map (fun p => (p.y, p.z))
        = (mappedChars ft font str n).map fun p =>
            (((truncInt (pos.y + p.2.offset_y) : Int) : ℚ) - (p.2.height : ℚ) / 2, (0 : ℚ)) := by
  induction n generalizing st with
  | zero => cases h; exact ⟨rfl, rfl⟩
  | succ n ih =>
    obtain ⟨s1, h1, h2⟩ := forLoopM_succ_ok _ n _ _ h
    obtain ⟨hy, hpos⟩ := ih (by omega) s1 h1
    have hlt : n < str.text.length := by omega
    have hc : str.text[n]? = some str.text[n] := List.getElem?_eq_getElem hlt
    cases hg : ft.texture_font_get_glyph font str.text[n] with
    | none =>
      rw [layoutBody_unmapped ft font str ko n _ s1 hc hg] at h2
      cases h2
      have hm : mappedChars ft font str (n + 1) = mappedChars ft font str n := by
        simp [mappedChars_succ, mappedAt, hc, hg]
      exact ⟨hy, by rw [hm]; exact hpos⟩
    | some g =>
      cases hk : str.colors[n]? with
      | none =>
        simp [layoutBody, hc, hg, kernedPen_ok str ko g n s1.pen hlt, hk] at h2
      | some color =>
        rw [layoutBody_mapped ft font str ko n _ g color s1 hc hg hk] at h2
        cases h2
        have hm : mappedChars ft font str (n + 1) = mappedChars ft font str n ++ [(n, g)] := by
          simp [mappedChars_succ, mappedAt, hc, hg]
        refine ⟨hy, ?_⟩
        rw [hm]
        simp only [pushGlyph, List.map_append, hpos, List.map_cons, List.map_nil, Vec2.scale,
          hy]
        congr 2
        simp only [Prod.mk.injEq, and_true]
        push_cast
        ring

/-- C19: the walk never changes the `y` of the pen: every round leaves it, and when the
walk completes (it does when every character has a colour) the pen is at
`basePosition.y`; the `k`-th record, emitted for a glyph `g`, has the center
`y = y0 - height/2` with `y0 = trunc(basePosition.y + offset_y)` and `z = 0`, whatever
characters come before it. -/
theorem C19_single_baseline (ft : FreetypeGL) (font : Nat) (str : FormattedString)
    (pos : Vec2) (ko : ℚ) :
    (∀ (i : Nat) (st st1 : LayoutState),
        layoutBody ft font str ko i st = .ok st1 → st1.pen.y = st.pen.y)
      ∧ (∀ st, layoutWalk ft font str pos ko = .ok st →
          st.pen.y = pos.y
          ∧ st.textPositions.length = (mappedChars ft font str str.text.length).length
          ∧ ∀ (k i : Nat) (g : texture_glyph_t),
              (mappedChars ft font str str.text.length)[k]? = some (i, g) →
              ∃ p, st.textPositions[k]? = some p
                ∧ p.y = ((truncInt (pos.y + g.offset_y) : Int) : ℚ) - (g.height : ℚ) / 2
                ∧ p.z = 0)
      ∧ (str.text.length ≤ str.colors.length →
          ∃ st, layoutWalk ft font str pos ko = .ok st) := by
  refine ⟨fun i st st1 h => layoutBody_pen_y ft font str ko i st st1 h, ?_,
    fun hcol => forLoopM_layout_ok_upto ft font str pos ko _ (le_refl _) hcol⟩
  intro st hst
  obtain ⟨hy, hpos⟩ :=
    forLoopM_layout_baseline ft font str pos ko str.text.length (le_refl _) st hst
  have hlen := congrArg List.length hpos
  simp only [List.length_map] at hlen
  refine ⟨hy, hlen, ?_⟩
  intro k i g hk
  have h := congrArg (fun l => l[k]?) hpos
  simp only [List.getElem?_map, hk, Option.map_some'] at h
  cases hpk : st.textPositions[k]? with
  | none => rw [hpk] at h; cases h
  | some p =>
    rw [hpk] at h
    simp only [Option.map_some', Option.some.injEq, Prod.mk.injEq] at h
    exact ⟨p, rfl, h.1, h.2⟩

/-- Witness of C19: the second record of the example string, from the base `(0, 3/2)`. -/
theorem C19_single_baseline_witness :
    ∃ st p, layoutWalk exampleFt 2 exampleStr ⟨0, 3 / 2⟩ 5 = .ok st
      ∧ st.pen.y = 3 / 2 ∧ st.textPositions[1]? = some p
      ∧ p.y = ((truncInt ((3 / 2 : ℚ) + (exampleGlyph 9 0).offset_y) : Int) : ℚ)
          - ((exampleGlyph 9 0).height : ℚ) / 2 := by
  obtain ⟨-, hwalk, hex⟩ := C19_single_baseline exampleFt 2 exampleStr ⟨0, 3 / 2⟩ 5
  obtain ⟨st, hst⟩ := hex (by decide)
  obtain ⟨hy, -, hk⟩ := hwalk st hst
  have hm : (mappedChars exampleFt 2 exampleStr exampleStr.text.length)[1]?
      = some (2, exampleGlyph 9 0) := by
    simp [mappedChars, exampleStr, exampleFt, List.range_succ]
  obtain ⟨p, hp, hpy, -⟩ := hk 1 2 _ hm
  exact ⟨st, p, hst, hy, hp, hpy⟩

/-! ## The levels of the rescaled bitmap -/

/-- The normalisation of a non-empty bitmap: `img_min` and `img_max` are attained and
bound the samples, and `data` holds `(s - img_min) / img_max`. -/
theorem runDistanceMap_norm (lib : Edtaa3Lib) (mem : Uninit) (img : Nat → UChar)
    (width height : Nat) (hn : 0 < width * height) :
    (∃ j, j < width * height ∧
        (runDistanceMap lib mem img width height).img_min = ((img j).val : ℚ))
      ∧ (∃ j, j < width * height ∧
        (runDistanceMap lib mem img width height).img_max = ((img j).val : ℚ))
      ∧ (∀ j, j < width * height →
        (runDistanceMap lib mem img width height).img_min ≤ ((img j).val : ℚ)
        ∧ ((img j).val : ℚ) ≤ (runDistanceMap lib mem img width height).img_max)
      ∧ (∀ i, i < width * height →
        (runDistanceMap lib mem img width height).data i
          = (((img i).val : ℚ) - (runDistanceMap lib mem img width height).img_min)
              / (runDistanceMap lib mem img width height).img_max) := by
  obtain ⟨hb, -, -⟩ := forLoop_scan img (fun _ => 0) (width * height)
  obtain ⟨hmin, hmax⟩ := forLoop_scan_attained img (fun _ => 0) (width * height) hn
  refine ⟨hmin, hmax, hb, ?_⟩
  intro i hi
  simp only [runDistanceMap]
  rw [forLoop_rescale_apply, if_pos hi]

/-- C21: for every non-empty bitmap with at least one non-zero sample the divisor
`img_max` is positive, so non-zero, and every rescaled level lies between 0 and 1: it is
at most `(img_max - img_min) / img_max`, the least sample maps to 0 and the greatest to
`(img_max - img_min) / img_max`; for a non-empty all-zero bitmap the divisor is 0. -/
theorem C21_rescaled_levels (lib : Edtaa3Lib) (mem : Uninit) (img : Nat → UChar)
    (width height : Nat) (hn : 0 < width * height) :
    ((∃ j, j < width * height ∧ img j ≠ 0) →
        (runDistanceMap lib mem img width height).img_max ≠ 0
        ∧ (∀ i, i < width * height →
            0 ≤ (runDistanceMap lib mem img width height).data i
            ∧ (runDistanceMap lib mem img width height).data i
                ≤ ((runDistanceMap lib mem img width height).img_max
                    - (runDistanceMap lib mem img width height).img_min)
                  / (runDistanceMap lib mem img width height).img_max
            ∧ (runDistanceMap lib mem img width height).data i ≤ 1)
        ∧ (∀ i, i < width * height →
            ((img i).val : ℚ) = (runDistanceMap lib mem img width height).img_min →
            (runDistanceMap lib mem img width height).data i = 0)
        ∧ (∀ i, i < width * height →
            ((img i).val : ℚ) = (runDistanceMap lib mem img width height).img_max →
            (runDistanceMap lib mem img width height).data i
              = ((runDistanceMap lib mem img width height).img_max
                  - (runDistanceMap lib mem img width height).img_min)
                / (runDistanceMap lib mem img width height).img_max))
      ∧ ((∀ j, j < width * height → img j = 0) →
          (runDistanceMap lib mem img width height).img_max = 0) := by
  obtain ⟨⟨jmin, hjmin, hmin⟩, ⟨jmax, hjmax, hmax⟩, hb, hdata⟩ :=
    runDistanceMap_norm lib mem img width height hn
  have hmin0 : 0 ≤ (runDistanceMap lib mem img width height).img_min := by
    rw [hmin]; exact Nat.cast_nonneg _
  constructor
  · rintro ⟨j, hj, hne⟩
    have hpos : 0 < (runDistanceMap lib mem img width height).img_max := by
      have h1 : 0 < (img j).val := Nat.pos_of_ne_zero (fun h0 => hne (Fin.ext h0))
      have h2 : (0 : ℚ) < ((img j).val : ℚ) := by exact_mod_cast h1
      exact lt_of_lt_of_le h2 (hb j hj).2
    refine ⟨ne_of_gt hpos, ?_, ?_, ?_⟩
    · intro i hi
      rw [hdata i hi]
      have h1 := (hb i hi).1
      have h2 := (hb i hi).2
      refine ⟨div_nonneg (by linarith) (le_of_lt hpos), ?_, ?_⟩
      · exact div_le_div_of_nonneg_right (by linarith) (le_of_lt hpos)
      · rw [div_le_one hpos]; linarith
    · intro i hi heq
      rw [hdata i hi, heq, sub_self, zero_div]
    · intro i hi heq
      rw [hdata i hi, heq]
  · intro hall
    rw [hmax, hall jmax hjmax]
    simp

/-- Witness of C21: the `2 × 2` example bitmap, whose sample `0` is `255`. -/
theorem C21_rescaled_levels_witness :
    0 < 2 * 2 ∧ (∃ j, j < 2 * 2 ∧ exampleImg j ≠ 0)
      ∧ (runDistanceMap exampleLib exampleMem exampleImg 2 2).img_max ≠ 0
      ∧ ∀ i, i < 2 * 2 →
          0 ≤ (runDistanceMap exampleLib exampleMem exampleImg 2 2).data i
          ∧ (runDistanceMap exampleLib exampleMem exampleImg 2 2).data i ≤ 1 :=
  ⟨by decide, ⟨0, by decide, by decide⟩,
    ((C21_rescaled_levels exampleLib exampleMem exampleImg 2 2 (by decide)).1
      ⟨0, by decide, by decide⟩).1,
    fun i hi =>
      ⟨(((C21_rescaled_levels exampleLib exampleMem exampleImg 2 2 (by decide)).1
        ⟨0, by decide, by decide⟩).2.1 i hi).1,
      (((C21_rescaled_levels exampleLib exampleMem exampleImg 2 2 (by decide)).1
        ⟨0, by decide, by decide⟩).2.1 i hi).2.2⟩⟩

/-! ## The plain-text overload of `Load` -/

theorem forLoop_push_eq_replicate {α : Type} (a : α) (n : Nat) :
    forLoop (fun _ (l : List α) => l ++ [a]) n [] = List.replicate n a := by
  induction n with
  | zero => rfl
  | succ n ih => rw [forLoop_succ, ih, List.replicate_succ']

theorem floatsOfVec3_inv (v : List Vec3) (fl : List ℚ) (h : floatsOfVec3 v = .ok fl) :
    v ≠ [] ∧ fl = v.flatMap fun p => [p.x, p.y, p.z] := by
  cases v with
  | nil => cases h
  | cons a t => cases h; exact ⟨by simp, rfl⟩

theorem floatsOfVec2_inv (v : List Vec2) (fl : List ℚ) (h : floatsOfVec2 v = .ok fl) :
    v ≠ [] ∧ fl = v.flatMap fun p => [p.x, p.y] := by
  cases v with
  | nil => cases h
  | cons a t => cases h; exact ⟨by simp, rfl⟩

/-- What a completed upload (lines 105-124) has put in the five buffers. -/
theorem uploadBuffers_inv (self obj : FontText) (st : LayoutState)
    (h : uploadBuffers self st = .ok obj) :
    st.textPositions ≠ [] ∧ st.textPositionOffsets ≠ [] ∧ st.textTexcoords0 ≠ []
      ∧ st.textTexcoords1 ≠ [] ∧ st.textColors ≠ []
      ∧ obj.textPositionVbo = some ⟨st.textPositions.flatMap fun p => [p.x, p.y, p.z]⟩
      ∧ obj.textPositionOffsetVbo = some ⟨st.textPositionOffsets.flatMap fun p => [p.x, p.y]⟩
      ∧ obj.textTexcoord0Vbo = some ⟨st.textTexcoords0.flatMap fun p => [p.x, p.y]⟩
      ∧ obj.textTexcoord1Vbo = some ⟨st.textTexcoords1.flatMap fun p => [p.x, p.y]⟩
      ∧ obj.textColorVbo = some ⟨st.textColors.flatMap fun p => [p.x, p.y, p.z]⟩
      ∧ obj.textVao.isSome = true := by
  unfold uploadBuffers at h
  split at h
  · next p o t0 t1 c hp ho ht0 ht1 hc =>
    cases h
    obtain ⟨n1, e1⟩ := floatsOfVec3_inv _ _ hp
    obtain ⟨n2, e2⟩ := floatsOfVec2_inv _ _ ho
    obtain ⟨n3, e3⟩ := floatsOfVec2_inv _ _ ht0
    obtain ⟨n4, e4⟩ := floatsOfVec2_inv _ _ ht1
    obtain ⟨n5, e5⟩ := floatsOfVec3_inv _ _ hc
    subst e1 e2 e3 e4 e5
    exact ⟨n1, n2, n3, n4, n5, rfl, rfl, rfl, rfl, rfl, rfl⟩
  · cases h

/-- Every colour the walk has pushed is one of the colours of the string. -/
theorem layoutWalk_colors_mem (ft : FreetypeGL) (font : Nat) (str : FormattedString)
    (pos : Vec2) (ko : ℚ) (st : LayoutState) (h : layoutWalk ft font str pos ko = .ok st)
    (c : Vec3) (hc : c ∈ st.textColors) : c ∈ str.colors := by
  have inv := forLoopM_layout_inv_of_ok ft font str pos ko str.text.length (le_refl _) st h
  have h1 : some c ∈ st.textColors.map some := List.mem_map.mpr ⟨c, hc, rfl⟩
  rw [inv.colors, List.mem_map] at h1
  obtain ⟨p, -, hp⟩ := h1
  exact List.getElem?_mem hp

/-- C22: the plain-text overload of `Load` is the `FormattedString` overload called with
the same text and `text.size()` colours, all `(1,1,1)`.  That string has a colour for every
character, so its walk completes for every glyph table, and every record it emits is
white: each colour of the walk, and each float a successful call uploads to the colour
buffer, is `1`. -/
theorem C22_plain_text_overload (ft : FreetypeGL) (lib : Edtaa3Lib) (mem : Uninit)
    (self : FontText) (path : String) (text : List Nat) (pos : Vec2) (size ko : ℚ) :
    FontText.LoadText ft lib mem self path text pos size ko
        = FontText.Load ft lib mem self path
            ⟨text, List.replicate text.length ⟨1, 1, 1⟩⟩ pos size ko
      ∧ (List.replicate text.length (⟨1, 1, 1⟩ : Vec3)).length = text.length
      ∧ (∀ font, ∃ st,
          layoutWalk ft font ⟨text, List.replicate text.length ⟨1, 1, 1⟩⟩ pos ko = .ok st
          ∧ ∀ c, c ∈ st.textColors → c = ⟨1, 1, 1⟩)
      ∧ (∀ obj, FontText.LoadText ft lib mem self path text pos size ko = .ok (true, obj) →
          ∃ fl, obj.textColorVbo = some ⟨fl⟩ ∧ ∀ x, x ∈ fl → x = 1) := by
  have heq : FontText.LoadText ft lib mem self path text pos size ko
      = FontText.Load ft lib mem self path
          ⟨text, List.replicate text.length ⟨1, 1, 1⟩⟩ pos size ko := by
    unfold FontText.LoadText
    rw [forLoop_push_eq_replicate]
  refine ⟨heq, List.length_replicate _ _, ?_, ?_⟩
  · intro font
    obtain ⟨st, hst⟩ := forLoopM_layout_ok_upto ft font
      ⟨text, List.replicate text.length ⟨1, 1, 1⟩⟩ pos ko text.length (le_refl _)
      (by simp)
    refine ⟨st, hst, fun c hc => ?_⟩
    exact List.eq_of_mem_replicate (layoutWalk_colors_mem ft font _ pos ko st hst c hc)
  · intro obj h
    rw [heq] at h
    obtain ⟨font, st, self1, -, -, hw, -, -, hu⟩ := load_true_inv ft lib mem self obj path _
      pos size ko h
    obtain ⟨-, -, -, -, -, -, -, -, -, hcol, -⟩ := uploadBuffers_inv self1 obj st hu
    refine ⟨_, hcol, ?_⟩
    intro x hx
    rw [List.mem_flatMap] at hx
    obtain ⟨c, hc, hxc⟩ := hx
    have hc1 : c = ⟨1, 1, 1⟩ :=
      List.eq_of_mem_replicate (layoutWalk_colors_mem ft font _ pos ko st hw c hc)
    subst hc1
    simp at hxc
    exact hxc

/-- Witness of C22: the plain text `A`, control character, `B` on a fresh object. -/
theorem C22_plain_text_overload_witness :
    FontText.LoadText exampleFt exampleLib exampleMem (FontText.new 0) examplePath
        [65, 7, 66] ⟨0, 0⟩ 32 0
      = FontText.Load exampleFt exampleLib exampleMem (FontText.new 0) examplePath
          ⟨[65, 7, 66], [⟨1, 1, 1⟩, ⟨1, 1, 1⟩, ⟨1, 1, 1⟩]⟩ ⟨0, 0⟩ 32 0 :=
  (C22_plain_text_overload exampleFt exampleLib exampleMem (FontText.new 0) examplePath
    [65, 7, 66] ⟨0, 0⟩ 32 0).1

/-! ## `FontText::Draw` and the upload -/

theorem length_flatMap_vec3 (v : List Vec3) :
    (v.flatMap fun p => [p.x, p.y, p.z]).length = 3 * v.length := by
  induction v with
  | nil => rfl
  | cons a t ih => simp only [List.flatMap_cons, List.length_append, ih, List.length_cons,
      List.length_nil]; omega

theorem length_flatMap_vec2 (v : List Vec2) :
    (v.flatMap fun p => [p.x, p.y]).length = 2 * v.length := by
  induction v with
  | nil => rfl
  | cons a t ih => simp only [List.flatMap_cons, List.length_append, ih, List.length_cons,
      List.length_nil]; omega

/-- The lengths of the five record arrays of a completed walk. -/
theorem layoutWalk_lengths (ft : FreetypeGL) (font : Nat) (str : FormattedString)
    (pos : Vec2) (ko : ℚ) (st : LayoutState) (h : layoutWalk ft font str pos ko = .ok st) :
    st.textPositions.length = str.text.countP (hasGlyph ft font)
      ∧ st.textPositionOffsets.length = str.text.countP (hasGlyph ft font)
      ∧ st.textTexcoords0.length = str.text.countP (hasGlyph ft font)
      ∧ st.textTexcoords1.length = str.text.countP (hasGlyph ft font)
      ∧ st.textColors.length = str.text.countP (hasGlyph ft font) := by
  have inv := forLoopM_layout_inv_of_ok ft font str pos ko str.text.length (le_refl _) st h
  have hcount := inv.count
  rw [List.take_length] at hcount
  have h5 := congrArg List.length inv.colors
  simp only [List.length_map] at h5
  exact ⟨by rw [inv.positions, hcount], by rw [inv.offsets, hcount],
    by rw [inv.texcoords0, List.length_map, hcount],
    by rw [inv.texcoords1, List.length_map, hcount], by rw [h5, hcount]⟩

/-- C24: after a successful `Load`, `Draw` issues `glDrawArrays(GL_POINTS, 0, n)` with
`n = text.size()`, while the five vertex buffers hold one entry per emitted record (3, 2,
2, 2 and 3 floats each), and there are as many records as characters with a glyph; so the
draw count is at least the record count, with equality if and only if every code point of
the string has a glyph. -/
theorem C24_draw_count (ft : FreetypeGL) (lib : Edtaa3Lib) (mem : Uninit) (self obj : FontText)
    (path : String) (str : FormattedString) (pos : Vec2) (size ko : ℚ) (unit : Int)
    (h : FontText.Load ft lib mem self path str pos size ko = .ok (true, obj)) :
    FontText.Draw obj unit
        = .ok { unit := unit, mode := GL_POINTS, first := 0, count := (str.text.length : Int) }
      ∧ ∃ (font records : Nat) (p o t0 t1 c : List ℚ),
          ft.texture_font_new_from_file ft.atlas size path = some font
          ∧ records = str.text.countP (hasGlyph ft font)
          ∧ obj.textPositionVbo = some ⟨p⟩ ∧ p.length = 3 * records
          ∧ obj.textPositionOffsetVbo = some ⟨o⟩ ∧ o.length = 2 * records
          ∧ obj.textTexcoord0Vbo = some ⟨t0⟩ ∧ t0.length = 2 * records
          ∧ obj.textTexcoord1Vbo = some ⟨t1⟩ ∧ t1.length = 2 * records
          ∧ obj.textColorVbo = some ⟨c⟩ ∧ c.length = 3 * records
          ∧ records ≤ str.text.length
          ∧ (str.text.length = records ↔ ∀ ch, ch ∈ str.text → hasGlyph ft font ch = true) := by
  obtain ⟨font, st, self1, hf, -, hw, htex, hlen, hu⟩ :=
    load_true_inv ft lib mem self obj path str pos size ko h
  obtain ⟨ktex, klen, -, -⟩ := uploadBuffers_keeps self1 obj st hu
  obtain ⟨-, -, -, -, -, hp, ho, ht0, ht1, hc, hvao⟩ := uploadBuffers_inv self1 obj st hu
  obtain ⟨l1, l2, l3, l4, l5⟩ := layoutWalk_lengths ft font str pos ko st hw
  constructor
  · obtain ⟨vao, hv⟩ := Option.isSome_iff_exists.mp hvao
    unfold FontText.Draw
    rw [ktex, htex, hv, klen, hlen]
  · refine ⟨font, _, _, _, _, _, _, hf, rfl, hp, ?_, ho, ?_, ht0, ?_, ht1, ?_, hc, ?_,
      List.countP_le_length _, ?_⟩
    · rw [length_flatMap_vec3, l1]
    · rw [length_flatMap_vec2, l2]
    · rw [length_flatMap_vec2, l3]
    · rw [length_flatMap_vec2, l4]
    · rw [length_flatMap_vec3, l5]
    · rw [eq_comm, List.countP_eq_length]

/-- Witness of C24: the example string has three characters, one without a glyph; after
its `Load`, `Draw` asks for 3 points. -/
theorem C24_draw_count_witness :
    ∃ obj, FontText.Load exampleFt exampleLib exampleMem (FontText.new 0) examplePath
          exampleStr ⟨0, 0⟩ 32 0 = .ok (true, obj)
      ∧ FontText.Draw obj 0 = .ok { unit := 0, mode := GL_POINTS, first := 0, count := 3 } := by
  obtain ⟨obj, h, -, -⟩ := load_succeeds exampleFt exampleLib exampleMem (FontText.new 0)
    examplePath exampleStr ⟨0, 0⟩ 32 0 2 rfl rfl rfl (by decide)
    ⟨65, by simp [exampleStr], rfl⟩
  exact ⟨obj, h, (C24_draw_count exampleFt exampleLib exampleMem (FontText.new 0) obj
    examplePath exampleStr ⟨0, 0⟩ 32 0 0 h).1⟩

/-- The walk over a string none of whose characters has a glyph pushes nothing. -/
theorem forLoopM_layout_unmapped (ft : FreetypeGL) (font : Nat) (str : FormattedString)
    (pos : Vec2) (ko : ℚ) (hall : ∀ ch, ch ∈ str.text → hasGlyph ft font ch = false)
    (n : Nat) (hn : n ≤ str.text.length) :
    forLoopM (layoutBody ft font str ko) n (layoutInit pos) = .ok (layoutInit pos) := by
  induction n with
  | zero => rfl
  | succ n ih =>
    rw [forLoopM_succ _ _ _ _ (ih (by omega))]
    have hlt : n < str.text.length := by omega
    have hg := hall str.text[n] (List.getElem_mem _)
    unfold hasGlyph at hg
    exact layoutBody_unmapped ft font str ko n _ _ (List.getElem?_eq_getElem hlt)
      (Option.not_isSome_iff_eq_none.mp (by simp [hg]))

/-- The upload faults on the first array when it is empty. -/
theorem uploadBuffers_empty (self : FontText) (st : LayoutState)
    (h : st.textPositions = []) : uploadBuffers self st = .error .emptyVector := by
  unfold uploadBuffers
  rw [h]
  rfl

/-- C27: the upload of `Load` takes `&v[0].x` of each of the five record arrays; these reads
are in bounds, and the upload completes, if and only if the arrays are non-empty, which
for the arrays of a walk means that at least one record was emitted.  So a `Load` of a
string none of whose code points has a glyph (the empty string among them), with the font
open and the glyphs loaded, reads element `0` of an empty array. -/
theorem C27_upload_reads_first (ft : FreetypeGL) (lib : Edtaa3Lib) (mem : Uninit)
    (self : FontText) (path : String) (str : FormattedString) (pos : Vec2) (size ko : ℚ) :
    (∀ (obj0 : FontText) (st : LayoutState),
        (∃ obj, uploadBuffers obj0 st = .ok obj)
          ↔ (st.textPositions ≠ [] ∧ st.textPositionOffsets ≠ [] ∧ st.textTexcoords0 ≠ []
              ∧ st.textTexcoords1 ≠ [] ∧ st.textColors ≠ []))
      ∧ (∀ (obj0 : FontText) (font : Nat) (st : LayoutState),
          layoutWalk ft font str pos ko = .ok st →
          ((∃ obj, uploadBuffers obj0 st = .ok obj) ↔ 0 < str.text.countP (hasGlyph ft font))
          ∧ (str.text.countP (hasGlyph ft font) = 0 →
              uploadBuffers obj0 st = .error .emptyVector))
      ∧ (∀ font, self.loaded = false →
          ft.texture_font_new_from_file ft.atlas size path = some font →
          ft.texture_font_load_glyphs font str.text = 0 →
          (∀ ch, ch ∈ str.text → hasGlyph ft font ch = false) →
          FontText.Load ft lib mem self path str pos size ko = .error .emptyVector) := by
  refine ⟨?_, ?_, ?_⟩
  · intro obj0 st
    constructor
    · rintro ⟨obj, h⟩
      obtain ⟨n1, n2, n3, n4, n5, -⟩ := uploadBuffers_inv obj0 obj st h
      exact ⟨n1, n2, n3, n4, n5⟩
    · rintro ⟨n1, n2, n3, n4, n5⟩
      obtain ⟨obj, h, -⟩ := uploadBuffers_ok obj0 st (List.length_pos.mpr n1)
        (List.length_pos.mpr n2) (List.length_pos.mpr n3) (List.length_pos.mpr n4)
        (List.length_pos.mpr n5)
      exact ⟨obj, h⟩
  · intro obj0 font st hw
    obtain ⟨l1, l2, l3, l4, l5⟩ := layoutWalk_lengths ft font str pos ko st hw
    refine ⟨⟨?_, ?_⟩, ?_⟩
    · rintro ⟨obj, h⟩
      obtain ⟨n1, -⟩ := uploadBuffers_inv obj0 obj st h
      rw [← l1]
      exact List.length_pos.mpr n1
    · intro hpos
      obtain ⟨obj, h, -⟩ := uploadBuffers_ok obj0 st (by omega) (by omega) (by omega)
        (by omega) (by omega)
      exact ⟨obj, h⟩
    · intro h0
      exact uploadBuffers_empty obj0 st (List.length_eq_zero.mp (by omega))
  · intro font hl hf hm hall
    have hw : layoutWalk ft font str pos ko = .ok (layoutInit pos) :=
      forLoopM_layout_unmapped ft font str pos ko hall _ (le_refl _)
    unfold FontText.Load
    rw [if_neg (by simp [hl])]
    simp only [hf]
    rw [if_neg (by omega)]
    simp only [hw]
    rfl

/-- Witness of C27: the empty string on a fresh object. -/
theorem C27_upload_reads_first_witness :
    FontText.Load exampleFt exampleLib exampleMem (FontText.new 0) examplePath
        ⟨[], []⟩ ⟨0, 0⟩ 32 0 = .error .emptyVector :=
  (C27_upload_reads_first exampleFt exampleLib exampleMem (FontText.new 0) examplePath
    ⟨[], []⟩ ⟨0, 0⟩ 32 0).2.2 2 rfl rfl rfl (fun ch hch => by simp at hch)

/-! ## The order of the dimensions, and the kerning across a skipped character -/

/-- C25: `MakeDistanceMap(img, width, height)` calls `computegradient(img, w, h, gx, gy)`
and `edtaa3(img, gx, gy, w, h, distx, disty, dist)`, both times, with `w` bound to `height`
and `h` bound to `width`; the pair passed, `(height, width)`, is the declared pair
`(width, height)` exactly when `width = height`, as for the `512 × 512` atlas of `Load`. -/
theorem C25_argument_order (lib : Edtaa3Lib) (mem : Uninit) (img : Nat → UChar)
    (width height : Nat) :
    (runDistanceMap lib mem img width height).gradOutside
        = lib.computegradient (runDistanceMap lib mem img width height).data height width
            (fun _ => 0) (fun _ => 0)
      ∧ (runDistanceMap lib mem img width height).edtOutside
          = (lib.edtaa3 (runDistanceMap lib mem img width height).data
              (runDistanceMap lib mem img width height).gradOutside.1
              (runDistanceMap lib mem img width height).gradOutside.2 height width
              mem.xdist mem.ydist (fun _ => 0)).2.2
      ∧ (runDistanceMap lib mem img width height).gradInside
          = lib.computegradient (runDistanceMap lib mem img width height).dataInverted
              height width (runDistanceMap lib mem img width height).gradCleared.1
              (runDistanceMap lib mem img width height).gradCleared.2
      ∧ (runDistanceMap lib mem img width height).edtInside
          = (lib.edtaa3 (runDistanceMap lib mem img width height).dataInverted
              (runDistanceMap lib mem img width height).gradInside.1
              (runDistanceMap lib mem img width height).gradInside.2 height width
              (runDistanceMap lib mem img width height).xyOutside.1
              (runDistanceMap lib mem img width height).xyOutside.2 (fun _ => 0)).2.2
      ∧ (runDistanceMap probeLib mem img width height).gradOutside
          = (fun _ => (height : ℚ), fun _ => (width : ℚ))
      ∧ (runDistanceMap probeLib mem img width height).xyOutside
          = (fun _ => (height : Int), fun _ => (width : Int))
      ∧ (runDistanceMap probeLib mem img width height).gradInside
          = (fun _ => (height : ℚ), fun _ => (width : ℚ))
      ∧ ((height, width) = (width, height) ↔ width = height)
      ∧ (∀ (ft : FreetypeGL) (self obj : FontText) (path : String) (str : FormattedString)
          (pos : Vec2) (size ko : ℚ),
          FontText.Load ft lib mem self path str pos size ko = .ok (true, obj) →
          obj.textAtlasDistanceMap
            = some ⟨512, 512, MakeDistanceMap lib mem ft.atlas_data 512 512⟩) := by
  obtain ⟨-, -, hg1, he1, hg2, he2⟩ := runDistanceMap_passes lib mem img width height
  refine ⟨hg1, he1, hg2, he2, rfl, rfl, rfl, ?_, ?_⟩
  · constructor
    · intro h
      exact (Prod.mk.inj h).2
    · intro h
      rw [h]
  · intro ft self obj path str pos size ko h
    obtain ⟨font, st, self1, -, -, -, htex, -, hu⟩ :=
      load_true_inv ft lib mem self obj path str pos size ko h
    exact (uploadBuffers_keeps self1 obj st hu).1.trans htex

/-- Witness of C25: on a bitmap of width 2 and height 3 the routines are called with
`w = 3` and `h = 2`. -/
theorem C25_argument_order_witness :
    (runDistanceMap probeLib exampleMem exampleImg 2 3).gradOutside
        = (fun _ => ((3 : Nat) : ℚ), fun _ => ((2 : Nat) : ℚ))
      ∧ (runDistanceMap probeLib exampleMem exampleImg 2 3).xyOutside
        = (fun _ => ((3 : Nat) : Int), fun _ => ((2 : Nat) : Int)) :=
  ⟨(C25_argument_order exampleLib exampleMem exampleImg 2 3).2.2.2.2.1,
    (C25_argument_order exampleLib exampleMem exampleImg 2 3).2.2.2.2.2.1⟩

theorem rowToMilli_eq (r : ℚ) : Util.RowToMilli r = r * 1875 / 41 := by
  unfold Util.RowToMilli Util.BeatsToMilli Util.RPM Util.BPM
  ring

theorem milliToRow_eq (m : ℚ) : Util.MilliToRow m = m * 41 / 1875 := by
  unfold Util.MilliToRow Util.MilliToBeats Util.RPM Util.BPM
  ring

/-- The offset `set_row` sets for a non-negative row `r` is the integer quotient of
`1875 r` by `41`. -/
theorem set_row_bounds (r : Int) (hr : 0 ≤ r) :
    41 * set_row r ≤ 1875 * r ∧ 1875 * r < 41 * set_row r + 41 := by
  have hnn : (0 : ℚ) ≤ Util.RowToMilli (r : ℚ) := by
    rw [rowToMilli_eq]
    have : (0 : ℚ) ≤ (r : ℚ) := by exact_mod_cast hr
    positivity
  have hfl : set_row r = ⌊Util.RowToMilli (r : ℚ)⌋ := truncInt_of_nonneg hnn
  have h1 : ((set_row r : Int) : ℚ) ≤ Util.RowToMilli (r : ℚ) := by
    rw [hfl]; exact Int.floor_le _
  have h2 : Util.RowToMilli (r : ℚ) < ((set_row r : Int) : ℚ) + 1 := by
    rw [hfl]; exact Int.lt_floor_add_one _
  rw [rowToMilli_eq] at h1 h2
  rw [le_div_iff₀ (by norm_num)] at h1
  rw [div_lt_iff₀ (by norm_num)] at h2
  constructor
  · have : ((41 * set_row r : Int) : ℚ) ≤ ((1875 * r : Int) : ℚ) := by
      push_cast; linarith
    exact_mod_cast this
  · have : ((1875 * r : Int) : ℚ) < ((41 * set_row r + 41 : Int) : ℚ) := by
      push_cast; linarith
    exact_mod_cast this

/-- The row of a playing offset `m` is the integer quotient of `41 m` by `1875`. -/
theorem currentRow_bounds (m : Int) :
    1875 * currentRow m ≤ 41 * m ∧ 41 * m < 1875 * currentRow m + 1875 := by
  have h1 : ((currentRow m : Int) : ℚ) ≤ Util.MilliToRow (m : ℚ) := Int.floor_le _
  have h2 : Util.MilliToRow (m : ℚ) < ((currentRow m : Int) : ℚ) + 1 :=
    Int.lt_floor_add_one _
  rw [milliToRow_eq] at h1 h2
  rw [le_div_iff₀ (by norm_num)] at h1
  rw [div_lt_iff₀ (by norm_num)] at h2
  constructor
  · have : ((1875 * currentRow m : Int) : ℚ) ≤ ((41 * m : Int) : ℚ) := by
      push_cast; linarith
    exact_mod_cast this
  · have : ((41 * m : Int) : ℚ) < ((1875 * currentRow m + 1875 : Int) : ℚ) := by
      push_cast; linarith
    exact_mod_cast this

/-- C28: seeking to an editor row and recomputing the row as the main loop does is not
always the identity: for every integer row `r ≥ 1`, with the sound reporting the offset
that `set_row` set, `floor(MilliToRow(trunc(RowToMilli(r))))` is `r` when 41 divides `r`
and `r - 1` otherwise (exact arithmetic, BPM 164, 8 rows per beat). -/
theorem C28_seek_row (r : Int) (hr : 1 ≤ r) :
    currentRow (set_row r) = if 41 ∣ r then r else r - 1 := by
  obtain ⟨h1, h2⟩ := set_row_bounds r (by omega)
  obtain ⟨h3, h4⟩ := currentRow_bounds (set_row r)
  split_ifs with hd
  · omega
  · have h5 : ¬ (41 : Int) ∣ 1875 * r := by
      intro h
      have h6 : (41 : Int) ∣ 26 * (1875 * r) := Dvd.dvd.mul_left h 26
      omega
    have h7 : 41 * set_row r ≠ 1875 * r := fun heq => h5 ⟨set_row r, heq.symm⟩
    omega

/-- Witness of C28: row 1 comes back as row 0 and row 41 as row 41. -/
theorem C28_seek_row_witness :
    currentRow (set_row 1) = 0 ∧ currentRow (set_row 41) = 41 :=
  ⟨by rw [C28_seek_row 1 (by decide)]; decide, by rw [C28_seek_row 41 (by decide)]; decide⟩

/-- C29: the conversions of `Util` are mutually inverse linear maps in exact arithmetic:
`BeatsToMilli(MilliToBeats(m)) = m`, `MilliToBeats(BeatsToMilli(b)) = b`,
`RowToMilli(MilliToRow(m)) = m` and `MilliToRow(RowToMilli(r)) = r` for all values, with
`MilliToRow(m) = m * 164 * 8 / 60000`. -/
theorem C29_util_inverse (m b r : ℚ) :
    Util.BeatsToMilli (Util.MilliToBeats m) = m
      ∧ Util.MilliToBeats (Util.BeatsToMilli b) = b
      ∧ Util.RowToMilli (Util.MilliToRow m) = m
      ∧ Util.MilliToRow (Util.RowToMilli r) = r
      ∧ Util.MilliToRow m = m * 164 * 8 / 60000 := by
  unfold Util.RowToMilli Util.MilliToRow Util.BeatsToMilli Util.MilliToBeats Util.RPM Util.BPM
  refine ⟨?_, ?_, ?_, ?_, ?_⟩ <;> ring

/-! ## The results of `GLShader::Compile` -/

/-- The method `Compile(type, path)` returns `true` exactly when the file loads and
`CompileString` returns `false`. -/
theorem compileTyped_true_iff (env : ShaderEnv) (type : GLShaderType) (path : String) :
    GLShader.CompileTyped env type path = true
      ↔ ∃ content, LoadShaderFile env path = some content
          ∧ GLShader.CompileString env type content = false := by
  unfold GLShader.CompileTyped
  cases hl : LoadShaderFile env path with
  | none => simp
  | some content =>
    cases hc : GLShader.CompileString env type content <;> simp [hc]

/-- The method `Compile(path)` returns `true` exactly when the extension is recognised
and `Compile(type, path)` returns `false`. -/
theorem compile_true_iff (env : ShaderEnv) (path : String) :
    GLShader.Compile env path = .ok true
      ↔ ∃ type, InferShaderType path = .ok (some type)
          ∧ GLShader.CompileTyped env type path = false := by
  unfold GLShader.Compile
  cases hi : InferShaderType path with
  | error e => simp
  | ok t =>
    cases t with
    | none => simp
    | some type =>
      cases hc : GLShader.CompileTyped env type path <;> simp [hc]

/-- C30 (counterexample): the file `quad.txt` cannot be loaded and its extension is not
recognised; `Compile(path)` returns `false`. -/
theorem C30_compile_counterexample :
    LoadShaderFile exampleNoFiles "quad.txt" = none
      ∧ InferShaderType "quad.txt" = .ok none
      ∧ GLShader.Compile exampleNoFiles "quad.txt" = .ok false :=
  ⟨rfl, rfl, rfl⟩

/-- C30 (amended): `Compile(type, path)` returns `true` if and only if the shader file
loads and `CompileString` returns `false`, and `Compile(path)` returns `true` if and only
if the file extension is recognised and `Compile(type, path)` returns `false`; hence
`Compile(type, path)` returns `false` whenever the shader compiles successfully, and
`Compile(path)` returns `true` when the extension is recognised and the file cannot be
loaded, and `false` when the extension is not recognised. -/
theorem C30_compile_results (env : ShaderEnv) (type : GLShaderType) (path : String) :
    (GLShader.CompileTyped env type path = true
        ↔ ∃ content, LoadShaderFile env path = some content
            ∧ GLShader.CompileString env type content = false)
      ∧ (GLShader.Compile env path = .ok true
        ↔ ∃ t, InferShaderType path = .ok (some t)
            ∧ GLShader.CompileTyped env t path = false)
      ∧ (∀ content, LoadShaderFile env path = some content →
          env.compileStatus type content ≠ 0 →
          GLShader.CompileString env type content = true
            ∧ GLShader.CompileTyped env type path = false)
      ∧ (∀ t, InferShaderType path = .ok (some t) → LoadShaderFile env path = none →
          GLShader.Compile env path = .ok true)
      ∧ (InferShaderType path = .ok none → GLShader.Compile env path = .ok false) := by
  refine ⟨compileTyped_true_iff env type path, compile_true_iff env path, ?_, ?_, ?_⟩
  · intro content hl hs
    have hc : GLShader.CompileString env type content = true := by
      simp [GLShader.CompileString, hs]
    exact ⟨hc, by simp [GLShader.CompileTyped, hl, hc]⟩
  · intro t hi hl
    exact (compile_true_iff env path).mpr ⟨t, hi, by simp [GLShader.CompileTyped, hl]⟩
  · intro hi
    simp [GLShader.Compile, hi]

/-- Witness of the amended C30: `quad.vert` has a recognised extension and cannot be
loaded; `Compile(path)` returns `true`. -/
theorem C30_compile_results_witness :
    InferShaderType "quad.vert" = .ok (some .VertexShader)
      ∧ LoadShaderFile exampleNoFiles "quad.vert" = none
      ∧ GLShader.Compile exampleNoFiles "quad.vert" = .ok true :=
  ⟨rfl, rfl, (C30_compile_results exampleNoFiles .VertexShader "quad.vert").2.2.2.1
    .VertexShader rfl rfl⟩

end Achfivesec
